import Mathlib

/-!
# Cachetron — verification of the spec's claims against a shallow embedding

This file embeds the parts of the Cachetron in-memory key-value server that
the frozen claims are about: the request codec (`parse_req`), the response
serializers (`out_*`), the progressive hash map (`hm_*`), the order-statistic
AVL tree and sorted set (`zset_*`), the TTL min-heap (`heap_*`), the timer
computation (`next_timer`) and the command dispatcher (`do_request` and the
command handlers).  C-level pointer structures are rendered functionally:
byte strings are `List Nat` (each element < 256), intrusive hash nodes carry
their key directly, the AVL parent pointers become a zipper context, and the
heap back-pointers (`size_t *ref`) become a map from entry identity to index.
Machine integers are `Nat`/`Int` with explicit `% 2^64` where the C wraps.
-/

namespace Cachetron

/-- Bytes are naturals below 256; byte strings are lists of bytes. -/
abbrev Bytes := List Nat

/-- Little-endian value of a byte list (least significant byte first). -/
def fromLE (l : Bytes) : Nat := l.foldr (fun b acc => b + 256 * acc) 0

/-- The 4 little-endian bytes of a 32-bit value (`memcpy` of a `uint32_t`). -/
def u32Bytes (n : Nat) : Bytes :=
  [n % 256, n / 256 % 256, n / 2 ^ 16 % 256, n / 2 ^ 24 % 256]

/-- Read a `uint32_t` stored little-endian at offset `pos` of `data`
(the `memcpy(&sz, &data[pos], 4)` idiom). -/
def readU32 (data : Bytes) (pos : Nat) : Nat :=
  fromLE ((data.drop pos).take 4)

theorem fromLE_u32Bytes (n : Nat) (h : n < 2 ^ 32) : fromLE (u32Bytes n) = n := by
  simp only [u32Bytes, fromLE, List.foldr]
  omega

theorem u32Bytes_length (n : Nat) : (u32Bytes n).length = 4 := rfl

/-! ## Request codec (`parse_req`, `src/server.c:216`)

The payload is `argc: u32 LE` followed by `argc` arguments, each `len: u32 LE`
then `len` bytes.  `parseArgs` is the `while (n > 0)` loop of `parse_req`,
with the explicit `pos` cursor and the accumulated output vector; the final
`pos != len` check (trailing data) is performed when the count reaches 0. -/
def parseArgs : Nat → Bytes → Nat → List Bytes → Option (List Bytes)
  | 0, data, pos, acc => if pos = data.length then some acc.reverse else none
  | n + 1, data, pos, acc =>
    if pos + 4 > data.length then none
    else
      let sz := readU32 data pos
      if pos + 4 + sz > data.length then none
      else parseArgs n data (pos + 4 + sz) ((data.drop (pos + 4)).take sz :: acc)

/-- `k_max_args` (`src/server.c:27`). -/
def k_max_args : Nat := 1024

/-- `k_max_msg` (`src/server.c:26`). -/
def k_max_msg : Nat := 4096

/-- `parse_req` (`src/server.c:216`): returns `none` where the C returns `-1`. -/
def parse_req (data : Bytes) : Option (List Bytes) :=
  if data.length < 4 then none
  else
    let n := readU32 data 0
    if n > k_max_args then none
    else parseArgs n data 4 []

/-- The request payload encoding produced by the client (`send_req`,
`src/client.c:99`, after the outer frame length): the argument count as
`u32` LE, then each argument's length as `u32` LE followed by its bytes. -/
def encodeArg (a : Bytes) : Bytes := u32Bytes a.length ++ a

def encodeReq (argv : List Bytes) : Bytes :=
  u32Bytes argv.length ++ (argv.map encodeArg).flatten

theorem readU32_append_u32Bytes (pre rest : Bytes) (n : Nat) (h : n < 2 ^ 32) :
    readU32 (pre ++ (u32Bytes n ++ rest)) pre.length = n := by
  rw [readU32, List.drop_left]
  rw [show u32Bytes n ++ rest = (u32Bytes n ++ rest) from rfl, List.take_append_of_le_length
    (by simp [u32Bytes_length])]
  rw [show (u32Bytes n).take 4 = u32Bytes n from List.take_of_length_le (by simp [u32Bytes_length])]
  exact fromLE_u32Bytes n h

theorem parseArgs_encode (args : List Bytes) (pre : Bytes) (acc : List Bytes) (g : Bytes)
    (h : ∀ a ∈ args, a.length < 2 ^ 32) :
    parseArgs args.length (pre ++ ((args.map encodeArg).flatten ++ g)) pre.length acc
      = if g = [] then some (acc.reverse ++ args) else none := by
  induction args generalizing pre acc with
  | nil =>
      have hgl : g = [] ↔ g.length = 0 := (List.length_eq_zero).symm
      simp only [List.map_nil, List.flatten, List.nil_append, List.length_nil, parseArgs,
        List.length_append, List.append_nil]
      by_cases hg : g = []
      · simp [hg]
      · have : g.length ≠ 0 := fun hc => hg (List.length_eq_zero.mp hc)
        rw [if_neg (by omega), if_neg hg]
  | cons a args ih =>
      have ha : a.length < 2 ^ 32 := h a (by simp)
      have hrest : ∀ b ∈ args, b.length < 2 ^ 32 := fun b hb => h b (by simp [hb])
      have hdata : pre ++ (((a :: args).map encodeArg).flatten ++ g)
          = pre ++ (u32Bytes a.length ++ (a ++ ((args.map encodeArg).flatten ++ g))) := by
        simp [encodeArg]
      rw [hdata]
      simp only [List.length_cons, parseArgs]
      rw [if_neg (by simp only [List.length_append, u32Bytes_length]; omega)]
      rw [readU32_append_u32Bytes pre (a ++ ((args.map encodeArg).flatten ++ g)) a.length ha]
      rw [if_neg (by simp only [List.length_append, u32Bytes_length]; omega)]
      have hslice : ((pre ++ (u32Bytes a.length ++ (a ++ ((args.map encodeArg).flatten ++ g)))).drop
          (pre.length + 4)).take a.length = a := by
        have h1 : pre ++ (u32Bytes a.length ++ (a ++ ((args.map encodeArg).flatten ++ g)))
            = (pre ++ u32Bytes a.length) ++ (a ++ ((args.map encodeArg).flatten ++ g)) := by simp
        have h2 : pre.length + 4 = (pre ++ u32Bytes a.length).length := by
          simp [u32Bytes_length]
        rw [h1, h2, List.drop_left, List.take_left]
      rw [hslice]
      have hpre : pre.length + 4 + a.length = (pre ++ encodeArg a).length := by
        simp [encodeArg, u32Bytes_length]
        omega
      have hdata2 : pre ++ (u32Bytes a.length ++ (a ++ ((args.map encodeArg).flatten ++ g)))
          = (pre ++ encodeArg a) ++ ((args.map encodeArg).flatten ++ g) := by
        simp [encodeArg]
      rw [hpre, hdata2, ih (pre ++ encodeArg a) (a :: acc) hrest]
      by_cases hg : g = [] <;> simp [hg]

theorem parse_req_encode (argv : List Bytes) (g : Bytes)
    (hc : argv.length ≤ k_max_args)
    (h : ∀ a ∈ argv, a.length < 2 ^ 32) :
    parse_req (encodeReq argv ++ g) = if g = [] then some argv else none := by
  have hlt : argv.length < 2 ^ 32 := lt_of_le_of_lt hc (by norm_num [k_max_args])
  have hdata : encodeReq argv ++ g
      = [] ++ (u32Bytes argv.length ++ ((argv.map encodeArg).flatten ++ g)) := by
    simp [encodeReq]
  rw [parse_req, hdata]
  rw [if_neg (by simp [u32Bytes_length])]
  have hr := readU32_append_u32Bytes [] ((argv.map encodeArg).flatten ++ g) argv.length hlt
  simp only [List.length_nil] at hr
  simp only [List.nil_append] at hr ⊢
  rw [hr, if_neg (by omega)]
  have := parseArgs_encode argv (u32Bytes argv.length) [] g h
  simp only [u32Bytes_length, List.reverse_nil, List.nil_append] at this
  exact this


/-- C8: any request argv within the protocol bounds (≤ 1024 arguments, total
encoded payload ≤ 4092 bytes) parses back from its standard encoding to
exactly itself, and `parse_req` rejects the encoding followed by any
non-empty run of trailing bytes. -/
theorem claim_c8_codec_roundtrip (argv : List Bytes) (g : Bytes)
    (hc : argv.length ≤ 1024)
    (hsz : 4 + (argv.map (fun a => 4 + a.length)).sum ≤ 4092)
    (hg : g ≠ []) :
    parse_req (encodeReq argv) = some argv ∧ parse_req (encodeReq argv ++ g) = none := by
  have hlen : ∀ a ∈ argv, a.length < 2 ^ 32 := by
    intro a ha
    have hmem : (4 + a.length) ∈ argv.map (fun a => 4 + a.length) :=
      List.mem_map_of_mem (fun a => 4 + a.length) ha
    have := List.single_le_sum (l := argv.map (fun a => 4 + a.length))
      (fun x _ => Nat.zero_le x) _ hmem
    omega
  constructor
  · have := parse_req_encode argv [] hc hlen
    simpa using this
  · have := parse_req_encode argv g hc hlen
    simpa [hg] using this

theorem claim_c8_codec_roundtrip_witness :
    parse_req (encodeReq [[103, 101, 116], [107]]) = some [[103, 101, 116], [107]]
      ∧ parse_req (encodeReq [[103, 101, 116], [107]] ++ [0]) = none :=
  claim_c8_codec_roundtrip [[103, 101, 116], [107]] [0] (by decide) (by decide) (by decide)

/-! ## Response serialization (`out_*`, `src/server.c:384`–`475`)

Responses are byte strings built by appending tagged segments to `out`;
each `out_*` helper is modelled as the segment it appends. -/

/-- Serialization tag codes (`src/common.h:69`). -/
def SER_NIL : Nat := 0
def SER_ERR : Nat := 1
def SER_STR : Nat := 2
def SER_INT : Nat := 3
def SER_DBL : Nat := 4
def SER_ARR : Nat := 5

/-- Error codes (`src/server.c:325`). -/
def ERR_UNKNOWN : Nat := 1
def ERR_2BIG : Nat := 2
def ERR_TYPE : Nat := 3
def ERR_ARG : Nat := 4

/-- The 8 little-endian bytes of a 64-bit value. -/
def u64Bytes (n : Nat) : Bytes :=
  [n % 256, n / 2 ^ 8 % 256, n / 2 ^ 16 % 256, n / 2 ^ 24 % 256,
   n / 2 ^ 32 % 256, n / 2 ^ 40 % 256, n / 2 ^ 48 % 256, n / 2 ^ 56 % 256]

/-- `memcpy` of an `int64_t`: two's-complement little-endian bytes. -/
def i64Bytes (v : Int) : Bytes := u64Bytes (v % 2 ^ 64).toNat

/-- `memcpy` of an `int32_t`: two's-complement little-endian bytes. -/
def i32Bytes (v : Int) : Bytes := u32Bytes (v % 2 ^ 32).toNat

/-- ASCII bytes of a literal C string. -/
def ascii (s : String) : Bytes := s.toList.map Char.toNat

def out_nil : Bytes := [SER_NIL]

/-- `out_str` is always called with `size = string_length(val)`. -/
def out_str (val : Bytes) : Bytes := SER_STR :: (u32Bytes val.length ++ val)

def out_int (v : Int) : Bytes := SER_INT :: i64Bytes v

def out_err (code : Int) (msg : Bytes) : Bytes :=
  SER_ERR :: (i32Bytes code ++ u32Bytes msg.length ++ msg)

/-- `out_arr`/`begin_arr`+`end_arr`: tag, 4-byte count, then the elements.
`end_arr` patches the reserved count slot, so the net effect of
`begin_arr`; emit `body`; `end_arr n` is this segment. -/
def out_arr (n : Nat) (body : Bytes) : Bytes := SER_ARR :: (u32Bytes n ++ body)

/-- `out_dbl` writes the 8 bytes of the IEEE-754 double.  Scores are
abstracted to `Int` in this embedding (only their ordering and equality
matter to the code paths under verification), so the serialized form is
kept abstract as well: theorems about responses containing doubles are
parameterized by the 8-byte encoding function `enc`. -/
def out_dbl (enc : Int → Bytes) (v : Int) : Bytes := SER_DBL :: enc v

/-- The response clamp of `try_one_request` (`src/server.c:1331`): if the
frame (4-byte header + payload) would exceed `k_max_msg`, the payload is
replaced by `ERR_2BIG` with message "Response is too big". -/
def toobigResponse : Bytes := out_err (Int.ofNat ERR_2BIG) (ascii "Response is too big")

def clampResponse (out : Bytes) : Bytes :=
  if 4 + out.length > k_max_msg then toobigResponse else out

/-- C9 counterexample: a 4093-byte response payload is within the claimed
4096-byte payload limit, yet `try_one_request` replaces it (its test is
`4 + length > 4096`, a threshold of 4092, not 4096). -/
theorem claim_c9_counterexample :
    (List.replicate 4093 (0 : Nat)).length ≤ 4096
      ∧ clampResponse (List.replicate 4093 (0 : Nat)) ≠ List.replicate 4093 (0 : Nat) := by
  constructor
  · simp only [List.length_replicate]
    omega
  · have h : clampResponse (List.replicate 4093 (0 : Nat)) = toobigResponse := by
      rw [clampResponse, if_pos]
      simp only [List.length_replicate, k_max_msg]
      omega
    rw [h]
    intro hc
    have := congrArg List.length hc
    simp only [List.length_replicate] at this
    have hlen : toobigResponse.length = 28 := by decide
    omega

/-- C9 (amended): the serialized response payload is replaced by
`ERR(TOOBIG)` iff the payload exceeds 4092 bytes — that is, iff the framed
message (4-byte header plus payload) exceeds the 4096-byte message limit;
a payload of at most 4092 bytes is sent unaltered. -/
theorem claim_c9_amended (out : Bytes) :
    (out.length ≤ 4092 → clampResponse out = out)
      ∧ (out.length > 4092 →
          clampResponse out = out_err (Int.ofNat ERR_2BIG) (ascii "Response is too big")) := by
  constructor
  · intro h
    rw [clampResponse, if_neg (by simp only [k_max_msg]; omega)]
  · intro h
    rw [clampResponse, if_pos (by simp only [k_max_msg]; omega)]
    rfl

theorem claim_c9_amended_witness :
    clampResponse [7] = [7]
      ∧ clampResponse (List.replicate 4093 (0 : Nat))
          = out_err (Int.ofNat ERR_2BIG) (ascii "Response is too big") :=
  ⟨(claim_c9_amended [7]).1 (by decide),
   (claim_c9_amended (List.replicate 4093 (0 : Nat))).2
     (by simp only [List.length_replicate]; omega)⟩

/-! ## Progressive hash map (`src/data_structures/hashtable.c`)

The C hash table is intrusive: nodes embed a `next` pointer and a cached
64-bit hash code, and all operations take an equality callback.  Here a node
is its cached hash code together with the element, a bucket is the list of
nodes in chain order (head = most recently inserted), and a table is the
optional bucket array (`none` models a null `tab` pointer) with its mask and
size.  `h_lookup` returns the *position* of the found node — the functional
rendering of the C `HNode **` incoming-pointer — and `h_detach` takes such a
position; passing it `none` models dereferencing a null `HNode **`, which is
undefined behaviour in the C, rendered as `Except.error`. -/

/-- FNV-1a over the key bytes, 64-bit (`fnv1a_hash`, `src/common.h:40`).
The source's shift-add update equals multiplication by the FNV prime
modulo `2^64` (`fnv1a_shift_eq_mul` below). -/
def fnv1a (data : Bytes) : Nat :=
  data.foldl (fun h b => ((h ^^^ b) * 0x100000001b3) % 2 ^ 64) 0xcbf29ce484222325

/-- The `__NO_FNV_GCC_OPTIMIZATION__` branch of `fnv1a_hash` multiplies by
the FNV prime; the default branch adds six shifted copies.  They agree
modulo `2^64`. -/
theorem fnv1a_shift_eq_mul (h : Nat) :
    (h + (h * 2 ^ 1 + h * 2 ^ 4 + h * 2 ^ 5 + h * 2 ^ 7 + h * 2 ^ 8 + h * 2 ^ 40)) % 2 ^ 64
      = h * 0x100000001b3 % 2 ^ 64 := by
  ring_nf

structure HNode (α : Type) where
  hcode : Nat
  data : α
deriving Repr, DecidableEq

/-- A bucketed table (`HTab`): `tab = none` is a null bucket array. -/
structure HTab (α : Type) where
  tab : Option (List (List (HNode α)))
  mask : Nat
  size : Nat
deriving Repr, DecidableEq

/-- `init_htab`: the all-zero table with a null bucket array. -/
def HTab.null (α : Type) : HTab α := ⟨none, 0, 0⟩

/-- `clp2`: round up to the next power of two (`src/data_structures/hashtable.c:22`). -/
def clp2 (x : Nat) : Nat :=
  let x := x - 1
  let x := x ||| x / 2 ^ 1
  let x := x ||| x / 2 ^ 2
  let x := x ||| x / 2 ^ 4
  let x := x ||| x / 2 ^ 8
  let x := x ||| x / 2 ^ 16
  x + 1

/-- `h_init` (`src/data_structures/hashtable.c:43`). -/
def h_init (α : Type) (n : Nat) : HTab α :=
  let n := if n = 0 then 2 else n
  let n := if n &&& (n - 1) ≠ 0 then clp2 n else n
  ⟨some (List.replicate n []), n - 1, 0⟩

/-- `h_insert` (`src/data_structures/hashtable.c:62`): prepend to the bucket
at `hcode & mask`.  A null bucket array is never passed by the callers. -/
def h_insert (htab : HTab α) (node : HNode α) : HTab α :=
  match htab.tab with
  | none => htab
  | some buckets =>
    let pos := node.hcode &&& htab.mask
    ⟨some (buckets.set pos (node :: buckets.getD pos [])), htab.mask, htab.size + 1⟩

/-- `h_lookup` (`src/data_structures/hashtable.c:85`): position of the first
chain node with matching hash code and callback-equal data. -/
def h_lookup (htab : HTab α) (key : HNode α) (eq : HNode α → HNode α → Bool) :
    Option (Nat × Nat) :=
  match htab.tab with
  | none => none
  | some buckets =>
    let pos := key.hcode &&& htab.mask
    match (buckets.getD pos []).findIdx? fun cur => cur.hcode == key.hcode && eq cur key with
    | some i => some (pos, i)
    | none => none

/-- Fetch the node a `h_lookup` position refers to. -/
def h_at (htab : HTab α) (ref : Nat × Nat) : Option (HNode α) :=
  match htab.tab with
  | none => none
  | some buckets => (buckets.getD ref.1 []).get? ref.2

/-- `h_detach` (`src/data_structures/hashtable.c:105`): unlink the node at a
lookup position.  The C dereferences the position pointer unconditionally;
a null position (`none`) is undefined behaviour, rendered as an error. -/
def h_detach (htab : HTab α) (ref : Option (Nat × Nat)) :
    Except Unit (HNode α × HTab α) :=
  match ref with
  | none => .error ()
  | some (pos, i) =>
    match htab.tab with
    | none => .error ()
    | some buckets =>
      match (buckets.getD pos []).get? i with
      | none => .error ()
      | some node =>
        .ok (node, ⟨some (buckets.set pos ((buckets.getD pos []).eraseIdx i)),
          htab.mask, htab.size - 1⟩)

structure HMap (α : Type) where
  ht1 : HTab α
  ht2 : HTab α
  resizing_pos : Nat
deriving Repr, DecidableEq

/-- `init_hmap`. -/
def HMap.init (α : Type) : HMap α := ⟨HTab.null α, HTab.null α, 0⟩

/-- `k_resizing_work` (`src/data_structures/hashtable.c:7`). -/
def k_resizing_work : Nat := 128

/-- The scan-and-move loop of `hm_help_resizing`
(`src/data_structures/hashtable.c:122`).  Every iteration either moves a
node (so `ht2.size` drops) or advances the cursor past an empty bucket, so
`ht2.size + (buckets − cursor)` bounds the iteration count; `fuel` carries
that bound to make the recursion structural (the model then evaluates by
`rfl`).  A `resizing_pos` beyond the bucket array with `ht2.size > 0` would
be an out-of-bounds read in the C; it cannot arise from the exported
operations, and the model stops there. -/
def helpLoop : Nat → HMap α → Nat → HMap α
  | 0, m, _ => m
  | fuel + 1, m, nwork =>
    if nwork < k_resizing_work ∧ m.ht2.size > 0 then
      match m.ht2.tab with
      | none => m
      | some buckets =>
        if m.resizing_pos < buckets.length then
          match buckets.getD m.resizing_pos [] with
          | [] => helpLoop fuel ⟨m.ht1, m.ht2, m.resizing_pos + 1⟩ nwork
          | node :: rest =>
            helpLoop fuel ⟨h_insert m.ht1 node,
              ⟨some (buckets.set m.resizing_pos rest), m.ht2.mask, m.ht2.size - 1⟩,
              m.resizing_pos⟩ (nwork + 1)
        else m
    else m

/-- Iteration bound for `helpLoop` from state `m`. -/
def helpFuel (m : HMap α) : Nat :=
  m.ht2.size + (match m.ht2.tab with | none => 0 | some b => b.length) + 1

/-- `hm_help_resizing` (`src/data_structures/hashtable.c:122`): run the move
loop, then free the retiring table if it has emptied. -/
def hm_help_resizing (m : HMap α) : HMap α :=
  let m := helpLoop (helpFuel m) m 0
  if m.ht2.size = 0 ∧ m.ht2.tab.isSome then ⟨m.ht1, HTab.null α, m.resizing_pos⟩ else m

/-- `hm_start_resizing` (`src/data_structures/hashtable.c:150`). -/
def hm_start_resizing (m : HMap α) : HMap α :=
  ⟨h_init α ((m.ht1.mask + 1) * 2), m.ht1, 0⟩

/-- `hm_lookup` (`src/data_structures/hashtable.c:166`): help the resizing,
then consult `ht1` and fall back to `ht2`.  Returns the advanced map and the
found node. -/
def hm_lookup (m : HMap α) (key : HNode α) (eq : HNode α → HNode α → Bool) :
    HMap α × Option (HNode α) :=
  let m := hm_help_resizing m
  match h_lookup m.ht1 key eq with
  | some r => (m, h_at m.ht1 r)
  | none =>
    match h_lookup m.ht2 key eq with
    | some r => (m, h_at m.ht2 r)
    | none => (m, none)

/-- `k_max_load_factor` (`src/data_structures/hashtable.c:8`). -/
def k_max_load_factor : Nat := 8

/-- `hm_insert` (`src/data_structures/hashtable.c:181`). -/
def hm_insert (m : HMap α) (node : HNode α) : HMap α :=
  let m := if m.ht1.tab.isNone then { m with ht1 := h_init α 4 } else m
  let m := { m with ht1 := h_insert m.ht1 node }
  let m :=
    if m.ht2.tab.isNone ∧ m.ht1.size / (m.ht1.mask + 1) ≥ k_max_load_factor then
      hm_start_resizing m
    else m
  hm_help_resizing m

/-- `hm_pop` (`src/data_structures/hashtable.c:207`): after a miss in `ht1`,
the C computes the `ht2` position into `from2` but passes the null `from`
to `h_detach` — dereferencing a null pointer whenever the key still lives
in the retiring table. -/
def hm_pop (m : HMap α) (key : HNode α) (eq : HNode α → HNode α → Bool) :
    Except Unit (HMap α × Option (HNode α)) :=
  let m := hm_help_resizing m
  let from1 := h_lookup m.ht1 key eq
  match from1 with
  | some _ => do
    let (node, ht1) ← h_detach m.ht1 from1
    return (⟨ht1, m.ht2, m.resizing_pos⟩, some node)
  | none =>
    match h_lookup m.ht2 key eq with
    | some _ => do
      -- BUG (src/data_structures/hashtable.c:215): `h_detach(&hmap->ht2, from)`
      -- uses `from` (null here), not `from2`.
      let (node, ht2) ← h_detach m.ht2 from1
      return (⟨m.ht1, ht2, m.resizing_pos⟩, some node)
    | none => .ok (m, none)

/-- `hm_size` (`src/data_structures/hashtable.c:226`). -/
def hm_size (m : HMap α) : Nat := m.ht1.size + m.ht2.size

/-! ### The server's instantiation: nodes keyed by raw bytes

`entry_eq` (`src/server.c:318`) compares the two entries' key strings with
`string_compare` (equal length and equal bytes), and every node's cached
hash code is `fnv1a_hash` of its key. -/

/-- `string_compare` (`src/data_structures/string_c.c:211`): equality of
sizes and bytes, as a Bool (true = equal). -/
def string_compare (s1 s2 : Bytes) : Bool := s1 == s2

def entry_eq_keys (a b : HNode Bytes) : Bool := string_compare a.data b.data

def mkKeyNode (k : Bytes) : HNode Bytes := ⟨fnv1a k, k⟩

/-- Equality callback for plain `Nat`-keyed nodes (test instantiation of the
intrusive table, mirroring `compare_hnode`-style callbacks). -/
def natEq (a b : HNode Nat) : Bool := a.data == b.data

/-- A mid-rehash map as `hm_start_resizing` leaves it: a retiring table of
130 nodes in buckets 0..129 of its 256-bucket array, and a fresh current
table of 512 (= 2 × 256) empty buckets.  Such states are reachable: the
resize that starts at 512 entries (capacity 64 · load factor 8) retires 512
nodes and help steps drain only 128 per operation. -/
def midRehash : HMap Nat :=
  { ht1 := ⟨some (List.replicate 512 []), 511, 0⟩
    ht2 := ⟨some ((List.range 256).map fun i => if i < 130 then [⟨i, i⟩] else []), 255, 130⟩
    resizing_pos := 0 }

/-- C1: `hm_pop` on a key that — after the incremental-rehash step — misses
the current table but is present in the retiring table does not remove and
return the entry as claimed: it passes the null `ht1` position to
`h_detach` (a null-pointer dereference in the C, `Except.error` here). -/
theorem claim_c1_pop_in_retiring_crashes {α : Type} (m : HMap α) (key : HNode α)
    (eq : HNode α → HNode α → Bool)
    (h1 : h_lookup (hm_help_resizing m).ht1 key eq = none)
    (h2 : (h_lookup (hm_help_resizing m).ht2 key eq).isSome) :
    hm_pop m key eq = .error () := by
  obtain ⟨r, hr⟩ := Option.isSome_iff_exists.mp h2
  simp only [hm_pop, h1, hr]
  rfl

set_option maxRecDepth 10000 in
theorem claim_c1_pop_in_retiring_crashes_witness :
    (h_lookup (hm_help_resizing midRehash).ht1 ⟨129, 129⟩ natEq = none
        ∧ (h_lookup (hm_help_resizing midRehash).ht2 ⟨129, 129⟩ natEq).isSome)
      ∧ hm_pop midRehash ⟨129, 129⟩ natEq = .error () := by
  have h1 : h_lookup (hm_help_resizing midRehash).ht1 ⟨129, 129⟩ natEq = none := by rfl
  have h2 : (h_lookup (hm_help_resizing midRehash).ht2 ⟨129, 129⟩ natEq).isSome := by rfl
  exact ⟨⟨h1, h2⟩, claim_c1_pop_in_retiring_crashes midRehash ⟨129, 129⟩ natEq h1 h2⟩

/-! ## TTL min-heap (`src/data_structures/heap.c`, `src/data_structures/trees/heap.h`)

`HeapItem` carries a 64-bit deadline `val` and a back pointer `ref` — in C a
`size_t *` into the owning entry's `heap_idx` field.  The pointed-to slots
are modelled as one `store : Bytes → Nat` indexed by entry identity, and the C
idiom `item[pos] = x; *item[pos].ref = pos;` becomes `writeAt`. -/

structure HeapItem where
  val : Nat
  ref : Bytes
deriving Repr, DecidableEq

structure HeapState where
  arr : List HeapItem
  store : Bytes → Nat

/-- `heap_parent` (`src/data_structures/trees/heap.h:37`).  In C this is
`(i + 1) / 2 - 1` on `size_t`; it is never evaluated at `i = 0` (all call
sites guard with `pos > 0`), so the `Nat` truncation at 0 is harmless. -/
def heap_parent (i : Nat) : Nat := (i + 1) / 2 - 1

/-- `heap_left` (`src/data_structures/trees/heap.h:47`). -/
def heap_left (i : Nat) : Nat := i * 2 + 1

/-- `heap_right` (`src/data_structures/trees/heap.h:57`). -/
def heap_right (i : Nat) : Nat := i * 2 + 2

def getItem (a : List HeapItem) (i : Nat) : HeapItem := a.getD i ⟨0, []⟩

/-- `item[pos] = x; *item[pos].ref = pos;` -/
def writeAt (s : HeapState) (pos : Nat) (x : HeapItem) : HeapState :=
  ⟨s.arr.set pos x, Function.update s.store x.ref pos⟩

/-- The loop of `heap_up` (`src/data_structures/heap.c:12`): `t` is the item
being sifted (read once at entry), `pos` the current hole.  `fuel ≥ pos`
makes the recursion structural; the loop moves to `heap_parent pos < pos`
each iteration, so the bound is preserved and never exhausted early. -/
def heapUpAux : Nat → HeapState → HeapItem → Nat → HeapState
  | 0, s, t, pos => writeAt s pos t
  | fuel + 1, s, t, pos =>
    if 0 < pos ∧ (getItem s.arr (heap_parent pos)).val > t.val then
      heapUpAux fuel (writeAt s pos (getItem s.arr (heap_parent pos))) t (heap_parent pos)
    else writeAt s pos t

/-- `heap_up` (`src/data_structures/heap.c:12`). -/
def heap_up (s : HeapState) (pos : Nat) : HeapState :=
  heapUpAux pos s (getItem s.arr pos) pos

/-- The loop of `heap_down` (`src/data_structures/heap.c:38`): per iteration
the C computes `min_pos` among the in-range children whose value beats the
running minimum (starting from `t.val`, left child checked first); if none
beats it the loop ends.  The hole index strictly increases, so
`fuel ≥ len - pos` keeps the recursion structural. -/
def heapDownAux : Nat → HeapState → HeapItem → Nat → Nat → HeapState
  | 0, s, t, pos, _ => writeAt s pos t
  | fuel + 1, s, t, pos, len =>
    let l := heap_left pos
    let r := heap_right pos
    if l < len ∧ (getItem s.arr l).val < t.val then
      if r < len ∧ (getItem s.arr r).val < (getItem s.arr l).val then
        heapDownAux fuel (writeAt s pos (getItem s.arr r)) t r len
      else
        heapDownAux fuel (writeAt s pos (getItem s.arr l)) t l len
    else
      if r < len ∧ (getItem s.arr r).val < t.val then
        heapDownAux fuel (writeAt s pos (getItem s.arr r)) t r len
      else
        writeAt s pos t

/-- `heap_down` (`src/data_structures/heap.c:38`). -/
def heap_down (s : HeapState) (pos len : Nat) : HeapState :=
  heapDownAux len s (getItem s.arr pos) pos len

/-- `heap_update` (`src/data_structures/heap.c:70`). -/
def heap_update (s : HeapState) (pos len : Nat) : HeapState :=
  if 0 < pos ∧ (getItem s.arr (heap_parent pos)).val > (getItem s.arr pos).val
  then heap_up s pos
  else heap_down s pos len

/-- The min-heap ordering invariant, stated through parents as in the spec:
for every non-root index, the parent's deadline is no larger. -/
def IsMinHeap (a : List HeapItem) : Prop :=
  ∀ j, j < a.length → 0 < j → (getItem a (heap_parent j)).val ≤ (getItem a j).val

instance (a : List HeapItem) : Decidable (IsMinHeap a) := by
  unfold IsMinHeap
  infer_instance

/-- The fully repaired state: min-heap order plus every back pointer slot
holding its item's index. -/
structure HeapOk (s : HeapState) (n : Nat) : Prop where
  hlen : s.arr.length = n
  heap : ∀ j, 0 < j → j < n → (getItem s.arr (heap_parent j)).val ≤ (getItem s.arr j).val
  back : ∀ j, j < n → s.store ((getItem s.arr j).ref) = j

theorem getItem_eq (a : List HeapItem) (i : Nat) : getItem a i = (a[i]?).getD ⟨0, []⟩ := by
  simp [getItem, List.getD_eq_getElem?_getD]

theorem getItem_set_self (a : List HeapItem) (i : Nat) (x : HeapItem) (h : i < a.length) :
    getItem (a.set i x) i = x := by
  simp [getItem_eq, List.getElem?_set_eq_of_lt x h]

theorem getItem_set_ne (a : List HeapItem) (i j : Nat) (x : HeapItem) (h : i ≠ j) :
    getItem (a.set i x) j = getItem a j := by
  simp [getItem_eq, List.getElem?_set_ne h]

theorem writeAt_arr_length (s : HeapState) (pos : Nat) (x : HeapItem) :
    (writeAt s pos x).arr.length = s.arr.length := by
  simp [writeAt]

theorem getItem_writeAt_self (s : HeapState) (pos : Nat) (x : HeapItem)
    (h : pos < s.arr.length) : getItem (writeAt s pos x).arr pos = x :=
  getItem_set_self s.arr pos x h

theorem getItem_writeAt_ne (s : HeapState) (pos j : Nat) (x : HeapItem) (h : pos ≠ j) :
    getItem (writeAt s pos x).arr j = getItem s.arr j :=
  getItem_set_ne s.arr pos j x h

theorem writeAt_store (s : HeapState) (pos : Nat) (x : HeapItem) :
    (writeAt s pos x).store = Function.update s.store x.ref pos := rfl

theorem heap_parent_lt (j : Nat) (h : 0 < j) : heap_parent j < j := by
  unfold heap_parent
  omega

theorem heap_parent_eq_iff (j p : Nat) (hj : 0 < j) :
    heap_parent j = p ↔ j = 2 * p + 1 ∨ j = 2 * p + 2 := by
  unfold heap_parent
  omega

theorem heap_parent_left (p : Nat) : heap_parent (heap_left p) = p := by
  unfold heap_parent heap_left
  omega

theorem heap_parent_right (p : Nat) : heap_parent (heap_right p) = p := by
  unfold heap_parent heap_right
  omega

/-- Back-pointer bookkeeping while a sift hole sits at `pos`: every slot
other than the hole already records its index, no other slot shares the
sifted item's back pointer, and back pointers outside the hole are
pairwise distinct. -/
structure HoleBack (s : HeapState) (t : HeapItem) (pos n : Nat) : Prop where
  b1 : ∀ j, j < n → j ≠ pos → s.store ((getItem s.arr j).ref) = j
  b2 : ∀ j, j < n → j ≠ pos → (getItem s.arr j).ref ≠ t.ref
  b3 : ∀ j k, j < n → k < n → j ≠ pos → k ≠ pos →
        (getItem s.arr j).ref = (getItem s.arr k).ref → j = k

/-- Sift-up loop invariant: the array is a heap except on edges incident to
the hole, and the sifted item together with the hole's parent fit below the
hole's children. -/
structure UpInv (s : HeapState) (t : HeapItem) (pos n : Nat) : Prop where
  hlen : s.arr.length = n
  hpos : pos < n
  u1 : ∀ j, 0 < j → j < n → j ≠ pos → heap_parent j ≠ pos →
        (getItem s.arr (heap_parent j)).val ≤ (getItem s.arr j).val
  u2 : ∀ c, 0 < c → c < n → heap_parent c = pos → t.val ≤ (getItem s.arr c).val
  u3 : ∀ c, 0 < pos → 0 < c → c < n → heap_parent c = pos →
        (getItem s.arr (heap_parent pos)).val ≤ (getItem s.arr c).val
  back : HoleBack s t pos n

theorem upInv_final (s : HeapState) (t : HeapItem) (pos n : Nat)
    (inv : UpInv s t pos n)
    (hg : ¬(0 < pos ∧ (getItem s.arr (heap_parent pos)).val > t.val)) :
    HeapOk (writeAt s pos t) n := by
  have hpos := inv.hpos
  have hlen := inv.hlen
  refine ⟨by rw [writeAt_arr_length]; exact hlen, ?_, ?_⟩
  · intro j hj0 hjn
    by_cases hjp : j = pos
    · subst hjp
      have hne : heap_parent j ≠ j := Nat.ne_of_lt (heap_parent_lt j hj0)
      rw [getItem_writeAt_ne s j (heap_parent j) t (fun h => hne h.symm),
        getItem_writeAt_self s j t (hlen ▸ hpos)]
      rcases Nat.eq_zero_or_pos j with h0 | hpos0
      · omega
      · push_neg at hg
        exact Nat.le_of_not_lt fun hc => absurd (hg hpos0) (by omega)
    · by_cases hpp : heap_parent j = pos
      · rw [getItem_writeAt_ne s pos j t (fun h => hjp h.symm), hpp,
          getItem_writeAt_self s pos t (hlen ▸ hpos)]
        exact inv.u2 j hj0 hjn hpp
      · rw [getItem_writeAt_ne s pos j t (fun h => hjp h.symm),
          getItem_writeAt_ne s pos (heap_parent j) t (fun h => hpp h.symm)]
        exact inv.u1 j hj0 hjn hjp hpp
  · intro j hjn
    by_cases hjp : j = pos
    · subst hjp
      rw [getItem_writeAt_self s j t (hlen ▸ hpos), writeAt_store]
      simp [Function.update]
    · rw [getItem_writeAt_ne s pos j t (fun h => hjp h.symm), writeAt_store]
      have hne := inv.back.b2 j hjn hjp
      rw [Function.update_noteq hne]
      exact inv.back.b1 j hjn hjp

theorem upInv_step (s : HeapState) (t : HeapItem) (pos n : Nat)
    (inv : UpInv s t pos n)
    (hg : 0 < pos ∧ (getItem s.arr (heap_parent pos)).val > t.val) :
    UpInv (writeAt s pos (getItem s.arr (heap_parent pos))) t (heap_parent pos) n := by
  obtain ⟨hp0, hpv⟩ := hg
  have hpos := inv.hpos
  have hlen := inv.hlen
  set q := heap_parent pos with hq
  have hqlt : q < pos := heap_parent_lt pos hp0
  have hqn : q < n := lt_trans hqlt hpos
  have hqne : q ≠ pos := Nat.ne_of_lt hqlt
  -- value view of the new array
  have hval_pos : getItem (writeAt s pos (getItem s.arr q)).arr pos = getItem s.arr q :=
    getItem_writeAt_self s pos _ (hlen ▸ hpos)
  have hval_ne : ∀ j, j ≠ pos → getItem (writeAt s pos (getItem s.arr q)).arr j = getItem s.arr j :=
    fun j hj => getItem_writeAt_ne s pos j _ (fun h => hj h.symm)
  refine ⟨by rw [writeAt_arr_length]; exact hlen, hqn, ?_, ?_, ?_, ?_, ?_, ?_⟩
  · -- u1: heap on edges not incident to the new hole q
    intro j hj0 hjn hjq hpjq
    by_cases hjp : j = pos
    · subst hjp
      exact absurd hq.symm hpjq
    · by_cases hppj : heap_parent j = pos
      · -- j is a child of the old hole: new parent value is item q
        rw [hval_ne j hjp, hppj, hval_pos]
        exact inv.u3 j hp0 hj0 hjn hppj
      · rw [hval_ne j hjp, hval_ne (heap_parent j) hppj]
        exact inv.u1 j hj0 hjn hjp hppj
  · -- u2: t fits below the children of the new hole q
    intro c hc0 hcn hpc
    by_cases hcp : c = pos
    · subst hcp
      rw [hval_pos]
      omega
    · rw [hval_ne c hcp]
      -- sibling of pos under q: old u1 gives val q ≤ val c, and t < val q
      have := inv.u1 c hc0 hcn hcp (by rw [hpc]; exact hqne)
      rw [hpc] at this
      omega
  · -- u3: the new hole's parent fits below the new hole's children
    intro c hq0 hc0 hcn hpc
    have hpq_ne_pos : heap_parent q ≠ pos := by
      have := heap_parent_lt q hq0
      omega
    have hqq : q ≠ pos := hqne
    have h1 : (getItem s.arr (heap_parent q)).val ≤ (getItem s.arr q).val :=
      inv.u1 q hq0 hqn hqq hpq_ne_pos
    rw [hval_ne (heap_parent q) hpq_ne_pos]
    by_cases hcp : c = pos
    · subst hcp
      rw [hval_pos]
      exact h1
    · rw [hval_ne c hcp]
      have h2 := inv.u1 c hc0 hcn hcp (by rw [hpc]; exact hqne)
      rw [hpc] at h2
      omega
  · -- b1
    intro j hjn hjq
    by_cases hjp : j = pos
    · subst hjp
      rw [hval_pos, writeAt_store]
      simp [Function.update]
    · rw [hval_ne j hjp, writeAt_store]
      have hrne : (getItem s.arr j).ref ≠ (getItem s.arr q).ref := by
        intro h
        exact hjq (inv.back.b3 j q hjn hqn hjp hqne h)
      rw [Function.update_noteq hrne]
      exact inv.back.b1 j hjn hjp
  · -- b2
    intro j hjn hjq
    by_cases hjp : j = pos
    · subst hjp
      rw [hval_pos]
      exact inv.back.b2 q hqn hqne
    · rw [hval_ne j hjp]
      exact inv.back.b2 j hjn hjp
  · -- b3
    intro j k hjn hkn hjq hkq
    by_cases hjp : j = pos <;> by_cases hkp : k = pos
    · subst hjp hkp
      intro _
      rfl
    · subst hjp
      rw [hval_pos, hval_ne k hkp]
      intro h
      exact absurd (inv.back.b3 q k hqn hkn hqne hkp h) (fun hc => hkq hc.symm)
    · subst hkp
      rw [hval_pos, hval_ne j hjp]
      intro h
      exact absurd (inv.back.b3 j q hjn hqn hjp hqne h) hjq
    · rw [hval_ne j hjp, hval_ne k hkp]
      exact inv.back.b3 j k hjn hkn hjp hkp

theorem heapUpAux_ok (fuel : Nat) : ∀ (s : HeapState) (t : HeapItem) (pos n : Nat),
    pos ≤ fuel → UpInv s t pos n → HeapOk (heapUpAux fuel s t pos) n := by
  induction fuel with
  | zero =>
      intro s t pos n hf inv
      have hp : pos = 0 := Nat.le_zero.mp hf
      subst hp
      exact upInv_final s t 0 n inv (by simp)
  | succ fuel ih =>
      intro s t pos n hf inv
      rw [heapUpAux]
      by_cases hg : 0 < pos ∧ (getItem s.arr (heap_parent pos)).val > t.val
      · rw [if_pos hg]
        refine ih _ _ _ _ ?_ (upInv_step s t pos n inv hg)
        have := heap_parent_lt pos hg.1
        omega
      · rw [if_neg hg]
        exact upInv_final s t pos n inv hg

/-- Sift-down loop invariant: the array is a heap except on the edges out of
the hole, and the hole's parent fits above both the sifted item and the
hole's children. -/
structure DownInv (s : HeapState) (t : HeapItem) (pos len : Nat) : Prop where
  hlen : s.arr.length = len
  hpos : pos < len
  d1 : ∀ j, 0 < j → j < len → heap_parent j ≠ pos →
        (getItem s.arr (heap_parent j)).val ≤ (getItem s.arr j).val
  d2 : ∀ c, 0 < pos → 0 < c → c < len → heap_parent c = pos →
        (getItem s.arr (heap_parent pos)).val ≤ (getItem s.arr c).val
  d3 : 0 < pos → (getItem s.arr (heap_parent pos)).val ≤ t.val
  back : HoleBack s t pos len

theorem downInv_final (s : HeapState) (t : HeapItem) (pos len : Nat)
    (inv : DownInv s t pos len)
    (hl : ¬(heap_left pos < len ∧ (getItem s.arr (heap_left pos)).val < t.val))
    (hr : ¬(heap_right pos < len ∧ (getItem s.arr (heap_right pos)).val < t.val)) :
    HeapOk (writeAt s pos t) len := by
  have hpos := inv.hpos
  have hlen := inv.hlen
  refine ⟨by rw [writeAt_arr_length]; exact hlen, ?_, ?_⟩
  · intro j hj0 hjn
    by_cases hjp : j = pos
    · subst hjp
      have hne : heap_parent j ≠ j := Nat.ne_of_lt (heap_parent_lt j hj0)
      rw [getItem_writeAt_ne s j (heap_parent j) t (fun h => hne h.symm),
        getItem_writeAt_self s j t (hlen ▸ hpos)]
      exact inv.d3 hj0
    · by_cases hpp : heap_parent j = pos
      · -- j is a child of pos: t is at pos now and the loop exit bounds it
        rw [getItem_writeAt_ne s pos j t (fun h => hjp h.symm), hpp,
          getItem_writeAt_self s pos t (hlen ▸ hpos)]
        rcases (heap_parent_eq_iff j pos hj0).mp hpp with hj1 | hj2
        · have hje : heap_left pos = j := by simp only [heap_left]; omega
          subst hje
          by_contra hc
          exact hl ⟨hjn, by omega⟩
        · have hje : heap_right pos = j := by simp only [heap_right]; omega
          subst hje
          by_contra hc
          exact hr ⟨hjn, by omega⟩
      · rw [getItem_writeAt_ne s pos j t (fun h => hjp h.symm),
          getItem_writeAt_ne s pos (heap_parent j) t (fun h => hpp h.symm)]
        exact inv.d1 j hj0 hjn hpp
  · intro j hjn
    by_cases hjp : j = pos
    · subst hjp
      rw [getItem_writeAt_self s j t (hlen ▸ hpos), writeAt_store]
      simp [Function.update]
    · rw [getItem_writeAt_ne s pos j t (fun h => hjp h.symm), writeAt_store]
      have hne := inv.back.b2 j hjn hjp
      rw [Function.update_noteq hne]
      exact inv.back.b1 j hjn hjp

theorem downInv_step (s : HeapState) (t : HeapItem) (pos len mp : Nat)
    (inv : DownInv s t pos len)
    (hmp : mp = heap_left pos ∨ mp = heap_right pos) (hmplen : mp < len)
    (hval : (getItem s.arr mp).val < t.val)
    (hsib : ∀ sib, sib < len → (sib = heap_left pos ∨ sib = heap_right pos) → sib ≠ mp →
      (getItem s.arr mp).val ≤ (getItem s.arr sib).val) :
    DownInv (writeAt s pos (getItem s.arr mp)) t mp len := by
  have hpos := inv.hpos
  have hlen := inv.hlen
  have hplt : pos < mp := by
    rcases hmp with h | h <;> simp only [h, heap_left, heap_right] <;> omega
  have hpne : pos ≠ mp := Nat.ne_of_lt hplt
  have hparent_mp : heap_parent mp = pos := by
    rcases hmp with h | h <;> rw [h]
    · exact heap_parent_left pos
    · exact heap_parent_right pos
  have hmp0 : 0 < mp := by
    rcases hmp with h | h <;> simp only [h, heap_left, heap_right] <;> omega
  have hval_pos : getItem (writeAt s pos (getItem s.arr mp)).arr pos = getItem s.arr mp :=
    getItem_writeAt_self s pos _ (hlen ▸ hpos)
  have hval_ne : ∀ j, j ≠ pos →
      getItem (writeAt s pos (getItem s.arr mp)).arr j = getItem s.arr j :=
    fun j hj => getItem_writeAt_ne s pos j _ (fun h => hj h.symm)
  have hchild : ∀ c, 0 < c → heap_parent c = pos → c = heap_left pos ∨ c = heap_right pos := by
    intro c hc0 hpc
    have := (heap_parent_eq_iff c pos hc0).mp hpc
    unfold heap_left heap_right
    omega
  refine ⟨by rw [writeAt_arr_length]; exact hlen, hmplen, ?_, ?_, ?_, ?_, ?_, ?_⟩
  · -- d1: heap on edges whose parent is not the new hole
    intro j hj0 hjn hpj
    by_cases hjp : j = pos
    · -- edge into the old hole: its parent bounds the moved child value (d2)
      subst hjp
      rw [hval_pos, hval_ne (heap_parent j) (Nat.ne_of_lt (heap_parent_lt j hj0))]
      exact inv.d2 mp hj0 hmp0 hmplen hparent_mp
    · by_cases hppj : heap_parent j = pos
      · by_cases hjm : j = mp
        · -- the duplicated value: edge (pos, mp) is reflexive
          subst hjm
          rw [hppj, hval_pos, hval_ne j (Nat.ne_of_lt hplt).symm]
        · -- the sibling: the chosen child is the smaller one
          rw [hppj, hval_pos, hval_ne j hjp]
          exact hsib j hjn (hchild j hj0 hppj) hjm
      · rw [hval_ne j hjp, hval_ne (heap_parent j) hppj]
        exact inv.d1 j hj0 hjn hppj
  · -- d2 for the new hole mp
    intro c _ hc0 hcn hpc
    have hcp : c ≠ pos := by
      have : mp < c := by
        have := (heap_parent_eq_iff c mp hc0).mp hpc
        omega
      omega
    rw [hparent_mp, hval_pos, hval_ne c hcp]
    have := inv.d1 c hc0 hcn (by rw [hpc]; exact (Nat.ne_of_lt hplt).symm)
    rw [hpc] at this
    exact this
  · -- d3 for the new hole mp
    intro _
    rw [hparent_mp, hval_pos]
    omega
  · -- b1
    intro j hjn hjm
    by_cases hjp : j = pos
    · subst hjp
      rw [hval_pos, writeAt_store]
      simp [Function.update]
    · rw [hval_ne j hjp, writeAt_store]
      have hrne : (getItem s.arr j).ref ≠ (getItem s.arr mp).ref := by
        intro h
        exact hjm (inv.back.b3 j mp hjn hmplen hjp (Ne.symm hpne) h)
      rw [Function.update_noteq hrne]
      exact inv.back.b1 j hjn hjp
  · -- b2
    intro j hjn hjm
    by_cases hjp : j = pos
    · subst hjp
      rw [hval_pos]
      exact inv.back.b2 mp hmplen (Ne.symm hpne)
    · rw [hval_ne j hjp]
      exact inv.back.b2 j hjn hjp
  · -- b3
    intro j k hjn hkn hjm hkm
    by_cases hjp : j = pos <;> by_cases hkp : k = pos
    · subst hjp hkp
      intro _
      rfl
    · subst hjp
      rw [hval_pos, hval_ne k hkp]
      intro h
      exact absurd (inv.back.b3 mp k hmplen hkn (Ne.symm hpne) hkp h) (fun hc => hkm hc.symm)
    · subst hkp
      rw [hval_pos, hval_ne j hjp]
      intro h
      exact absurd (inv.back.b3 j mp hjn hmplen hjp (Ne.symm hpne) h) hjm
    · rw [hval_ne j hjp, hval_ne k hkp]
      exact inv.back.b3 j k hjn hkn hjp hkp

theorem heapDownAux_ok (fuel : Nat) : ∀ (s : HeapState) (t : HeapItem) (pos len : Nat),
    len - pos ≤ fuel → DownInv s t pos len → HeapOk (heapDownAux fuel s t pos len) len := by
  induction fuel with
  | zero =>
      intro s t pos len hf inv
      have := inv.hpos
      omega
  | succ fuel ih =>
      intro s t pos len hf inv
      simp only [heapDownAux]
      have hlr : heap_left pos ≠ heap_right pos := by
        simp only [heap_left, heap_right]
        omega
      by_cases h1 : heap_left pos < len ∧ (getItem s.arr (heap_left pos)).val < t.val
      · rw [if_pos h1]
        by_cases h2 : heap_right pos < len ∧
            (getItem s.arr (heap_right pos)).val < (getItem s.arr (heap_left pos)).val
        · rw [if_pos h2]
          refine ih _ _ _ _ ?_
            (downInv_step s t pos len (heap_right pos) inv (Or.inr rfl) h2.1 (by omega) ?_)
          · simp only [heap_right]
            omega
          · intro sib hsl hsor hsne
            rcases hsor with h | h
            · subst h
              omega
            · exact absurd h hsne
        · rw [if_neg h2]
          refine ih _ _ _ _ ?_
            (downInv_step s t pos len (heap_left pos) inv (Or.inl rfl) h1.1 h1.2 ?_)
          · simp only [heap_left]
            omega
          · intro sib hsl hsor hsne
            rcases hsor with h | h
            · exact absurd h hsne
            · subst h
              have : ¬(getItem s.arr (heap_right pos)).val
                  < (getItem s.arr (heap_left pos)).val := fun hc => h2 ⟨hsl, hc⟩
              omega
      · rw [if_neg h1]
        by_cases h2 : heap_right pos < len ∧ (getItem s.arr (heap_right pos)).val < t.val
        · rw [if_pos h2]
          refine ih _ _ _ _ ?_
            (downInv_step s t pos len (heap_right pos) inv (Or.inr rfl) h2.1 h2.2 ?_)
          · simp only [heap_right]
            omega
          · intro sib hsl hsor hsne
            rcases hsor with h | h
            · subst h
              have : ¬(getItem s.arr (heap_left pos)).val < t.val := fun hc => h1 ⟨hsl, hc⟩
              omega
            · exact absurd h hsne
        · rw [if_neg h2]
          exact downInv_final s t pos len inv h1 h2

/-- C7: after `heap_update(i, len)` on an array that is a min-heap except
possibly at position `i` (there is a deadline `v` whose substitution at `i`
makes it a heap — exactly the states the callers produce by overwriting or
appending one item) and whose back-pointer slots are correct, the whole
array again satisfies the parent ordering `heap[parent j].val ≤ heap[j].val`
for every `j > 0`, and for every index `j` the slot referenced by
`heap[j].ref` holds exactly `j`. -/
theorem claim_c7_heap_update_restores (a : List HeapItem) (store : Bytes → Nat)
    (pos : Nat) (v : Nat)
    (hpos : pos < a.length)
    (hheap : IsMinHeap (a.set pos ⟨v, (getItem a pos).ref⟩))
    (hback : ∀ j, j < a.length → store ((getItem a j).ref) = j) :
    (heap_update ⟨a, store⟩ pos a.length).arr.length = a.length
      ∧ IsMinHeap (heap_update ⟨a, store⟩ pos a.length).arr
      ∧ ∀ j, j < a.length → (heap_update ⟨a, store⟩ pos a.length).store
          ((getItem (heap_update ⟨a, store⟩ pos a.length).arr j).ref) = j := by
  have havlen : (a.set pos ⟨v, (getItem a pos).ref⟩).length = a.length := by simp
  have hav_pos : getItem (a.set pos ⟨v, (getItem a pos).ref⟩) pos = ⟨v, (getItem a pos).ref⟩ :=
    getItem_set_self a pos _ hpos
  have hav_ne : ∀ j, j ≠ pos → getItem (a.set pos ⟨v, (getItem a pos).ref⟩) j = getItem a j :=
    fun j hj => getItem_set_ne a pos j _ (fun h => hj h.symm)
  have hole : HoleBack ⟨a, store⟩ (getItem a pos) pos a.length := by
    refine ⟨fun j hj _ => hback j hj, ?_, ?_⟩
    · intro j hj hjp hc
      have h1 := hback j hj
      have h2 := hback pos hpos
      rw [show getItem (⟨a, store⟩ : HeapState).arr j = getItem a j from rfl, hc] at h1
      omega
    · intro j k hj hk _ _ hc
      have h1 := hback j hj
      have h2 := hback k hk
      rw [show getItem (⟨a, store⟩ : HeapState).arr j = getItem a j from rfl, hc,
        show getItem (⟨a, store⟩ : HeapState).arr k = getItem a k from rfl] at h1
      omega
  have hok : HeapOk (heap_update ⟨a, store⟩ pos a.length) a.length := by
    rw [heap_update]
    show HeapOk (if 0 < pos ∧ (getItem a (heap_parent pos)).val > (getItem a pos).val
      then heap_up ⟨a, store⟩ pos else heap_down ⟨a, store⟩ pos a.length) a.length
    by_cases hg : 0 < pos ∧ (getItem a (heap_parent pos)).val > (getItem a pos).val
    · rw [if_pos hg]
      have hppos : heap_parent pos ≠ pos := Nat.ne_of_lt (heap_parent_lt pos hg.1)
      have hv1 : (getItem a (heap_parent pos)).val ≤ v := by
        have := hheap pos (havlen ▸ hpos) hg.1
        rw [hav_pos, hav_ne (heap_parent pos) hppos] at this
        exact this
      have hchild : ∀ c, 0 < c → c < a.length → heap_parent c = pos →
          v ≤ (getItem a c).val := by
        intro c hc0 hcn hpc
        have hcp : c ≠ pos := by
          have := heap_parent_lt c hc0
          omega
        have := hheap c (havlen ▸ hcn) hc0
        rw [hpc, hav_pos, hav_ne c hcp] at this
        exact this
      have inv : UpInv ⟨a, store⟩ (getItem a pos) pos a.length := by
        refine ⟨rfl, hpos, ?_, ?_, ?_, hole⟩
        · intro j hj0 hjn hjp hpjp
          have := hheap j (havlen ▸ hjn) hj0
          rw [hav_ne j hjp, hav_ne (heap_parent j) hpjp] at this
          exact this
        · intro c hc0 hcn hpc
          have h2 := hchild c hc0 hcn hpc
          have h3 := hg.2
          show (getItem a pos).val ≤ (getItem a c).val
          omega
        · intro c _ hc0 hcn hpc
          have h2 := hchild c hc0 hcn hpc
          show (getItem a (heap_parent pos)).val ≤ (getItem a c).val
          omega
      exact heapUpAux_ok pos ⟨a, store⟩ (getItem a pos) pos a.length le_rfl inv
    · rw [if_neg hg]
      have inv : DownInv ⟨a, store⟩ (getItem a pos) pos a.length := by
        refine ⟨rfl, hpos, ?_, ?_, ?_, hole⟩
        · intro j hj0 hjn hpj
          by_cases hjp : j = pos
          · subst hjp
            show (getItem a (heap_parent j)).val ≤ (getItem a j).val
            push_neg at hg
            exact Nat.le_of_not_lt fun hc => absurd (hg hj0) (by omega)
          · have := hheap j (havlen ▸ hjn) hj0
            rw [hav_ne j hjp, hav_ne (heap_parent j) hpj] at this
            exact this
        · intro c hp0 hc0 hcn hpc
          have hcp : c ≠ pos := by
            have := heap_parent_lt c hc0
            omega
          have hppos : heap_parent pos ≠ pos := Nat.ne_of_lt (heap_parent_lt pos hp0)
          have h1 := hheap pos (havlen ▸ hpos) hp0
          rw [hav_pos, hav_ne (heap_parent pos) hppos] at h1
          have h2 := hheap c (havlen ▸ hcn) hc0
          rw [hpc, hav_pos, hav_ne c hcp] at h2
          show (getItem a (heap_parent pos)).val ≤ (getItem a c).val
          omega
        · intro hp0
          show (getItem a (heap_parent pos)).val ≤ (getItem a pos).val
          push_neg at hg
          exact Nat.le_of_not_lt fun hc => absurd (hg hp0) (by omega)
      exact heapDownAux_ok a.length ⟨a, store⟩ (getItem a pos) pos a.length (by omega) inv
  refine ⟨hok.hlen, ?_, ?_⟩
  · intro j hjl hj0
    exact hok.heap j hj0 (hok.hlen ▸ hjl)
  · intro j hj
    exact hok.back j hj

theorem claim_c7_heap_update_restores_witness :
    ((1 : Nat) < ([⟨5, [10]⟩, ⟨1, [11]⟩, ⟨6, [12]⟩] : List HeapItem).length
        ∧ IsMinHeap (([⟨5, [10]⟩, ⟨1, [11]⟩, ⟨6, [12]⟩] : List HeapItem).set 1
            ⟨5, (getItem [⟨5, [10]⟩, ⟨1, [11]⟩, ⟨6, [12]⟩] 1).ref⟩))
      ∧ ((heap_update ⟨[⟨5, [10]⟩, ⟨1, [11]⟩, ⟨6, [12]⟩], fun r => r.headD 0 - 10⟩ 1 3).arr.length
            = 3
        ∧ IsMinHeap (heap_update ⟨[⟨5, [10]⟩, ⟨1, [11]⟩, ⟨6, [12]⟩],
            fun r => r.headD 0 - 10⟩ 1 3).arr
        ∧ ∀ j, j < 3 → (heap_update ⟨[⟨5, [10]⟩, ⟨1, [11]⟩, ⟨6, [12]⟩],
              fun r => r.headD 0 - 10⟩ 1 3).store
            ((getItem (heap_update ⟨[⟨5, [10]⟩, ⟨1, [11]⟩, ⟨6, [12]⟩],
              fun r => r.headD 0 - 10⟩ 1 3).arr j).ref) = j) :=
  ⟨⟨by decide, by decide⟩,
    claim_c7_heap_update_restores [⟨5, [10]⟩, ⟨1, [11]⟩, ⟨6, [12]⟩]
      (fun r => r.headD 0 - 10) 1 5 (by decide) (by decide) (by decide)⟩

/-! ## Order-statistic AVL tree and sorted set
(`src/data_structures/trees/avl.c`, `src/data_structures/zset.c`)

Scores are `double` in C; only their ordering and equality reach the code
paths under verification, so they are abstracted to `Int` (`str2dbl` rejects
`NaN`, so scores are totally ordered).  Tree nodes embed their `(score,
name)` payload; the stored `height`/`count` fields mirror the C layout.  The
C tree is a pointer structure with parent links; functionally, `avl_fix`'s
climb from the mutation point to the root is realized by applying its
per-node body (`balance1`) at every level on the way out of the recursive
descent — the same sequence of `avl_update`s and rotations in the same
bottom-up order. -/

inductive Avl where
  | nil : Avl
  | node (l : Avl) (score : Int) (name : Bytes) (height cnt : Nat) (r : Avl)
deriving Repr, DecidableEq

/-- `avl_height` (`src/data_structures/trees/avl.c:10`): nil-safe accessor. -/
def avl_height : Avl → Nat
  | .nil => 0
  | .node _ _ _ h _ _ => h

/-- `avl_count` (`src/data_structures/trees/avl.c:20`): nil-safe accessor. -/
def avl_count : Avl → Nat
  | .nil => 0
  | .node _ _ _ _ c _ => c

/-- `avl_update` (`src/data_structures/trees/avl.c:42`) applied while
rebuilding a node from its children. -/
def mkNode (l : Avl) (sc : Int) (nm : Bytes) (r : Avl) : Avl :=
  .node l sc nm (1 + max (avl_height l) (avl_height r)) (1 + avl_count l + avl_count r) r

/-- `rot_left` (`src/data_structures/trees/avl.c:53`).  Only reached when the
right child exists; the impossible shape is returned unchanged. -/
def rot_left : Avl → Avl
  | .node l sc nm _ _ (.node rl sc2 nm2 _ _ rr) => mkNode (mkNode l sc nm rl) sc2 nm2 rr
  | t => t

/-- `rot_right` (`src/data_structures/trees/avl.c:74`). -/
def rot_right : Avl → Avl
  | .node (.node ll sc2 nm2 _ _ lr) sc nm _ _ r => mkNode ll sc2 nm2 (mkNode lr sc nm r)
  | t => t

/-- `avl_fix_left` (`src/data_structures/trees/avl.c:95`). -/
def avl_fix_left (t : Avl) : Avl :=
  match t with
  | .node l sc nm h c r =>
    if avl_height (match l with | .nil => .nil | .node ll _ _ _ _ _ => ll)
        < avl_height (match l with | .nil => .nil | .node _ _ _ _ _ lr => lr) then
      rot_right (.node (rot_left l) sc nm h c r)
    else rot_right t
  | .nil => .nil

/-- `avl_fix_right` (`src/data_structures/trees/avl.c:108`). -/
def avl_fix_right (t : Avl) : Avl :=
  match t with
  | .node l sc nm h c r =>
    if avl_height (match r with | .nil => .nil | .node _ _ _ _ _ rr => rr)
        < avl_height (match r with | .nil => .nil | .node rl _ _ _ _ _ => rl) then
      rot_left (.node l sc nm h c (rot_right r))
    else rot_left t
  | .nil => .nil

/-- One iteration body of `avl_fix` (`src/data_structures/trees/avl.c:121`):
`avl_update` the node, then rotate if one side is two levels deeper. -/
def balance1 (t : Avl) : Avl :=
  match t with
  | .nil => .nil
  | .node l sc nm _ _ r =>
    let t := mkNode l sc nm r
    let hl := avl_height l
    let hr := avl_height r
    if hl = hr + 2 then avl_fix_left t
    else if hl + 2 = hr then avl_fix_right t
    else t

/-- `memcmp(zl->name, name, min(zl->len, len))` as a sign (`zless`,
`src/data_structures/zset.c:76`): compare the common prefix bytewise. -/
def memcmpBytes : Bytes → Bytes → Int
  | [], _ => 0
  | _, [] => 0
  | a :: as, b :: bs => if a < b then -1 else if b < a then 1 else memcmpBytes as bs

/-- `zless` (`src/data_structures/zset.c:70`): is `(s1, n1)` strictly less
than `(s2, n2)` in (score, then name bytewise, then length) order? -/
def zless (s1 : Int) (n1 : Bytes) (s2 : Int) (n2 : Bytes) : Bool :=
  if s1 ≠ s2 then decide (s1 < s2)
  else
    let rv := memcmpBytes n1 n2
    if rv ≠ 0 then decide (rv < 0)
    else decide (n1.length < n2.length)

/-- In-order traversal: the tree's `(score, name)` tuples in tree order. -/
def inorder : Avl → List (Int × Bytes)
  | .nil => []
  | .node l sc nm _ _ r => inorder l ++ (sc, nm) :: inorder r

/-- The tuple order as a proposition. -/
def keyLt (a b : Int × Bytes) : Prop := zless a.1 a.2 b.1 b.2 = true

instance (a b : Int × Bytes) : Decidable (keyLt a b) := by
  unfold keyLt
  infer_instance

/-- Binary-search-tree well-formedness with respect to `zless`. -/
def IsBST : Avl → Prop
  | .nil => True
  | .node l sc nm _ _ r =>
    IsBST l ∧ IsBST r ∧ (∀ k ∈ inorder l, keyLt k (sc, nm)) ∧ (∀ k ∈ inorder r, keyLt (sc, nm) k)

/-- The mathematical content of the name comparison in `zless`: bytewise
lexicographic with shorter-is-smaller on equal prefixes. -/
def lexLt : Bytes → Bytes → Prop
  | [], [] => False
  | [], _ :: _ => True
  | _ :: _, [] => False
  | a :: as, b :: bs => a < b ∨ (a = b ∧ lexLt as bs)

theorem memcmp_lex (a b : Bytes) :
    (memcmpBytes a b < 0 ∨ (memcmpBytes a b = 0 ∧ a.length < b.length)) ↔ lexLt a b := by
  induction a generalizing b with
  | nil =>
      cases b <;> simp [memcmpBytes, lexLt]
  | cons x as ih =>
      cases b with
      | nil => simp [memcmpBytes, lexLt]
      | cons y bs =>
          by_cases hxy : x < y
          · simp [memcmpBytes, lexLt, hxy]
          · by_cases hyx : y < x
            · have hne : x ≠ y := by omega
              simp [memcmpBytes, lexLt, hxy, hyx, hne]
            · have hxy2 : x = y := by omega
              subst hxy2
              have heq : lexLt (x :: as) (x :: bs) ↔ lexLt as bs := by
                simp [lexLt, lt_irrefl]
              rw [heq, ← ih bs]
              simp only [memcmpBytes, if_neg (lt_irrefl x), List.length_cons]
              constructor
              · rintro (h | ⟨h1, h2⟩)
                · exact Or.inl h
                · exact Or.inr ⟨h1, by omega⟩
              · rintro (h | ⟨h1, h2⟩)
                · exact Or.inl h
                · exact Or.inr ⟨h1, by omega⟩

theorem zless_iff (s1 s2 : Int) (n1 n2 : Bytes) :
    zless s1 n1 s2 n2 = true ↔ s1 < s2 ∨ (s1 = s2 ∧ lexLt n1 n2) := by
  unfold zless
  by_cases hs : s1 = s2
  · subst hs
    rw [if_neg (by simp)]
    rw [← memcmp_lex n1 n2]
    by_cases hrv : memcmpBytes n1 n2 = 0
    · rw [if_neg (by simp [hrv])]
      simp [hrv, lt_irrefl]
    · rw [if_pos hrv]
      simp only [decide_eq_true_eq]
      constructor
      · intro h
        exact Or.inr ⟨by trivial, Or.inl h⟩
      · rintro (h | ⟨_, h | ⟨h1, _⟩⟩)
        · exact absurd h (lt_irrefl s1)
        · exact h
        · exact absurd h1 hrv
  · rw [if_pos hs]
    simp only [decide_eq_true_eq]
    constructor
    · exact fun h => Or.inl h
    · rintro (h | ⟨h1, _⟩)
      · exact h
      · exact absurd h1 hs

theorem lexLt_irrefl (a : Bytes) : ¬lexLt a a := by
  induction a with
  | nil => simp [lexLt]
  | cons x as ih => simp [lexLt, ih]

theorem lexLt_trans (a b c : Bytes) : lexLt a b → lexLt b c → lexLt a c := by
  induction a generalizing b c with
  | nil =>
      cases b <;> cases c <;> simp [lexLt]
  | cons x as ih =>
      cases b with
      | nil => simp [lexLt]
      | cons y bs =>
          cases c with
          | nil => simp [lexLt]
          | cons z cs =>
              simp only [lexLt]
              rintro (h1 | ⟨rfl, h1⟩) (h2 | ⟨rfl, h2⟩)
              · exact Or.inl (lt_trans h1 h2)
              · exact Or.inl h1
              · exact Or.inl h2
              · exact Or.inr ⟨rfl, ih bs cs h1 h2⟩

theorem lexLt_connex (a b : Bytes) (h : a ≠ b) : lexLt a b ∨ lexLt b a := by
  induction a generalizing b with
  | nil =>
      cases b with
      | nil => exact absurd rfl h
      | cons y bs => exact Or.inl (by simp [lexLt])
  | cons x as ih =>
      cases b with
      | nil => exact Or.inr (by simp [lexLt])
      | cons y bs =>
          by_cases hxy : x = y
          · subst hxy
            have hne : as ≠ bs := fun hc => h (by rw [hc])
            rcases ih bs hne with h1 | h1
            · exact Or.inl (Or.inr ⟨rfl, h1⟩)
            · exact Or.inr (Or.inr ⟨rfl, h1⟩)
          · rcases Nat.lt_or_ge x y with h1 | h1
            · exact Or.inl (Or.inl h1)
            · have : y < x := by omega
              exact Or.inr (Or.inl this)

theorem keyLt_irrefl (a : Int × Bytes) : ¬keyLt a a := by
  unfold keyLt
  rw [zless_iff]
  rintro (h | ⟨_, h⟩)
  · exact absurd h (lt_irrefl _)
  · exact absurd h (lexLt_irrefl _)

theorem keyLt_trans (a b c : Int × Bytes) : keyLt a b → keyLt b c → keyLt a c := by
  unfold keyLt
  rw [zless_iff, zless_iff, zless_iff]
  rintro (h1 | ⟨h1, h1'⟩) (h2 | ⟨h2, h2'⟩)
  · exact Or.inl (lt_trans h1 h2)
  · exact Or.inl (h2 ▸ h1)
  · exact Or.inl (h1 ▸ h2)
  · exact Or.inr ⟨h1.trans h2, lexLt_trans _ _ _ h1' h2'⟩

theorem keyLt_connex (a b : Int × Bytes) (h : a ≠ b) : keyLt a b ∨ keyLt b a := by
  unfold keyLt
  rw [zless_iff, zless_iff]
  rcases lt_trichotomy a.1 b.1 with h1 | h1 | h1
  · exact Or.inl (Or.inl h1)
  · have hn : a.2 ≠ b.2 := by
      intro hc
      exact h (Prod.ext h1 hc)
    rcases lexLt_connex a.2 b.2 hn with h2 | h2
    · exact Or.inl (Or.inr ⟨h1, h2⟩)
    · exact Or.inr (Or.inr ⟨h1.symm, h2⟩)
  · exact Or.inr (Or.inl h1)

theorem keyLt_asymm (a b : Int × Bytes) (h : keyLt a b) : ¬keyLt b a := by
  intro hc
  exact keyLt_irrefl a (keyLt_trans a b a h hc)

/-- `zless = false` both ways forces equality of the tuples. -/
theorem keyLt_antisymm (a b : Int × Bytes) (h1 : ¬keyLt a b) (h2 : ¬keyLt b a) : a = b := by
  by_contra hne
  rcases keyLt_connex a b hne with h | h
  · exact h1 h
  · exact h2 h

/-- `tree_add` (`src/data_structures/zset.c:218`): descend by `zless2`
(new node strictly less goes left, ties go right), attach, then fix
upward — `balance1` applied at every ancestor on the way out. -/
def tree_add (t : Avl) (sc : Int) (nm : Bytes) : Avl :=
  match t with
  | .nil => mkNode .nil sc nm .nil
  | .node l s n h c r =>
    if zless sc nm s n then balance1 (.node (tree_add l sc nm) s n h c r)
    else balance1 (.node l s n h c (tree_add r sc nm))

/-- The in-order position `tree_add` produces: insert before the first
strictly greater element (ties go after, as `zless2` sends ties right). -/
def insertSorted (k : Int × Bytes) : List (Int × Bytes) → List (Int × Bytes)
  | [] => [k]
  | x :: xs => if zless k.1 k.2 x.1 x.2 then k :: x :: xs else x :: insertSorted k xs

/-- The leftmost key of a non-empty tree — the in-order successor used by
`avl_del`'s two-child case (`src/data_structures/trees/avl.c:165`). -/
def minKey : Avl → Int × Bytes
  | .nil => (0, [])
  | .node .nil s n _ _ _ => (s, n)
  | .node (.node ll s2 n2 h2 c2 lr) _ _ _ _ _ => minKey (.node ll s2 n2 h2 c2 lr)

/-- `avl_del` (`src/data_structures/trees/avl.c:147`) as deletion by key
(the C deletes the node `zset_update`/`zset_pop` found for that key): no
right child promotes the left subtree; otherwise the in-order successor's
key replaces the node's and the successor is deleted from the right
subtree; `balance1` repairs every node on the path. -/
def tree_del (t : Avl) (sc : Int) (nm : Bytes) : Avl :=
  match t with
  | .nil => .nil
  | .node l s n h c r =>
    if zless sc nm s n then balance1 (.node (tree_del l sc nm) s n h c r)
    else if zless s n sc nm then balance1 (.node l s n h c (tree_del r sc nm))
    else
      match r with
      | .nil => l
      | .node rl s2 n2 h2 c2 rr =>
        let vk := minKey (.node rl s2 n2 h2 c2 rr)
        balance1 (.node l vk.1 vk.2 h c (tree_del (.node rl s2 n2 h2 c2 rr) vk.1 vk.2))

theorem inorder_mkNode (l : Avl) (sc : Int) (nm : Bytes) (r : Avl) :
    inorder (mkNode l sc nm r) = inorder l ++ (sc, nm) :: inorder r := rfl

theorem inorder_rot_left (t : Avl) : inorder (rot_left t) = inorder t := by
  cases t with
  | nil => rfl
  | node l sc nm h c r =>
      cases r with
      | nil => rfl
      | node rl sc2 nm2 h2 c2 rr => simp [rot_left, inorder_mkNode, inorder]

theorem inorder_rot_right (t : Avl) : inorder (rot_right t) = inorder t := by
  cases t with
  | nil => rfl
  | node l sc nm h c r =>
      cases l with
      | nil => rfl
      | node ll sc2 nm2 h2 c2 lr => simp [rot_right, inorder_mkNode, inorder]

theorem inorder_fix_left (t : Avl) : inorder (avl_fix_left t) = inorder t := by
  cases t with
  | nil => rfl
  | node l sc nm h c r =>
      simp only [avl_fix_left]
      split
      · rw [inorder_rot_right]
        simp [inorder, inorder_rot_left]
      · rw [inorder_rot_right]

theorem inorder_fix_right (t : Avl) : inorder (avl_fix_right t) = inorder t := by
  cases t with
  | nil => rfl
  | node l sc nm h c r =>
      simp only [avl_fix_right]
      split
      · rw [inorder_rot_left]
        simp [inorder, inorder_rot_right]
      · rw [inorder_rot_left]

theorem inorder_balance1 (t : Avl) : inorder (balance1 t) = inorder t := by
  cases t with
  | nil => rfl
  | node l sc nm h c r =>
      simp only [balance1]
      split
      · rw [inorder_fix_left]
        rfl
      · split
        · rw [inorder_fix_right]
          rfl
        · rfl

theorem insertSorted_append_left (k y : Int × Bytes) (xs ys : List (Int × Bytes))
    (hky : keyLt k y) :
    insertSorted k (xs ++ y :: ys) = insertSorted k xs ++ y :: ys := by
  induction xs with
  | nil =>
      have hky' : zless k.1 k.2 y.1 y.2 = true := hky
      simp [insertSorted, hky']
  | cons x xs ih =>
      by_cases hkx : zless k.1 k.2 x.1 x.2
      · simp [insertSorted, hkx]
      · simp [insertSorted, hkx, ih]

theorem insertSorted_append_right (k : Int × Bytes) (xs ys : List (Int × Bytes))
    (h : ∀ x ∈ xs, ¬keyLt k x) :
    insertSorted k (xs ++ ys) = xs ++ insertSorted k ys := by
  induction xs with
  | nil => rfl
  | cons x xs ih =>
      have hx : ¬(zless k.1 k.2 x.1 x.2 = true) := h x (by simp)
      simp [insertSorted, hx, ih (fun y hy => h y (by simp [hy]))]

theorem inorder_tree_add (t : Avl) (sc : Int) (nm : Bytes) (hbst : IsBST t) :
    inorder (tree_add t sc nm) = insertSorted (sc, nm) (inorder t) := by
  induction t with
  | nil => rfl
  | node l s n h c r ihl ihr =>
      obtain ⟨hl, hr, hlb, hrb⟩ := hbst
      by_cases hz : zless sc nm s n
      · simp only [tree_add, if_pos hz, inorder_balance1, inorder, ihl hl]
        rw [insertSorted_append_left (sc, nm) (s, n) _ _ hz]
      · simp only [tree_add, if_neg hz, inorder_balance1, inorder, ihr hr]
        have hall : ∀ x ∈ inorder l ++ [(s, n)], ¬keyLt (sc, nm) x := by
          intro x hx
          rcases List.mem_append.mp hx with hx | hx
          · intro hc
            exact hz (keyLt_trans (sc, nm) x (s, n) hc (hlb x hx))
          · rw [List.mem_singleton.mp hx]
            exact hz
        have := insertSorted_append_right (sc, nm) (inorder l ++ [(s, n)]) (inorder r) hall
        simp only [List.append_assoc, List.singleton_append] at this
        rw [this]

theorem isBST_iff_pairwise (t : Avl) : IsBST t ↔ (inorder t).Pairwise keyLt := by
  induction t with
  | nil => simp [IsBST, inorder]
  | node l s n h c r ihl ihr =>
      simp only [IsBST, inorder, List.pairwise_append, List.pairwise_cons]
      constructor
      · rintro ⟨hl, hr, hlb, hrb⟩
        refine ⟨ihl.mp hl, ⟨hrb, ihr.mp hr⟩, ?_⟩
        intro x hx y hy
        rcases List.mem_cons.mp hy with hy | hy
        · rw [hy]
          exact hlb x hx
        · exact keyLt_trans x (s, n) y (hlb x hx) (hrb y hy)
      · rintro ⟨hpl, ⟨hrb, hpr⟩, hcross⟩
        exact ⟨ihl.mpr hpl, ihr.mpr hpr,
          fun x hx => hcross x hx (s, n) (List.mem_cons_self _ _), hrb⟩

theorem mem_insertSorted (k a : Int × Bytes) (xs : List (Int × Bytes)) :
    a ∈ insertSorted k xs ↔ a = k ∨ a ∈ xs := by
  induction xs with
  | nil => simp [insertSorted]
  | cons x xs ih =>
      by_cases hkx : zless k.1 k.2 x.1 x.2
      · simp only [insertSorted, if_pos hkx, List.mem_cons]
      · simp only [insertSorted, if_neg hkx, List.mem_cons, ih]
        tauto

theorem insertSorted_pairwise (k : Int × Bytes) (xs : List (Int × Bytes))
    (hp : xs.Pairwise keyLt) (hk : k ∉ xs) :
    (insertSorted k xs).Pairwise keyLt := by
  induction xs with
  | nil => simp [insertSorted]
  | cons x xs ih =>
      rw [List.pairwise_cons] at hp
      obtain ⟨hx, hp'⟩ := hp
      have hkx : k ≠ x := fun h => hk (h ▸ List.mem_cons_self x xs)
      by_cases hz : zless k.1 k.2 x.1 x.2
      · simp only [insertSorted, if_pos hz]
        rw [List.pairwise_cons]
        refine ⟨?_, List.pairwise_cons.mpr ⟨hx, hp'⟩⟩
        intro y hy
        rcases List.mem_cons.mp hy with hy | hy
        · rw [hy]
          exact hz
        · exact keyLt_trans k x y hz (hx y hy)
      · simp only [insertSorted, if_neg hz]
        rw [List.pairwise_cons]
        refine ⟨?_, ih hp' (fun h => hk (List.mem_cons_of_mem x h))⟩
        intro y hy
        rcases (mem_insertSorted k y xs).mp hy with hy | hy
        · rw [hy]
          rcases keyLt_connex k x hkx with h | h
          · exact absurd h hz
          · exact h
        · exact hx y hy

theorem inorder_ne_nil (t : Avl) (h : t ≠ .nil) : inorder t ≠ [] := by
  cases t with
  | nil => exact absurd rfl h
  | node l s n hh c r => simp [inorder]

theorem minKey_head (t : Avl) (h : t ≠ .nil) :
    ∃ rest, inorder t = minKey t :: rest := by
  induction t with
  | nil => exact absurd rfl h
  | node l s n hh c r ihl _ =>
      cases l with
      | nil => exact ⟨inorder r, rfl⟩
      | node ll s2 n2 h2 c2 lr =>
          obtain ⟨rest, hrest⟩ := ihl (by simp)
          refine ⟨rest ++ (s, n) :: inorder r, ?_⟩
          simp only [inorder, minKey] at hrest ⊢
          rw [hrest]
          rfl

theorem inorder_tree_del (t : Avl) : ∀ (sc : Int) (nm : Bytes), IsBST t →
    inorder (tree_del t sc nm) = (inorder t).erase (sc, nm) := by
  induction t with
  | nil =>
      intro sc nm _
      rfl
  | node l s n h c r ihl ihr =>
      intro sc nm hbst
      obtain ⟨hl, hr, hlb, hrb⟩ := hbst
      by_cases hz1 : zless sc nm s n
      · -- delete in the left subtree
        have hk1 : keyLt (sc, nm) (s, n) := hz1
        have hne : (sc, nm) ≠ (s, n) := by
          intro hc
          exact keyLt_irrefl (s, n) (hc ▸ hk1)
        have hnr : (sc, nm) ∉ inorder r := by
          intro hc
          exact keyLt_irrefl (sc, nm) (keyLt_trans _ _ _ hk1 (hrb _ hc))
        rw [tree_del.eq_def]
        simp only [if_pos hz1, inorder_balance1, inorder, ihl sc nm hl]
        by_cases hm : (sc, nm) ∈ inorder l
        · rw [List.erase_append_left _ hm]
        · rw [List.erase_append_right _ hm, List.erase_of_not_mem hm,
            List.erase_cons_tail, List.erase_of_not_mem hnr]
          intro hs
          simp only [beq_iff_eq] at hs
          exact hne hs.symm
      · by_cases hz2 : zless s n sc nm
        · -- delete in the right subtree
          have hk2 : keyLt (s, n) (sc, nm) := hz2
          have hne : (sc, nm) ≠ (s, n) := by
            intro hc
            exact keyLt_irrefl (s, n) (hc ▸ hk2)
          have hnl : (sc, nm) ∉ inorder l := by
            intro hc
            exact keyLt_irrefl (sc, nm)
              (keyLt_trans (sc, nm) (s, n) (sc, nm) (hlb (sc, nm) hc) hk2)
          rw [tree_del.eq_def]
          simp only [if_neg hz1, if_pos hz2, inorder_balance1, inorder, ihr sc nm hr]
          rw [List.erase_append_right _ hnl, List.erase_cons_tail]
          intro hs
          simp only [beq_iff_eq] at hs
          exact hne hs.symm
        · -- found: the keys are equal
          have hnk1 : ¬keyLt (sc, nm) (s, n) := hz1
          have hnk2 : ¬keyLt (s, n) (sc, nm) := hz2
          have hkeq : (sc, nm) = (s, n) := keyLt_antisymm (sc, nm) (s, n) hnk1 hnk2
          have hnl : (sc, nm) ∉ inorder l := by
            intro hc
            have h1 := hlb (sc, nm) hc
            rw [hkeq] at h1
            exact keyLt_irrefl (s, n) h1
          cases r with
          | nil =>
              rw [tree_del.eq_def]
              simp only [if_neg hz1, if_neg hz2, inorder]
              rw [List.erase_append_right _ hnl, show ((s, n) :: ([] : List (Int × Bytes))).erase
                (sc, nm) = [] from by simp [hkeq]]
              simp
          | node rl s2 n2 h2 c2 rr =>
              obtain ⟨rest, hrest⟩ := minKey_head (.node rl s2 n2 h2 c2 rr) (by simp)
              rw [tree_del.eq_def]
              simp only [if_neg hz1, if_neg hz2, inorder_balance1, inorder, ihr _ _ hr]
              rw [List.erase_append_right _ hnl, hkeq, List.erase_cons_head]
              simp only [Prod.mk.eta]
              have hrest2 : inorder rl ++ (s2, n2) :: inorder rr
                  = minKey (rl.node s2 n2 h2 c2 rr) :: rest := hrest
              rw [hrest2, List.erase_cons_head]

/-! ### Hash map contents

The nodes a map holds, as a list; the progressive-resize step only moves
nodes between the two tables, so contents are preserved up to permutation.
`TabOk` records the structural facts the C relies on: the bucket array has
`mask + 1` buckets and `size` counts the stored nodes. -/

def htabList (t : HTab α) : List (HNode α) :=
  match t.tab with
  | none => []
  | some bs => bs.flatten

def hmapList (m : HMap α) : List (HNode α) := htabList m.ht1 ++ htabList m.ht2

structure TabOk (t : HTab α) : Prop where
  blen : ∀ bs, t.tab = some bs → bs.length = t.mask + 1
  size_eq : t.size = (htabList t).length
  placed : ∀ bs, t.tab = some bs → ∀ j, ∀ n ∈ bs.getD j [], n.hcode &&& t.mask = j

structure MapOk (m : HMap α) : Prop where
  t1 : TabOk m.ht1
  t2 : TabOk m.ht2
  coupled : m.ht2.tab.isSome → m.ht1.tab.isSome

theorem tabOk_null : TabOk (HTab.null α) :=
  ⟨fun bs h => by simp [HTab.null] at h, rfl, fun bs h => by simp [HTab.null] at h⟩

theorem flatten_replicate_nil (n : Nat) :
    (List.replicate n ([] : List β)).flatten = [] := by
  induction n with
  | zero => rfl
  | succ n ih => simp [List.replicate, ih]

theorem clp2_pos (x : Nat) : 0 < clp2 x := Nat.succ_pos _

theorem h_init_spec (n : Nat) : ∃ k, 0 < k ∧
    h_init α n = ⟨some (List.replicate k []), k - 1, 0⟩ := by
  by_cases h0 : n = 0
  · subst h0
    exact ⟨2, by omega, rfl⟩
  · by_cases hp : n &&& (n - 1) ≠ 0
    · refine ⟨clp2 n, clp2_pos n, ?_⟩
      simp [h_init, h0, hp]
    · refine ⟨n, by omega, ?_⟩
      simp [h_init, h0, hp]

theorem tabOk_h_init (n : Nat) : TabOk (h_init α n) := by
  obtain ⟨k, hk, heq⟩ := h_init_spec (α := α) n
  rw [heq]
  constructor
  · intro bs h
    rw [Option.some_inj] at h
    rw [← h, List.length_replicate]
    show k = k - 1 + 1
    omega
  · simp [htabList, flatten_replicate_nil]
  · intro bs h j n hn
    rw [Option.some_inj] at h
    rw [← h] at hn
    simp [List.getD_eq_getElem?_getD, List.getElem?_replicate] at hn
    split at hn <;> simp_all

theorem htabList_h_init (n : Nat) : htabList (h_init α n) = [] := by
  obtain ⟨k, _, heq⟩ := h_init_spec (α := α) n
  rw [heq]
  simp [htabList, flatten_replicate_nil]

theorem flatten_set_cons (bs : List (List β)) (y : β) :
    ∀ (i : Nat), i < bs.length →
      ((bs.set i (y :: bs.getD i [])).flatten).Perm (y :: bs.flatten) := by
  induction bs with
  | nil =>
      intro i hi
      simp at hi
  | cons b bs ih =>
      intro i hi
      cases i with
      | zero => simp
      | succ i =>
          simp only [List.set_cons_succ, List.flatten_cons, List.getD_cons_succ]
          refine List.Perm.trans (List.Perm.append_left b (ih i (by simpa using hi))) ?_
          exact List.perm_middle

theorem flatten_set_tail (bs : List (List β)) (y : β) (rest : List β) :
    ∀ (i : Nat), bs.getD i [] = y :: rest →
      (y :: (bs.set i rest).flatten).Perm bs.flatten := by
  induction bs with
  | nil =>
      intro i hb
      simp [List.getD] at hb
  | cons b bs ih =>
      intro i hb
      cases i with
      | zero =>
          simp only [List.getD_cons_zero] at hb
          simp [hb]
      | succ i =>
          simp only [List.getD_cons_succ] at hb
          simp only [List.set_cons_succ, List.flatten_cons]
          refine List.Perm.trans List.perm_middle.symm ?_
          exact List.Perm.append_left b (ih i hb)

theorem getD_set_self (bs : List β) (i : Nat) (v d : β) (h : i < bs.length) :
    (bs.set i v).getD i d = v := by
  simp [List.getD_eq_getElem?_getD, List.getElem?_set_self h]

theorem getD_set_ne (bs : List β) (i j : Nat) (v d : β) (h : j ≠ i) :
    (bs.set i v).getD j d = bs.getD j d := by
  simp [List.getD_eq_getElem?_getD, List.getElem?_set_ne (Ne.symm h)]

theorem htabList_of_none (t : HTab α) (h : t.tab = none) : htabList t = [] := by
  simp [htabList, h]

theorem htabList_of_some (t : HTab α) (bs : List (List (HNode α))) (h : t.tab = some bs) :
    htabList t = bs.flatten := by
  simp [htabList, h]

theorem h_init_isSome (n : Nat) : (h_init α n).tab.isSome := by
  obtain ⟨k, _, heq⟩ := h_init_spec (α := α) n
  rw [heq]
  rfl

theorem h_insert_eq (t : HTab α) (node : HNode α) (bs : List (List (HNode α)))
    (h : t.tab = some bs) :
    h_insert t node
      = ⟨some (bs.set (node.hcode &&& t.mask) (node :: bs.getD (node.hcode &&& t.mask) [])),
         t.mask, t.size + 1⟩ := by
  simp [h_insert, h]

theorem h_insert_isSome (t : HTab α) (node : HNode α) (h : t.tab.isSome) :
    (h_insert t node).tab.isSome := by
  obtain ⟨bs, hbs⟩ := Option.isSome_iff_exists.mp h
  rw [h_insert_eq t node bs hbs]
  rfl

theorem h_insert_pos_lt (t : HTab α) (node : HNode α) (bs : List (List (HNode α)))
    (hok : TabOk t) (hbs : t.tab = some bs) :
    node.hcode &&& t.mask < bs.length := by
  have h1 : node.hcode &&& t.mask ≤ t.mask := Nat.and_le_right
  have h2 : bs.length = t.mask + 1 := hok.blen bs hbs
  omega

theorem h_insert_perm (t : HTab α) (node : HNode α) (hok : TabOk t) (hs : t.tab.isSome) :
    (htabList (h_insert t node)).Perm (node :: htabList t) := by
  obtain ⟨bs, hbs⟩ := Option.isSome_iff_exists.mp hs
  rw [h_insert_eq t node bs hbs, htabList_of_some _ _ rfl, htabList_of_some t bs hbs]
  exact flatten_set_cons bs node _ (h_insert_pos_lt t node bs hok hbs)

theorem tabOk_h_insert (t : HTab α) (node : HNode α) (hok : TabOk t) (hs : t.tab.isSome) :
    TabOk (h_insert t node) := by
  obtain ⟨bs, hbs⟩ := Option.isSome_iff_exists.mp hs
  have hpos := h_insert_pos_lt t node bs hok hbs
  rw [h_insert_eq t node bs hbs]
  constructor
  · intro bs2 h2
    rw [Option.some_inj] at h2
    rw [← h2, List.length_set]
    exact hok.blen bs hbs
  · have hp := h_insert_perm t node hok hs
    rw [h_insert_eq t node bs hbs] at hp
    have hl := hp.length_eq
    rw [htabList_of_some t bs hbs] at hl
    have hsz := hok.size_eq
    rw [htabList_of_some t bs hbs] at hsz
    show t.size + 1 = _
    rw [hl]
    simp [hsz]
  · intro bs2 h2 j n hn
    rw [Option.some_inj] at h2
    rw [← h2] at hn
    by_cases hj : j = node.hcode &&& t.mask
    · subst hj
      rw [getD_set_self bs _ _ _ hpos] at hn
      rcases List.mem_cons.mp hn with h | h
      · rw [h]
      · exact hok.placed bs hbs _ n h
    · rw [getD_set_ne bs _ j _ _ hj] at hn
      exact hok.placed bs hbs j n hn

theorem helpLoop_ok (fuel : Nat) : ∀ (m : HMap α) (nwork : Nat), MapOk m →
    MapOk (helpLoop fuel m nwork) ∧ (hmapList (helpLoop fuel m nwork)).Perm (hmapList m) := by
  induction fuel with
  | zero =>
      intro m nwork hok
      exact ⟨hok, List.Perm.refl _⟩
  | succ fuel ih =>
      intro m nwork hok
      rw [helpLoop]
      by_cases hc : nwork < k_resizing_work ∧ m.ht2.size > 0
      · rw [if_pos hc]
        split
        · exact ⟨hok, List.Perm.refl _⟩
        · rename_i buckets hb2
          by_cases hpos : m.resizing_pos < buckets.length
          · rw [if_pos hpos]
            split
            · rename_i hbk
              exact ih ⟨m.ht1, m.ht2, m.resizing_pos + 1⟩ nwork
                ⟨hok.t1, hok.t2, hok.coupled⟩
            · rename_i node rest hbk
              have h1s : m.ht1.tab.isSome := hok.coupled (by rw [hb2]; rfl)
              have htail := flatten_set_tail buckets node rest m.resizing_pos hbk
              have hsz2 : m.ht2.size = buckets.flatten.length := by
                have := hok.t2.size_eq
                rwa [htabList_of_some m.ht2 buckets hb2] at this
              have hok' : MapOk (⟨h_insert m.ht1 node,
                  ⟨some (buckets.set m.resizing_pos rest), m.ht2.mask, m.ht2.size - 1⟩,
                  m.resizing_pos⟩ : HMap α) := by
                refine ⟨tabOk_h_insert m.ht1 node hok.t1 h1s, ?_, ?_⟩
                · constructor
                  · intro bs h
                    rw [Option.some_inj] at h
                    rw [← h, List.length_set]
                    exact hok.t2.blen buckets hb2
                  · show m.ht2.size - 1 = _
                    rw [htabList_of_some _ (buckets.set m.resizing_pos rest) rfl]
                    have := htail.length_eq
                    simp only [List.length_cons] at this
                    omega
                  · intro bs h j n hn
                    rw [Option.some_inj] at h
                    rw [← h] at hn
                    by_cases hj : j = m.resizing_pos
                    · rw [hj, getD_set_self buckets _ _ _ hpos] at hn
                      have : n ∈ buckets.getD j [] := by
                        rw [hj, hbk]
                        exact List.mem_cons_of_mem node hn
                      exact hok.t2.placed buckets hb2 j n this
                    · rw [getD_set_ne buckets _ j _ _ hj] at hn
                      exact hok.t2.placed buckets hb2 j n hn
                · intro _
                  exact h_insert_isSome m.ht1 node h1s
              refine ⟨(ih _ (nwork + 1) hok').1, (ih _ (nwork + 1) hok').2.trans ?_⟩
              show (htabList (h_insert m.ht1 node)
                  ++ htabList (⟨some (buckets.set m.resizing_pos rest),
                       m.ht2.mask, m.ht2.size - 1⟩ : HTab α)).Perm (hmapList m)
              rw [htabList_of_some (⟨some (buckets.set m.resizing_pos rest),
                    m.ht2.mask, m.ht2.size - 1⟩ : HTab α) (buckets.set m.resizing_pos rest) rfl]
              have hstep1 : (htabList (h_insert m.ht1 node)
                  ++ (buckets.set m.resizing_pos rest).flatten).Perm
                  ((node :: htabList m.ht1) ++ (buckets.set m.resizing_pos rest).flatten) :=
                List.Perm.append_right _ (h_insert_perm m.ht1 node hok.t1 h1s)
              refine hstep1.trans ?_
              show (node :: (htabList m.ht1 ++ (buckets.set m.resizing_pos rest).flatten)).Perm _
              refine List.Perm.trans List.perm_middle.symm ?_
              show (htabList m.ht1 ++ node :: (buckets.set m.resizing_pos rest).flatten).Perm _
              have : (node :: (buckets.set m.resizing_pos rest).flatten).Perm
                  (htabList m.ht2) := by
                rw [htabList_of_some m.ht2 buckets hb2]
                exact htail
              exact List.Perm.append_left _ this
          · rw [if_neg hpos]
            exact ⟨hok, List.Perm.refl _⟩
      · rw [if_neg hc]
        exact ⟨hok, List.Perm.refl _⟩

theorem hm_help_resizing_ok (m : HMap α) (hok : MapOk m) :
    MapOk (hm_help_resizing m) ∧ (hmapList (hm_help_resizing m)).Perm (hmapList m) := by
  obtain ⟨hok', hperm⟩ := helpLoop_ok (helpFuel m) m 0 hok
  rw [hm_help_resizing]
  by_cases hz : (helpLoop (helpFuel m) m 0).ht2.size = 0
      ∧ (helpLoop (helpFuel m) m 0).ht2.tab.isSome
  · rw [if_pos hz]
    have hnil : htabList (helpLoop (helpFuel m) m 0).ht2 = [] := by
      have := hok'.t2.size_eq
      rw [hz.1] at this
      exact List.eq_nil_of_length_eq_zero this.symm
    constructor
    · refine ⟨hok'.t1, tabOk_null, ?_⟩
      intro h
      simp [HTab.null] at h
    · show (htabList (helpLoop (helpFuel m) m 0).ht1 ++ htabList (HTab.null α)).Perm _
      have : htabList (HTab.null α) = ([] : List (HNode α)) := rfl
      rw [this]
      have h2 : hmapList (helpLoop (helpFuel m) m 0)
          = htabList (helpLoop (helpFuel m) m 0).ht1 ++ [] := by
        rw [hmapList, hnil]
      rw [← h2]
      exact hperm
  · rw [if_neg hz]
    exact ⟨hok', hperm⟩

theorem hm_start_resizing_ok (m : HMap α) (hok : MapOk m) (h2none : m.ht2.tab = none) :
    MapOk (hm_start_resizing m)
      ∧ hmapList (hm_start_resizing m) = htabList m.ht1 := by
  constructor
  · refine ⟨tabOk_h_init _, hok.t1, ?_⟩
    intro _
    exact h_init_isSome _
  · show htabList (h_init α ((m.ht1.mask + 1) * 2)) ++ htabList m.ht1 = _
    rw [htabList_h_init]
    rfl

theorem hm_insert_ok (m : HMap α) (node : HNode α) (hok : MapOk m) :
    MapOk (hm_insert m node) ∧ (hmapList (hm_insert m node)).Perm (node :: hmapList m) := by
  rw [hm_insert]
  by_cases h1 : m.ht1.tab.isNone
  all_goals simp only [h1, if_true, if_false, Bool.false_eq_true]
  · have h2none : m.ht2.tab = none := by
      cases hb : m.ht2.tab with
      | none => rfl
      | some bs =>
          exfalso
          have := hok.coupled (by rw [hb]; rfl)
          rw [Option.isNone_iff_eq_none.mp h1] at this
          simp at this
    have hok1 : MapOk ({ m with ht1 := h_init α 4 }) := by
      refine ⟨tabOk_h_init 4, hok.t2, ?_⟩
      intro _
      exact h_init_isSome 4
    have hs1 : ({ m with ht1 := h_init α 4 } : HMap α).ht1.tab.isSome := h_init_isSome 4
    have hok2 : MapOk ({ m with ht1 := h_insert (h_init α 4) node }) := by
      refine ⟨tabOk_h_insert _ node (tabOk_h_init 4) hs1, hok.t2, ?_⟩
      intro _
      exact h_insert_isSome _ node hs1
    have hperm2 : (hmapList ({ m with ht1 := h_insert (h_init α 4) node })).Perm
        (node :: hmapList m) := by
      show (htabList (h_insert (h_init α 4) node) ++ htabList m.ht2).Perm _
      have hp := h_insert_perm (h_init α 4) node (tabOk_h_init 4) (h_init_isSome 4)
      rw [htabList_h_init] at hp
      refine (List.Perm.append_right _ hp).trans ?_
      show (node :: ([] ++ htabList m.ht2)).Perm (node :: hmapList m)
      rw [hmapList, htabList_of_none m.ht1 (Option.isNone_iff_eq_none.mp h1)]
    set m2 := ({ m with ht1 := h_insert (h_init α 4) node } : HMap α) with hm2
    by_cases hload : m2.ht2.tab.isNone
        ∧ m2.ht1.size / (m2.ht1.mask + 1) ≥ k_max_load_factor
    · rw [if_pos hload]
      obtain ⟨hok3, hlist3⟩ := hm_start_resizing_ok m2 hok2
        (Option.isNone_iff_eq_none.mp hload.1)
      obtain ⟨hok4, hperm4⟩ := hm_help_resizing_ok _ hok3
      refine ⟨hok4, hperm4.trans ?_⟩
      rw [hlist3]
      refine List.Perm.trans ?_ hperm2
      show (htabList m2.ht1).Perm (hmapList m2)
      rw [hmapList, htabList_of_none m2.ht2 (Option.isNone_iff_eq_none.mp hload.1)]
      simp
    · rw [if_neg hload]
      obtain ⟨hok4, hperm4⟩ := hm_help_resizing_ok m2 hok2
      exact ⟨hok4, hperm4.trans hperm2⟩
  · have hs1 : m.ht1.tab.isSome := by
      cases hb : m.ht1.tab with
      | none => rw [hb] at h1; simp at h1
      | some bs => rfl
    have hok2 : MapOk ({ m with ht1 := h_insert m.ht1 node }) := by
      refine ⟨tabOk_h_insert _ node hok.t1 hs1, hok.t2, ?_⟩
      intro _
      exact h_insert_isSome _ node hs1
    have hperm2 : (hmapList ({ m with ht1 := h_insert m.ht1 node })).Perm
        (node :: hmapList m) := by
      show (htabList (h_insert m.ht1 node) ++ htabList m.ht2).Perm _
      exact List.Perm.append_right _ (h_insert_perm m.ht1 node hok.t1 hs1)
    set m2 := ({ m with ht1 := h_insert m.ht1 node } : HMap α) with hm2
    by_cases hload : m2.ht2.tab.isNone
        ∧ m2.ht1.size / (m2.ht1.mask + 1) ≥ k_max_load_factor
    · rw [if_pos hload]
      obtain ⟨hok3, hlist3⟩ := hm_start_resizing_ok m2 hok2
        (Option.isNone_iff_eq_none.mp hload.1)
      obtain ⟨hok4, hperm4⟩ := hm_help_resizing_ok _ hok3
      refine ⟨hok4, hperm4.trans ?_⟩
      rw [hlist3]
      refine List.Perm.trans ?_ hperm2
      show (htabList m2.ht1).Perm (hmapList m2)
      rw [hmapList, htabList_of_none m2.ht2 (Option.isNone_iff_eq_none.mp hload.1)]
      simp
    · rw [if_neg hload]
      obtain ⟨hok4, hperm4⟩ := hm_help_resizing_ok m2 hok2
      exact ⟨hok4, hperm4.trans hperm2⟩

theorem mem_getD_mem_flatten (bs : List (List β)) (j : Nat) (x : β)
    (hx : x ∈ bs.getD j []) : x ∈ bs.flatten := by
  by_cases hj : j < bs.length
  · rw [List.getD_eq_getElem?_getD, List.getElem?_eq_getElem hj] at hx
    exact List.mem_flatten_of_mem (bs.getElem_mem hj) hx
  · rw [List.getD_eq_getElem?_getD, List.getElem?_eq_none (by omega)] at hx
    simp at hx

theorem mem_flatten_getD (bs : List (List β)) (x : β) (hx : x ∈ bs.flatten) :
    ∃ j, x ∈ bs.getD j [] := by
  obtain ⟨b, hb, hxb⟩ := List.mem_flatten.mp hx
  obtain ⟨j, hj, hbj⟩ := List.mem_iff_getElem.mp hb
  refine ⟨j, ?_⟩
  rw [List.getD_eq_getElem?_getD, List.getElem?_eq_getElem hj, hbj]
  exact hxb

theorem h_lookup_none_iff (t : HTab α) (key : HNode α) (eq : HNode α → HNode α → Bool)
    (hok : TabOk t) :
    h_lookup t key eq = none
      ↔ ∀ n ∈ htabList t, ¬(n.hcode = key.hcode ∧ eq n key = true) := by
  cases hbs : t.tab with
  | none =>
      rw [htabList_of_none t hbs]
      simp [h_lookup, hbs]
  | some bs =>
      rw [htabList_of_some t bs hbs]
      cases hf : (bs.getD (key.hcode &&& t.mask) []).findIdx?
          (fun cur => cur.hcode == key.hcode && eq cur key) with
      | some i =>
          have hval : h_lookup t key eq = some (key.hcode &&& t.mask, i) := by
            simp only [h_lookup, hbs, hf]
          rw [hval]
          constructor
          · intro hc
            simp at hc
          · intro hall
            exfalso
            rw [List.findIdx?_eq_some_iff_getElem] at hf
            obtain ⟨hlt, hp, _⟩ := hf
            have hmem : (bs.getD (key.hcode &&& t.mask) [])[i]
                ∈ bs.getD (key.hcode &&& t.mask) [] :=
              (bs.getD (key.hcode &&& t.mask) []).getElem_mem hlt
            have hfl := mem_getD_mem_flatten bs _ _ hmem
            have := hall _ hfl
            simp only [Bool.and_eq_true, beq_iff_eq] at hp
            exact this ⟨hp.1, hp.2⟩
      | none =>
          have hval : h_lookup t key eq = none := by
            simp only [h_lookup, hbs, hf]
          rw [hval]
          constructor
          · intro _ n hn hmatch
            rw [List.findIdx?_eq_none_iff] at hf
            obtain ⟨j, hj⟩ := mem_flatten_getD bs n hn
            have hplace : n.hcode &&& t.mask = j := hok.placed bs hbs j n hj
            have hjpos : j = key.hcode &&& t.mask := by
              rw [← hplace, hmatch.1]
            rw [hjpos] at hj
            have := hf n hj
            simp [hmatch.1, hmatch.2] at this
          · intro _
            rfl

theorem h_lookup_some_spec (t : HTab α) (key : HNode α) (eq : HNode α → HNode α → Bool)
    (r : Nat × Nat) (hok : TabOk t) (hfound : h_lookup t key eq = some r) :
    ∃ n, h_at t r = some n ∧ n ∈ htabList t ∧ n.hcode = key.hcode ∧ eq n key = true := by
  cases hbs : t.tab with
  | none => rw [h_lookup, hbs] at hfound; simp at hfound
  | some bs =>
      cases hf : (bs.getD (key.hcode &&& t.mask) []).findIdx?
          (fun cur => cur.hcode == key.hcode && eq cur key) with
      | none =>
          have hval : h_lookup t key eq = none := by
            simp only [h_lookup, hbs, hf]
          rw [hval] at hfound
          simp at hfound
      | some i =>
          have hval : h_lookup t key eq = some (key.hcode &&& t.mask, i) := by
            simp only [h_lookup, hbs, hf]
          rw [hval] at hfound
          rw [Option.some_inj] at hfound
          rw [List.findIdx?_eq_some_iff_getElem] at hf
          obtain ⟨hlt, hp, _⟩ := hf
          refine ⟨(bs.getD (key.hcode &&& t.mask) [])[i], ?_, ?_, ?_⟩
          · rw [h_at, hbs, ← hfound]
            show (bs.getD (key.hcode &&& t.mask) []).get? i = _
            rw [List.get?_eq_getElem?, List.getElem?_eq_getElem hlt]
          · rw [htabList_of_some t bs hbs]
            exact mem_getD_mem_flatten bs _ _
              ((bs.getD (key.hcode &&& t.mask) []).getElem_mem hlt)
          · simp only [Bool.and_eq_true, beq_iff_eq] at hp
            exact ⟨hp.1, hp.2⟩

theorem hm_lookup_state (m : HMap α) (key : HNode α) (eq : HNode α → HNode α → Bool) :
    (hm_lookup m key eq).1 = hm_help_resizing m := by
  rw [hm_lookup]
  split
  · rfl
  · split
    · rfl
    · rfl

theorem hm_lookup_found (m : HMap α) (key : HNode α) (eq : HNode α → HNode α → Bool)
    (n : HNode α) (hok : MapOk m) (h : (hm_lookup m key eq).2 = some n) :
    n ∈ hmapList m ∧ n.hcode = key.hcode ∧ eq n key = true := by
  obtain ⟨hok', hperm⟩ := hm_help_resizing_ok m hok
  have hmem : n ∈ hmapList (hm_help_resizing m) → n ∈ hmapList m := hperm.mem_iff.mp
  rcases h1 : h_lookup (hm_help_resizing m).ht1 key eq with _ | r1
  · rcases h2 : h_lookup (hm_help_resizing m).ht2 key eq with _ | r2
    · have hval : (hm_lookup m key eq).2 = none := by
        simp only [hm_lookup, h1, h2]
      rw [hval] at h
      simp at h
    · obtain ⟨n2, hat, hmem2, hhc, heq⟩ := h_lookup_some_spec _ key eq r2 hok'.t2 h2
      have hval : (hm_lookup m key eq).2 = h_at (hm_help_resizing m).ht2 r2 := by
        simp only [hm_lookup, h1, h2]
      rw [hval, hat] at h
      rw [Option.some_inj] at h
      subst h
      exact ⟨hmem (by rw [hmapList]; exact List.mem_append_right _ hmem2), hhc, heq⟩
  · obtain ⟨n1, hat, hmem1, hhc, heq⟩ := h_lookup_some_spec _ key eq r1 hok'.t1 h1
    have hval : (hm_lookup m key eq).2 = h_at (hm_help_resizing m).ht1 r1 := by
      simp only [hm_lookup, h1]
    rw [hval, hat] at h
    rw [Option.some_inj] at h
    subst h
    exact ⟨hmem (by rw [hmapList]; exact List.mem_append_left _ hmem1), hhc, heq⟩

theorem hm_lookup_missing (m : HMap α) (key : HNode α) (eq : HNode α → HNode α → Bool)
    (hok : MapOk m) (h : (hm_lookup m key eq).2 = none) :
    ∀ n ∈ hmapList m, ¬(n.hcode = key.hcode ∧ eq n key = true) := by
  obtain ⟨hok', hperm⟩ := hm_help_resizing_ok m hok
  rcases h1 : h_lookup (hm_help_resizing m).ht1 key eq with _ | r1
  · rcases h2 : h_lookup (hm_help_resizing m).ht2 key eq with _ | r2
    · intro n hn
      have hn' : n ∈ hmapList (hm_help_resizing m) := hperm.mem_iff.mpr hn
      rw [hmapList, List.mem_append] at hn'
      rcases hn' with hn' | hn'
      · exact (h_lookup_none_iff _ key eq hok'.t1).mp h1 n hn'
      · exact (h_lookup_none_iff _ key eq hok'.t2).mp h2 n hn'
    · exfalso
      obtain ⟨n2, hat, _, _, _⟩ := h_lookup_some_spec _ key eq r2 hok'.t2 h2
      have hval : (hm_lookup m key eq).2 = h_at (hm_help_resizing m).ht2 r2 := by
        simp only [hm_lookup, h1, h2]
      rw [hval, hat] at h
      simp at h
  · exfalso
    obtain ⟨n1, hat, _, _, _⟩ := h_lookup_some_spec _ key eq r1 hok'.t1 h1
    have hval : (hm_lookup m key eq).2 = h_at (hm_help_resizing m).ht1 r1 := by
      simp only [hm_lookup, h1]
    rw [hval, hat] at h
    simp at h

/-! ### Sorted sets (`src/data_structures/zset.c`)

A `ZNode` owns a `(score, name)` tuple and sits in both indices at once:
its `tree` member is an AVL node and its `hmap` member a hash node.  The
functional rendering keeps the AVL tree as the `Avl` of `(score, name)`
tuples and the hash index as an `HMap` whose node data is the tuple;
the C's single shared node appears once in each rendering.  `double`
scores are abstracted to `Int` (`zless` only compares them). -/

structure ZNodeData where
  score : Int
  name : Bytes
deriving Repr, DecidableEq

/-- `hcmp` (`src/data_structures/zset.c:103`): equal length and equal
bytes of the two names — byte-list equality. -/
def hcmp (node key : HNode ZNodeData) : Bool :=
  node.data.name == key.data.name

/-- The `HKey` built by `zset_lookup`/`zset_pop` (`src/data_structures/zset.c:120`):
hash code of the name; `hcmp` reads only the name. -/
def zkey (name : Bytes) : HNode ZNodeData := ⟨fnv1a name, ⟨0, name⟩⟩

/-- `znode_new` (`src/data_structures/zset.c:17`): a node carrying the
tuple, hashed by `fnv1a` of the name. -/
def znode_new (name : Bytes) (score : Int) : HNode ZNodeData := ⟨fnv1a name, ⟨score, name⟩⟩

structure ZSet where
  tree : Avl
  hmap : HMap ZNodeData
deriving Repr, DecidableEq

/-- `zset_lookup` (`src/data_structures/zset.c:117`): nothing to find in
an empty set (the `if (zset->tree)` guard); otherwise consult the hash
index, whose state the lookup advances. -/
def zset_lookup (zs : ZSet) (name : Bytes) : ZSet × Option (HNode ZNodeData) :=
  match zs.tree with
  | .nil => (zs, none)
  | _ =>
    let r := hm_lookup zs.hmap (zkey name) hcmp
    ({ zs with hmap := r.1 }, r.2)

/-- `node->score = score` in `zset_update` writes through the node that
the hash index shares: the (unique) hash node with that name now carries
the new score. -/
def hnodeSetScore (name : Bytes) (score : Int) (n : HNode ZNodeData) : HNode ZNodeData :=
  if n.data.name = name then ⟨n.hcode, ⟨score, n.data.name⟩⟩ else n

def htabSetScore (t : HTab ZNodeData) (name : Bytes) (score : Int) : HTab ZNodeData :=
  ⟨t.tab.map (fun bs => bs.map (fun b => b.map (hnodeSetScore name score))), t.mask, t.size⟩

def hmapSetScore (m : HMap ZNodeData) (name : Bytes) (score : Int) : HMap ZNodeData :=
  ⟨htabSetScore m.ht1 name score, htabSetScore m.ht2 name score, m.resizing_pos⟩

/-- `zset_update` (`src/data_structures/zset.c:238`): equal score is a
no-op; otherwise detach the node from the tree, overwrite its score, and
re-insert it. -/
def zset_update (zs : ZSet) (node : HNode ZNodeData) (score : Int) : ZSet :=
  if node.data.score == score then zs
  else
    ⟨tree_add (tree_del zs.tree node.data.score node.data.name) score node.data.name,
     hmapSetScore zs.hmap node.data.name score⟩

/-- `zset_add` (`src/data_structures/zset.c:256`): update the existing
member, or create a node and insert it into both indices; `true` means a
new tuple was added. -/
def zset_add (zs : ZSet) (name : Bytes) (score : Int) : ZSet × Bool :=
  match zset_lookup zs name with
  | (zs, some node) => (zset_update zs node score, false)
  | (zs, none) =>
    let node := znode_new name score
    let zs := { zs with hmap := hm_insert zs.hmap node }
    ({ zs with tree := tree_add zs.tree score name }, true)

/-- The tuples the hash index holds. -/
def zlist (m : HMap ZNodeData) : List (Int × Bytes) :=
  (hmapList m).map fun n => (n.data.score, n.data.name)

/-- A reachable sorted set: a search tree, a structurally sound hash map,
both indices holding the same tuples, correct cached hash codes, and
member names unique. -/
structure ZSetOk (zs : ZSet) : Prop where
  bst : IsBST zs.tree
  mapok : MapOk zs.hmap
  agree : (zlist zs.hmap).Perm (inorder zs.tree)
  hcodes : ∀ n ∈ hmapList zs.hmap, n.hcode = fnv1a n.data.name
  nodup : ((inorder zs.tree).map Prod.snd).Nodup

theorem mapOk_init : MapOk (HMap.init α) :=
  ⟨tabOk_null, tabOk_null, fun h => by simp [HMap.init, HTab.null] at h⟩

theorem insertSorted_perm (k : Int × Bytes) (xs : List (Int × Bytes)) :
    (insertSorted k xs).Perm (k :: xs) := by
  induction xs with
  | nil => exact List.Perm.refl _
  | cons x xs ih =>
      by_cases hz : zless k.1 k.2 x.1 x.2
      · rw [insertSorted, if_pos hz]
      · rw [insertSorted, if_neg hz]
        exact (List.Perm.cons x ih).trans (List.Perm.swap k x xs)

theorem name_unique (nm : Bytes) (s0 s1 : Int) :
    ∀ (l : List (Int × Bytes)), (l.map Prod.snd).Nodup →
      (s0, nm) ∈ l → (s1, nm) ∈ l → s0 = s1 := by
  intro l
  induction l with
  | nil =>
      intro _ h0
      simp at h0
  | cons x xs ih =>
      intro hnd h0 h1
      rw [List.map_cons, List.nodup_cons] at hnd
      rcases List.mem_cons.mp h0 with h0 | h0
      · rcases List.mem_cons.mp h1 with h1 | h1
        · rw [← h0] at h1
          exact (Prod.mk.injEq _ _ _ _ ▸ h1.symm).1
        · exfalso
          apply hnd.1
          rw [← h0]
          simpa using List.mem_map_of_mem Prod.snd h1
      · rcases List.mem_cons.mp h1 with h1 | h1
        · exfalso
          apply hnd.1
          rw [← h1]
          simpa using List.mem_map_of_mem Prod.snd h0
        · exact ih hnd.2 h0 h1

theorem map_replace_perm (nm : Bytes) (s0 sc : Int) :
    ∀ (l : List (Int × Bytes)), (l.map Prod.snd).Nodup → (s0, nm) ∈ l →
      (l.map (fun p => if p.2 = nm then (sc, nm) else p)).Perm ((sc, nm) :: l.erase (s0, nm)) := by
  intro l
  induction l with
  | nil =>
      intro _ h0
      simp at h0
  | cons x xs ih =>
      intro hnd h0
      rw [List.map_cons, List.nodup_cons] at hnd
      by_cases hx : x.2 = nm
      · have hxx : x = (s0, nm) := by
          rcases List.mem_cons.mp h0 with h | h
          · exact h.symm
          · exfalso
            apply hnd.1
            rw [hx]
            exact List.mem_map_of_mem Prod.snd h
        have htail : xs.map (fun p => if p.2 = nm then (sc, nm) else p) = xs := by
          have : ∀ p ∈ xs, (if p.2 = nm then (sc, nm) else p) = p := by
            intro p hp
            rw [if_neg]
            intro hpn
            apply hnd.1
            rw [hx]
            have hm := List.mem_map_of_mem Prod.snd hp
            rw [hpn] at hm
            exact hm
          rw [List.map_congr_left this, List.map_id']
        rw [List.map_cons, if_pos hx, htail, hxx, List.erase_cons_head]
      · have hxne : x ≠ (s0, nm) := by
          intro h
          rw [h] at hx
          exact hx rfl
        have h0' : (s0, nm) ∈ xs := by
          rcases List.mem_cons.mp h0 with h | h
          · exact absurd h.symm hxne
          · exact h
        rw [List.map_cons, if_neg hx, List.erase_cons_tail]
        · exact (List.Perm.cons x (ih hnd.2 h0')).trans (List.Perm.swap (sc, nm) x _)
        · intro hbeq
          exact hxne (beq_iff_eq.mp hbeq)

theorem isBST_tree_del (t : Avl) (sc : Int) (nm : Bytes) (h : IsBST t) :
    IsBST (tree_del t sc nm) := by
  rw [isBST_iff_pairwise] at h ⊢
  rw [inorder_tree_del t sc nm (by rw [isBST_iff_pairwise]; exact h)]
  exact h.sublist (List.erase_sublist _ _)

theorem hmapList_hmapSetScore (m : HMap ZNodeData) (nm : Bytes) (sc : Int) :
    hmapList (hmapSetScore m nm sc) = (hmapList m).map (hnodeSetScore nm sc) := by
  rw [hmapList, hmapList, List.map_append]
  congr 1
  · cases hb : m.ht1.tab with
    | none =>
        rw [htabList_of_none _ hb, htabList_of_none]
        · rfl
        · show (m.ht1.tab.map _) = none
          rw [hb]
          rfl
    | some bs =>
        rw [htabList_of_some _ bs hb, htabList_of_some _ (bs.map (List.map (hnodeSetScore nm sc)))]
        · rw [List.map_flatten]
        · show (m.ht1.tab.map _) = _
          rw [hb]
          rfl
  · cases hb : m.ht2.tab with
    | none =>
        rw [htabList_of_none _ hb, htabList_of_none]
        · rfl
        · show (m.ht2.tab.map _) = none
          rw [hb]
          rfl
    | some bs =>
        rw [htabList_of_some _ bs hb, htabList_of_some _ (bs.map (List.map (hnodeSetScore nm sc)))]
        · rw [List.map_flatten]
        · show (m.ht2.tab.map _) = _
          rw [hb]
          rfl

theorem zlist_hmapSetScore (m : HMap ZNodeData) (nm : Bytes) (sc : Int) :
    zlist (hmapSetScore m nm sc)
      = (zlist m).map (fun p => if p.2 = nm then (sc, nm) else p) := by
  rw [zlist, hmapList_hmapSetScore, List.map_map, zlist, List.map_map]
  apply List.map_congr_left
  intro n _
  show (fun n => ((n : HNode ZNodeData).data.score, n.data.name)) (hnodeSetScore nm sc n)
      = if n.data.name = nm then (sc, nm) else (n.data.score, n.data.name)
  by_cases h : n.data.name = nm
  · rw [hnodeSetScore, if_pos h]
    simp [h]
  · rw [hnodeSetScore, if_neg h]
    simp [h]

theorem zset_lookup_state (zs : ZSet) (name : Bytes) (h : ZSetOk zs) :
    (zset_lookup zs name).1.tree = zs.tree ∧ MapOk (zset_lookup zs name).1.hmap ∧
    (hmapList (zset_lookup zs name).1.hmap).Perm (hmapList zs.hmap) := by
  cases ht : zs.tree with
  | nil =>
      have hv : (zset_lookup zs name).1 = zs := by
        simp only [zset_lookup, ht]
      rw [hv]
      exact ⟨ht, h.mapok, List.Perm.refl _⟩
  | node l sc nm hh cc r =>
      have hv : (zset_lookup zs name).1
          = { zs with hmap := (hm_lookup zs.hmap (zkey name) hcmp).1 } := by
        simp only [zset_lookup, ht]
      rw [hv]
      refine ⟨ht, ?_, ?_⟩
      · show MapOk (hm_lookup zs.hmap (zkey name) hcmp).1
        rw [hm_lookup_state]
        exact (hm_help_resizing_ok _ h.mapok).1
      · show (hmapList (hm_lookup zs.hmap (zkey name) hcmp).1).Perm _
        rw [hm_lookup_state]
        exact (hm_help_resizing_ok _ h.mapok).2

theorem zset_lookup_none_spec (zs : ZSet) (name : Bytes) (h : ZSetOk zs)
    (hn : (zset_lookup zs name).2 = none) :
    ∀ s0, (s0, name) ∉ inorder zs.tree := by
  intro s0 hmem
  cases ht : zs.tree with
  | nil =>
      rw [ht] at hmem
      simp [inorder] at hmem
  | node l sc nm hh cc r =>
      have h2 : (zset_lookup zs name).2 = (hm_lookup zs.hmap (zkey name) hcmp).2 := by
        simp only [zset_lookup, ht]
      rw [h2] at hn
      have hz : (s0, name) ∈ zlist zs.hmap := h.agree.mem_iff.mpr hmem
      obtain ⟨n, hn_mem, hdata⟩ := List.mem_map.mp hz
      have hname : n.data.name = name := congrArg Prod.snd hdata
      have hhc : n.hcode = (zkey name).hcode := by
        rw [h.hcodes n hn_mem]
        show fnv1a n.data.name = fnv1a name
        rw [hname]
      have hct : hcmp n (zkey name) = true := by
        rw [hcmp]
        show (n.data.name == name) = true
        rw [beq_iff_eq]
        exact hname
      exact hm_lookup_missing zs.hmap (zkey name) hcmp h.mapok hn n hn_mem ⟨hhc, hct⟩

theorem zset_lookup_some_spec (zs : ZSet) (name : Bytes) (node : HNode ZNodeData)
    (h : ZSetOk zs) (hs : (zset_lookup zs name).2 = some node) :
    node.data.name = name ∧ (node.data.score, name) ∈ inorder zs.tree := by
  cases ht : zs.tree with
  | nil =>
      have hv : (zset_lookup zs name).2 = none := by
        simp only [zset_lookup, ht]
      rw [hv] at hs
      simp at hs
  | node l sc nm hh cc r =>
      have h2 : (zset_lookup zs name).2 = (hm_lookup zs.hmap (zkey name) hcmp).2 := by
        simp only [zset_lookup, ht]
      rw [h2] at hs
      obtain ⟨hmem, _, heq⟩ := hm_lookup_found zs.hmap (zkey name) hcmp node h.mapok hs
      have hname : node.data.name = name := by
        rw [hcmp] at heq
        exact beq_iff_eq.mp heq
      refine ⟨hname, ?_⟩
      have hz : (node.data.score, node.data.name) ∈ zlist zs.hmap :=
        List.mem_map_of_mem _ hmem
      rw [hname] at hz
      rw [← ht]
      exact h.agree.mem_iff.mp hz

/-- **C5.** For every ZADD with a valid score: a member absent from the
sorted set is inserted as a new node carrying `(s, m)` into both the
ordered-tree index (at its sorted position) and the name hash index and
the call reports an insertion (INT 1); an existing member with equal
score is a no-op; an existing member with a different score is removed
from the tree, its score updated, and reinserted at the correct ordered
position; both existing-member cases report an update (INT 0). -/
theorem claim_c5_zadd_cases (zs : ZSet) (s : Int) (m : Bytes) (h : ZSetOk zs) :
    ((∀ s0, (s0, m) ∉ inorder zs.tree) →
       (zset_add zs m s).2 = true
       ∧ inorder (zset_add zs m s).1.tree = insertSorted (s, m) (inorder zs.tree)
       ∧ (zlist (zset_add zs m s).1.hmap).Perm ((s, m) :: inorder zs.tree))
  ∧ ((s, m) ∈ inorder zs.tree →
       (zset_add zs m s).2 = false
       ∧ (zset_add zs m s).1.tree = zs.tree
       ∧ (zlist (zset_add zs m s).1.hmap).Perm (inorder zs.tree))
  ∧ (∀ s0, (s0, m) ∈ inorder zs.tree → s0 ≠ s →
       (zset_add zs m s).2 = false
       ∧ inorder (zset_add zs m s).1.tree
           = insertSorted (s, m) ((inorder zs.tree).erase (s0, m))
       ∧ (zlist (zset_add zs m s).1.hmap).Perm ((s, m) :: (inorder zs.tree).erase (s0, m))) := by
  rcases hL : zset_lookup zs m with ⟨zs1, opt⟩
  have hstate := zset_lookup_state zs m h
  rw [hL] at hstate
  obtain ⟨htree1, hok1, hperm1⟩ := hstate
  cases opt with
  | none =>
      have hnone := zset_lookup_none_spec zs m h (by rw [hL])
      have hr2 : (zset_add zs m s).2 = true := by
        simp only [zset_add, hL]
      have hrtree : (zset_add zs m s).1.tree = tree_add zs1.tree s m := by
        simp only [zset_add, hL]
      have hrmap : (zset_add zs m s).1.hmap = hm_insert zs1.hmap (znode_new m s) := by
        simp only [zset_add, hL]
      obtain ⟨hok2, hperm2⟩ := hm_insert_ok zs1.hmap (znode_new m s) hok1
      have hzperm : (zlist (zset_add zs m s).1.hmap).Perm ((s, m) :: inorder zs.tree) := by
        rw [hrmap, zlist]
        refine (hperm2.map _).trans ?_
        show ((s, m) :: (hmapList zs1.hmap).map _).Perm _
        refine List.Perm.cons (s, m) ?_
        refine ((hperm1.map _).trans ?_)
        exact h.agree
      have htree : inorder (zset_add zs m s).1.tree = insertSorted (s, m) (inorder zs.tree) := by
        rw [hrtree, htree1, inorder_tree_add zs.tree s m h.bst]
      refine ⟨fun _ => ⟨hr2, htree, hzperm⟩, fun hmem => ?_, fun s0 hmem _ => ?_⟩
      · exact absurd hmem (hnone s)
      · exact absurd hmem (hnone s0)
  | some node =>
      obtain ⟨hname, hmem_tree⟩ := zset_lookup_some_spec zs m node h (by rw [hL])
      have hr2 : (zset_add zs m s).2 = false := by
        simp only [zset_add, hL]
      have hr1 : (zset_add zs m s).1 = zset_update zs1 node s := by
        simp only [zset_add, hL]
      refine ⟨fun hno => absurd hmem_tree (hno node.data.score), fun hmem => ?_,
        fun s0 hmem hne => ?_⟩
      · -- equal score: no-op
        have hsc : node.data.score = s := name_unique m node.data.score s (inorder zs.tree)
          h.nodup hmem_tree hmem
        have hupd : zset_update zs1 node s = zs1 := by
          rw [zset_update, if_pos (beq_iff_eq.mpr hsc)]
        refine ⟨hr2, ?_, ?_⟩
        · rw [hr1, hupd, htree1]
        · rw [hr1, hupd]
          exact ((hperm1.map _).trans h.agree)
      · -- different score: delete, update, reinsert
        have hsc : node.data.score = s0 := name_unique m node.data.score s0 (inorder zs.tree)
          h.nodup hmem_tree hmem
        have hbne : (node.data.score == s) = false := by
          rw [beq_eq_false_iff_ne, hsc]
          exact hne
        have hupd : zset_update zs1 node s
            = ⟨tree_add (tree_del zs1.tree node.data.score node.data.name) s node.data.name,
               hmapSetScore zs1.hmap node.data.name s⟩ := by
          rw [zset_update, if_neg (by rw [hbne]; exact Bool.false_ne_true)]
        have hbst_del : IsBST (tree_del zs.tree s0 m) := isBST_tree_del zs.tree s0 m h.bst
        refine ⟨hr2, ?_, ?_⟩
        · rw [hr1, hupd]
          show inorder (tree_add (tree_del zs1.tree node.data.score node.data.name)
              s node.data.name) = _
          rw [hname, hsc, htree1, inorder_tree_add _ s m hbst_del,
            inorder_tree_del zs.tree s0 m h.bst]
        · rw [hr1, hupd]
          show (zlist (hmapSetScore zs1.hmap node.data.name s)).Perm _
          rw [hname, zlist_hmapSetScore]
          have hstep : (zlist zs1.hmap).Perm (inorder zs.tree) :=
            (hperm1.map _).trans h.agree
          refine ((hstep.map _).trans ?_)
          exact map_replace_perm m s0 s (inorder zs.tree) h.nodup hmem

theorem claim_c5_zadd_cases_witness :
    ((zset_add ⟨.nil, HMap.init ZNodeData⟩ [1] 5).2 = true
       ∧ inorder (zset_add ⟨.nil, HMap.init ZNodeData⟩ [1] 5).1.tree
           = insertSorted (5, [1]) (inorder (⟨.nil, HMap.init ZNodeData⟩ : ZSet).tree)
       ∧ (zlist (zset_add ⟨.nil, HMap.init ZNodeData⟩ [1] 5).1.hmap).Perm
           ((5, [1]) :: inorder (⟨.nil, HMap.init ZNodeData⟩ : ZSet).tree))
  ∧ ((zset_add ⟨.node .nil 3 [1] 1 1 .nil,
        hm_insert (HMap.init ZNodeData) (znode_new [1] 3)⟩ [1] 5).2 = false
       ∧ inorder (zset_add ⟨.node .nil 3 [1] 1 1 .nil,
            hm_insert (HMap.init ZNodeData) (znode_new [1] 3)⟩ [1] 5).1.tree
           = insertSorted (5, [1])
               ((inorder (⟨.node .nil 3 [1] 1 1 .nil,
                   hm_insert (HMap.init ZNodeData) (znode_new [1] 3)⟩ : ZSet).tree).erase (3, [1]))
       ∧ (zlist (zset_add ⟨.node .nil 3 [1] 1 1 .nil,
            hm_insert (HMap.init ZNodeData) (znode_new [1] 3)⟩ [1] 5).1.hmap).Perm
           ((5, [1]) :: (inorder (⟨.node .nil 3 [1] 1 1 .nil,
               hm_insert (HMap.init ZNodeData) (znode_new [1] 3)⟩ : ZSet).tree).erase (3, [1]))) := by
  constructor
  · exact (claim_c5_zadd_cases ⟨.nil, HMap.init ZNodeData⟩ 5 [1]
      ⟨trivial, mapOk_init, List.Perm.nil,
       fun n hn => absurd hn (List.not_mem_nil n), List.nodup_nil⟩).1
      (fun s0 hmem => absurd hmem (List.not_mem_nil _))
  · exact (claim_c5_zadd_cases ⟨.node .nil 3 [1] 1 1 .nil,
        hm_insert (HMap.init ZNodeData) (znode_new [1] 3)⟩ 5 [1]
      ⟨⟨trivial, trivial, fun k hk => absurd hk (List.not_mem_nil k),
          fun k hk => absurd hk (List.not_mem_nil k)⟩,
       (hm_insert_ok (HMap.init ZNodeData) (znode_new [1] 3) mapOk_init).1,
       by decide, by decide, by decide⟩).2.2 3 (by decide) (by decide)

/-! ### The server keyspace (`src/server.c`)

`Entry` (`src/server.c:267`) owns a key, a string value, a type tag and
a sorted set; its `node` member links it into the global hash map
`g_data.db` and `heap_idx` is the entry's slot in the TTL heap.  The
functional rendering keeps the entry's payload as the hash node's data
and the `heap_idx` fields of all entries as the heap state's backing
store (keyed by the entry's key, which identifies the entry). -/

def T_STR : Nat := 0
def T_ZSET : Nat := 1

def SIZE_MAX : Nat := 2 ^ 64 - 1

structure EntryData where
  key : Bytes
  value : Bytes
  type : Nat
  zset : ZSet
deriving Repr, DecidableEq

/-- `entry_eq` (`src/server.c:319`): `string_compare` of the two keys. -/
def entry_eq (lhs rhs : HNode EntryData) : Bool :=
  string_compare lhs.data.key rhs.data.key

/-- The lookup key every handler builds (`entry_init` + `string_swap` +
`fnv1a_hash` of the key). -/
def entryKeyNode (key : Bytes) : HNode EntryData :=
  ⟨fnv1a key, ⟨key, [], T_STR, ⟨.nil, HMap.init ZNodeData⟩⟩⟩

/-- The server's mutable globals used by the command handlers:
the keyspace `db` and the TTL heap (array plus every entry's `heap_idx`,
the heap's back-pointer store). -/
structure GData where
  db : HMap EntryData
  heap : HeapState

/-- `exists` (`src/server.c:1165`, renamed: `exists` is reserved in Lean):
look the key up, return the advanced map and 1 or 0. -/
def exists_ (db : HMap EntryData) (key : Bytes) : HMap EntryData × Nat :=
  let r := hm_lookup db (entryKeyNode key) entry_eq
  (r.1, if r.2.isSome then 1 else 0)

/-- The dedup loop of `do_exists` (`src/server.c:1185`): an argument is
skipped when some already-kept argument satisfies
`string_compare(...) == 0` — but `string_compare` returns *true for
equal*, so `== 0` keeps duplicates and drops distinct keys. -/
def dedupBuggy : List Bytes → List Bytes → List Bytes
  | tmp, [] => tmp
  | tmp, k :: ks =>
    let found := tmp.any fun t => string_compare k t = false
    dedupBuggy (if found then tmp else tmp ++ [k]) ks

/-- The counting loop of `do_exists`: sum `exists` over the kept
arguments, threading the map state. -/
def existsFold : HMap EntryData → Nat → List Bytes → HMap EntryData × Nat
  | db, n, [] => (db, n)
  | db, n, k :: ks =>
    let r := exists_ db k
    existsFold r.1 (n + r.2) ks

/-- `do_exists` (`src/server.c:1185`). -/
def do_exists (db : HMap EntryData) (cmd : List Bytes) : HMap EntryData × Bytes :=
  let tmp := dedupBuggy [] (cmd.drop 1)
  let r := existsFold db 0 tmp
  (r.1, out_int r.2)

/-- What the spec says `EXISTS` counts: the distinct argument keys that
are present in the keyspace (duplicates collapsed). -/
def spec_exists_count (db : HMap EntryData) (args : List Bytes) : Nat :=
  (args.dedup.filter fun k => (hmapList db).any fun n => n.data.key == k).length

/-- **C2.** `EXISTS a a b` with only `a` present answers INT 2, not the
claimed INT 1: `do_exists`'s dedup loop tests `string_compare(...) == 0`,
but `string_compare` returns true (1) for *equal* strings, so the filter
keeps duplicate keys and drops distinct ones — the count is over `[a, a]`
instead of `[a, b]`. -/
theorem claim_c2_exists_counts_duplicates :
    (do_exists (hm_insert (HMap.init EntryData)
        ⟨fnv1a [97], ⟨[97], [120], T_STR, ⟨.nil, HMap.init ZNodeData⟩⟩⟩)
        [ascii "EXISTS", [97], [97], [98]]).2 = out_int 2
    ∧ spec_exists_count (hm_insert (HMap.init EntryData)
        ⟨fnv1a [97], ⟨[97], [120], T_STR, ⟨.nil, HMap.init ZNodeData⟩⟩⟩)
        [[97], [97], [98]] = 1
    ∧ out_int 2 ≠ out_int 1 := by
  refine ⟨by decide, by decide, ?_⟩
  decide

/-- `k_idle_timeout_ms` (`src/server.c:775`). -/
def k_idle_timeout_ms : Nat := 5000

def UINT64_MAX : Nat := 2 ^ 64 - 1

/-- `next_timer` (`src/server.c:786`): the idle deadline comes from the
idle list's head (`idle_head` is its `idle_start`, if any connection is
idle); the TTL candidate is taken from `heap[0]` — but only when
`vector_back(heap)`, the *last* element, beats `next`. -/
def next_timer (now : Nat) (idle_head : Option Nat) (heap : List HeapItem) : Nat :=
  let next := UINT64_MAX
  let next := match idle_head with
    | some idle_start => idle_start + k_idle_timeout_ms * 1000
    | none => next
  let next := if heap ≠ [] ∧ (getItem heap (heap.length - 1)).val < next
              then (getItem heap 0).val else next
  if next = UINT64_MAX then 10000
  else if next > now then (next - now) / 1000
  else 0

/-- What the spec says `next_timer` computes: next-wake is the minimum of
the idle-list head's deadline, the heap root's deadline (whenever the heap
is non-empty) and the 10-second default; the timeout is the difference
from now, clamped to 0. -/
def next_timer_spec (now : Nat) (idle_head : Option Nat) (heap : List HeapItem) : Nat :=
  let dflt := now + 10000 * 1000
  let idle := match idle_head with
    | some idle_start => idle_start + k_idle_timeout_ms * 1000
    | none => dflt
  let root := match heap with
    | [] => dflt
    | h :: _ => h.val
  let next := min idle (min root dflt)
  if next > now then (next - now) / 1000 else 0

/-- **C4.** `next_timer` gates the heap-root candidate on
`vector_back(heap)->val < next` — the *last* heap element, not the root
(`src/server.c:798`) — so a min-heap whose root deadline is nearest but
whose last element is far away is ignored: with the heap
`[62 s, 200 s]` (a valid min-heap), an idle deadline at 63 s and now
62 s... concretely below, the code waits 3000 ms where the spec's
minimum formula waits 2000 ms. -/
theorem claim_c4_next_timer_ignores_root :
    IsMinHeap [⟨62000000, [1]⟩, ⟨200000000, [2]⟩]
    ∧ next_timer 60000000 (some 58000000) [⟨62000000, [1]⟩, ⟨200000000, [2]⟩] = 3000
    ∧ next_timer_spec 60000000 (some 58000000) [⟨62000000, [1]⟩, ⟨200000000, [2]⟩] = 2000
    ∧ (3000 : Nat) ≠ 2000 := by
  refine ⟨by decide, by decide, by decide, by decide⟩

/-- `do_ttl` (`src/server.c:912`): −2 for a missing key, −1 for an entry
outside the heap (`heap_idx == SIZE_MAX`), otherwise the remaining time
to the entry's heap deadline in milliseconds, clamped to 0. -/
def do_ttl (g : GData) (now : Nat) (cmd : List Bytes) : GData × Bytes :=
  let key := cmd.getD 1 []
  let r := hm_lookup g.db (entryKeyNode key) entry_eq
  match r.2 with
  | none => ({ g with db := r.1 }, out_int (-2))
  | some node =>
    let heap_idx := g.heap.store node.data.key
    if heap_idx = SIZE_MAX then ({ g with db := r.1 }, out_int (-1))
    else
      let expire_at := (getItem g.heap.arr heap_idx).val
      ({ g with db := r.1 },
       out_int (if expire_at > now then ((expire_at - now) / 1000 : Nat) else 0))

/-- A reachable keyspace: structurally sound hash map and correct cached
hash codes (every entry hashes its own key). -/
structure DbOk (m : HMap EntryData) : Prop where
  mapok : MapOk m
  hcodes : ∀ n ∈ hmapList m, n.hcode = fnv1a n.data.key
  nodup : ((hmapList m).map (fun n => n.data.key)).Nodup

/-- **C6.** `PTTL k`: INT −2 when `k` is not in the keyspace; INT −1 when
the entry exists but sits outside the TTL heap (`heap_idx == SIZE_MAX`);
otherwise, for a TTL set at time `t0` with requested duration `ttl` ms
(heap deadline `t0 + ttl·1000` µs) and queried at `now ≥ t0`, the
response is the remaining time in ms — a non-negative INT no greater
than `ttl`. -/
theorem claim_c6_pttl (g : GData) (now : Nat) (k : Bytes) (hok : DbOk g.db) :
    ((∀ n ∈ hmapList g.db, n.data.key ≠ k) →
        (do_ttl g now [ascii "PTTL", k]).2 = out_int (-2))
  ∧ ((∃ n ∈ hmapList g.db, n.data.key = k) → g.heap.store k = SIZE_MAX →
        (do_ttl g now [ascii "PTTL", k]).2 = out_int (-1))
  ∧ (∀ t0 ttl : Nat, (∃ n ∈ hmapList g.db, n.data.key = k) →
        g.heap.store k ≠ SIZE_MAX →
        (getItem g.heap.arr (g.heap.store k)).val = t0 + ttl * 1000 → t0 ≤ now →
        ∃ r : Nat, (do_ttl g now [ascii "PTTL", k]).2 = out_int r ∧ r ≤ ttl) := by
  have hc : ([ascii "PTTL", k].getD 1 []) = k := rfl
  have hfound : ∀ node, (hm_lookup g.db (entryKeyNode k) entry_eq).2 = some node →
      node.data.key = k := by
    intro node hnode
    have := hm_lookup_found g.db (entryKeyNode k) entry_eq node hok.mapok hnode
    have heq := this.2.2
    rw [entry_eq, string_compare] at heq
    exact beq_iff_eq.mp heq
  have hhit : (∃ n ∈ hmapList g.db, n.data.key = k) →
      ∃ node, (hm_lookup g.db (entryKeyNode k) entry_eq).2 = some node := by
    rintro ⟨n0, hn0, hkey⟩
    cases hr : (hm_lookup g.db (entryKeyNode k) entry_eq).2 with
    | some node => exact ⟨node, rfl⟩
    | none =>
        exfalso
        refine hm_lookup_missing g.db (entryKeyNode k) entry_eq hok.mapok hr n0 hn0 ⟨?_, ?_⟩
        · rw [hok.hcodes n0 hn0, hkey]
          rfl
        · rw [entry_eq, string_compare]
          show (n0.data.key == k) = true
          rw [beq_iff_eq]
          exact hkey
  refine ⟨?_, ?_, ?_⟩
  · intro hnone
    cases hr : (hm_lookup g.db (entryKeyNode k) entry_eq).2 with
    | none => simp only [do_ttl, hc, hr]
    | some node =>
        exfalso
        have h1 := hm_lookup_found g.db (entryKeyNode k) entry_eq node hok.mapok hr
        exact hnone node h1.1 (hfound node hr)
  · intro hex hsz
    obtain ⟨node, hr⟩ := hhit hex
    have hkey := hfound node hr
    simp only [do_ttl, hc, hr, hkey, hsz, if_pos]
  · intro t0 ttl hex hsz hval hle
    obtain ⟨node, hr⟩ := hhit hex
    have hkey := hfound node hr
    refine ⟨(t0 + ttl * 1000 - now) / 1000, ?_, ?_⟩
    · simp only [do_ttl, hc, hr, hkey, if_neg hsz, hval]
      by_cases hgt : t0 + ttl * 1000 > now
      · rw [if_pos hgt]
      · rw [if_neg hgt]
        have : t0 + ttl * 1000 - now = 0 := by omega
        rw [this]
        norm_num
    · have h1 : t0 + ttl * 1000 - now ≤ ttl * 1000 := by omega
      calc (t0 + ttl * 1000 - now) / 1000 ≤ ttl * 1000 / 1000 := Nat.div_le_div_right h1
        _ = ttl := Nat.mul_div_cancel ttl (by omega)

theorem claim_c6_pttl_witness :
    ∃ r : Nat, (do_ttl ⟨hm_insert (HMap.init EntryData)
        ⟨fnv1a [97], ⟨[97], [120], T_STR, ⟨.nil, HMap.init ZNodeData⟩⟩⟩,
      ⟨[⟨5000, [97]⟩], fun key => if key = [97] then 0 else SIZE_MAX⟩⟩
      2000 [ascii "PTTL", [97]]).2 = out_int r ∧ r ≤ 4 :=
  (claim_c6_pttl ⟨hm_insert (HMap.init EntryData)
        ⟨fnv1a [97], ⟨[97], [120], T_STR, ⟨.nil, HMap.init ZNodeData⟩⟩⟩,
      ⟨[⟨5000, [97]⟩], fun key => if key = [97] then 0 else SIZE_MAX⟩⟩
      2000 [97]
      ⟨(hm_insert_ok (HMap.init EntryData)
          ⟨fnv1a [97], ⟨[97], [120], T_STR, ⟨.nil, HMap.init ZNodeData⟩⟩⟩ mapOk_init).1,
        by decide, by decide⟩).2.2 1000 4 (by decide) (by decide) (by decide) (by decide)

/-- `str2int` (`src/server.c:1034`): `strtoll` base 10 with a
whole-string-consumed check.  Rendered for the forms the server receives:
an optional sign followed by decimal digits (no leading whitespace, no
overflow clamping — neither occurs in the inputs under verification);
the empty string parses as 0 (`strtoll` consumes nothing and `end ==
data + 0`). -/
def str2int (s : Bytes) : Option Int :=
  match s with
  | [] => some 0
  | _ =>
    let sd : Int × Bytes := match s with
      | 43 :: rest => (1, rest)
      | 45 :: rest => (-1, rest)
      | _ => (1, s)
    if sd.2 ≠ [] ∧ sd.2.all (fun b => 48 ≤ b && b ≤ 57) then
      some (sd.1 * Int.ofNat (sd.2.foldl (fun acc b => acc * 10 + (b - 48)) 0))
    else none

/-- `str2dbl` (`src/server.c:1022`): `strtod` plus a NaN rejection.
Scores are abstracted to `Int` in this embedding, so the parse is
rendered on the integral score strings the verification uses (optional
sign, decimal digits); such a parse never yields NaN. -/
def str2dbl (s : Bytes) : Option Int := str2int s

/-- `tolower` on ASCII, as used by `strncasecmp`. -/
def lowerByte (b : Nat) : Nat := if 65 ≤ b ∧ b ≤ 90 then b + 32 else b

/-- `string_case_compare_cstr` (`src/data_structures/string_c.c:489`):
equal lengths and `strncasecmp == 0`. -/
def string_case_compare_cstr (s cstr : Bytes) : Bool :=
  s.length == cstr.length && s.map lowerByte == cstr.map lowerByte

/-- `cmd_is` (`src/server.c:1240`). -/
def cmd_is (word cmd : Bytes) : Bool := string_case_compare_cstr word cmd

/-- Handlers that mutate the found entry in place (`string_swap` into
`ent->value`, `zset_add` on `ent->zset`, …) are rendered as an update of
the (unique) map node carrying that key; the cached hash code is
unchanged because the key is. -/
def hnodeSetEntry (key : Bytes) (f : EntryData → EntryData) (n : HNode EntryData) :
    HNode EntryData :=
  if n.data.key = key then ⟨n.hcode, f n.data⟩ else n

def htabMapEntry (t : HTab EntryData) (key : Bytes) (f : EntryData → EntryData) :
    HTab EntryData :=
  ⟨t.tab.map (fun bs => bs.map (fun b => b.map (hnodeSetEntry key f))), t.mask, t.size⟩

def dbMapEntry (m : HMap EntryData) (key : Bytes) (f : EntryData → EntryData) :
    HMap EntryData :=
  ⟨htabMapEntry m.ht1 key f, htabMapEntry m.ht2 key f, m.resizing_pos⟩

/-- `h_scan` + `cb_scan` (`src/server.c:987`, `:643`): emit `out_str` of
every entry's key, bucket by bucket.  The `tab == null` case with a
non-zero size would be an out-of-bounds read in the C; it cannot arise
from the exported operations. -/
def h_scan (t : HTab EntryData) : Bytes :=
  if t.size = 0 then []
  else match t.tab with
       | none => []
       | some bs => (bs.flatten.map fun n => out_str n.data.key).flatten

/-- `do_keys` (`src/server.c:1008`). -/
def do_keys (g : GData) : GData × Bytes :=
  (g, out_arr (hm_size g.db) (h_scan g.db.ht1 ++ h_scan g.db.ht2))

/-- `do_get` (`src/server.c:486`). -/
def do_get (g : GData) (cmd : List Bytes) : GData × Bytes :=
  let k := cmd.getD 1 []
  let r := hm_lookup g.db (entryKeyNode k) entry_eq
  match r.2 with
  | some node =>
    if node.data.type ≠ T_STR then
      ({ g with db := r.1 }, out_err (Int.ofNat ERR_TYPE) (ascii "expect string type"))
    else ({ g with db := r.1 }, out_str node.data.value)
  | none => ({ g with db := r.1 }, out_nil)

/-- `do_set` (`src/server.c:522`). -/
def do_set (g : GData) (cmd : List Bytes) : GData × Bytes :=
  let k := cmd.getD 1 []
  let v := cmd.getD 2 []
  let r := hm_lookup g.db (entryKeyNode k) entry_eq
  match r.2 with
  | some node =>
    if node.data.type ≠ T_STR then
      ({ g with db := r.1 }, out_err (Int.ofNat ERR_TYPE) (ascii "expect string type"))
    else
      ({ g with db := dbMapEntry r.1 k (fun e => { e with value := v }) }, out_nil)
  | none =>
    ({ g with db := hm_insert r.1 ⟨fnv1a k, ⟨k, v, T_STR, ⟨.nil, HMap.init ZNodeData⟩⟩⟩ },
     out_nil)

/-- `entry_set_ttl` (`src/server.c:952`), acting on the entry with the
given key: a negative TTL removes the entry's heap item (swap the last
item in, pop, re-sift if the slot still exists, reset `heap_idx` to
`SIZE_MAX`); a non-negative TTL creates the heap slot if needed, writes
the absolute deadline, and re-sifts. -/
def entry_set_ttl (g : GData) (key : Bytes) (now : Nat) (ttl_ms : Int) : GData :=
  if ttl_ms < 0 ∧ g.heap.store key ≠ SIZE_MAX then
    let pos := g.heap.store key
    let back := getItem g.heap.arr (g.heap.arr.length - 1)
    let arr := (g.heap.arr.set pos back).dropLast
    let h : HeapState := ⟨arr, g.heap.store⟩
    let h := if pos < arr.length then heap_update h pos arr.length else h
    { g with heap := ⟨h.arr, fun k2 => if k2 = key then SIZE_MAX else h.store k2⟩ }
  else if ttl_ms ≥ 0 then
    let pos := g.heap.store key
    let arr := if pos = SIZE_MAX then g.heap.arr ++ [⟨0, key⟩] else g.heap.arr
    let pos := if pos = SIZE_MAX then arr.length - 1 else pos
    let item := getItem arr pos
    let arr := arr.set pos ⟨now + ttl_ms.toNat * 1000, item.ref⟩
    { g with heap := heap_update ⟨arr, g.heap.store⟩ pos arr.length }
  else g

/-- `do_del` (`src/server.c:619`) + `entry_del` (`src/server.c:602`):
pop the key from the map (subject to `hm_pop`'s retiring-table null
dereference), then `entry_set_ttl(ent, -1)` drops its heap item. -/
def do_del (g : GData) (now : Nat) (cmd : List Bytes) : Except Unit (GData × Bytes) := do
  let k := cmd.getD 1 []
  let r ← hm_pop g.db (entryKeyNode k) entry_eq
  match r.2 with
  | some node =>
    return (entry_set_ttl { g with db := r.1 } node.data.key now (-1), out_int 1)
  | none => return ({ g with db := r.1 }, out_int 0)

/-- `do_expire` (`src/server.c:876`). -/
def do_expire (g : GData) (now : Nat) (cmd : List Bytes) : GData × Bytes :=
  match str2int (cmd.getD 2 []) with
  | none => (g, out_err (Int.ofNat ERR_ARG) (ascii "expect int64 type"))
  | some ttl_ms =>
    let k := cmd.getD 1 []
    let r := hm_lookup g.db (entryKeyNode k) entry_eq
    match r.2 with
    | some node =>
      (entry_set_ttl { g with db := r.1 } node.data.key now ttl_ms, out_int 1)
    | none => ({ g with db := r.1 }, out_int 0)

/-- `zset_pop` (`src/data_structures/zset.c:139`): empty-tree guard, then
`hm_pop` (with its retiring-table bug) and `avl_del` of the found node. -/
def zset_pop (zs : ZSet) (name : Bytes) : Except Unit (ZSet × Option (HNode ZNodeData)) :=
  match zs.tree with
  | .nil => .ok (zs, none)
  | _ => do
    let r ← hm_pop zs.hmap (zkey name) hcmp
    match r.2 with
    | none => return ({ zs with hmap := r.1 }, none)
    | some node =>
      return (⟨tree_del zs.tree node.data.score node.data.name, r.1⟩, some node)

/-- `expect_zset` (`src/server.c:749`): `out_nil` for a missing key, a
type error for a non-zset entry, otherwise the entry. -/
def expect_zset (db : HMap EntryData) (s : Bytes) :
    HMap EntryData × Except Bytes EntryData :=
  let r := hm_lookup db (entryKeyNode s) entry_eq
  match r.2 with
  | none => (r.1, .error out_nil)
  | some node =>
    if node.data.type ≠ T_ZSET then
      (r.1, .error (out_err (Int.ofNat ERR_TYPE) (ascii "expect zset type")))
    else (r.1, .ok node.data)

/-- `do_zadd` (`src/server.c:663`). -/
def do_zadd (g : GData) (cmd : List Bytes) : GData × Bytes :=
  match str2dbl (cmd.getD 2 []) with
  | none => (g, out_err (Int.ofNat ERR_ARG) (ascii "expected a floating point number"))
  | some score =>
    let k := cmd.getD 1 []
    let r := hm_lookup g.db (entryKeyNode k) entry_eq
    match r.2 with
    | none =>
      let db := hm_insert r.1 ⟨fnv1a k, ⟨k, [], T_ZSET, ⟨.nil, HMap.init ZNodeData⟩⟩⟩
      let res := zset_add ⟨.nil, HMap.init ZNodeData⟩ (cmd.getD 3 []) score
      ({ g with db := dbMapEntry db k (fun e => { e with zset := res.1 }) },
       out_int (if res.2 then 1 else 0))
    | some node =>
      if node.data.type ≠ T_ZSET then
        ({ g with db := r.1 }, out_err (Int.ofNat ERR_TYPE) (ascii "expect zset type"))
      else
        let res := zset_add node.data.zset (cmd.getD 3 []) score
        ({ g with db := dbMapEntry r.1 k (fun e => { e with zset := res.1 }) },
         out_int (if res.2 then 1 else 0))

/-- `do_zrem` (`src/server.c:1051`). -/
def do_zrem (g : GData) (cmd : List Bytes) : Except Unit (GData × Bytes) :=
  let r := expect_zset g.db (cmd.getD 1 [])
  match r.2 with
  | .error e => .ok ({ g with db := r.1 }, e)
  | .ok ent => do
    let pr ← zset_pop ent.zset (cmd.getD 2 [])
    return ({ g with db := dbMapEntry r.1 ent.key (fun e => { e with zset := pr.1 }) },
            out_int (if pr.2.isSome then 1 else 0))

/-- `do_zscore` (`src/server.c:1074`). -/
def do_zscore (enc : Int → Bytes) (g : GData) (cmd : List Bytes) : GData × Bytes :=
  let r := expect_zset g.db (cmd.getD 1 [])
  match r.2 with
  | .error e => ({ g with db := r.1 }, e)
  | .ok ent =>
    let zr := zset_lookup ent.zset (cmd.getD 2 [])
    let db := dbMapEntry r.1 ent.key (fun e => { e with zset := zr.1 })
    match zr.2 with
    | some znode => ({ g with db := db }, out_dbl enc znode.data.score)
    | none => ({ g with db := db }, out_nil)

/-! ### Order-statistic walk (`avl_offset`, `src/data_structures/trees/avl.c:195`)

The C walks the tree through parent pointers.  The functional rendering
carries the focused subtree together with its path context (a zipper);
`Ctx.inL` says the focus is the left child of a node with the recorded
data and right subtree, `Ctx.inR` the mirror.  The loop becomes a
fuel-based recursion (each move either descends into a subtree holding
the target or climbs one level, so context depth plus twice the tree
size bounds the iteration count). -/

inductive Ctx where
  | top : Ctx
  | inL (sc : Int) (nm : Bytes) (h c : Nat) (r : Avl) (up : Ctx)
  | inR (l : Avl) (sc : Int) (nm : Bytes) (h c : Nat) (up : Ctx)
deriving Repr, DecidableEq

/-- Rebuild the whole tree from a zipper. -/
def plug : Avl → Ctx → Avl
  | t, .top => t
  | t, .inL sc nm h c r up => plug (.node t sc nm h c r) up
  | t, .inR l sc nm h c up => plug (.node l sc nm h c t) up

def ctxDepth : Ctx → Nat
  | .top => 0
  | .inL _ _ _ _ _ up => ctxDepth up + 1
  | .inR _ _ _ _ _ up => ctxDepth up + 1

/-- The descent of `zset_query` (`src/data_structures/zset.c:166`): walk
down comparing with `zless`, remembering the last not-less node (the
candidate) with its context. -/
def zset_query_desc : Avl → Ctx → Int → Bytes → Option (Avl × Ctx) → Option (Avl × Ctx)
  | .nil, _, _, _, found => found
  | .node l sc nm h c r, ctx, s, m, found =>
    if zless sc nm s m then zset_query_desc r (.inR l sc nm h c ctx) s m found
    else zset_query_desc l (.inL sc nm h c r ctx) s m (some (.node l sc nm h c r, ctx))

def zset_query (t : Avl) (s : Int) (m : Bytes) : Option (Avl × Ctx) :=
  zset_query_desc t .top s m none

/-- `node->left` / `node->right` as nil-safe accessors. -/
def avl_left : Avl → Avl
  | .nil => .nil
  | .node l _ _ _ _ _ => l

def avl_right : Avl → Avl
  | .nil => .nil
  | .node _ _ _ _ _ r => r

/-- The loop of `avl_offset`: `pos` is the current node's rank relative
to the start; move into the right/left subtree when it contains the
target offset, otherwise climb to the parent (null parent: out of
range). -/
def avl_offset_walk : Nat → Avl → Ctx → Int → Int → Option (Avl × Ctx)
  | 0, _, _, _, _ => none
  | fuel + 1, t, ctx, pos, offset =>
    if pos = offset then some (t, ctx)
    else
      match t with
      | .nil => none
      | .node l sc nm h c r =>
        if pos < offset ∧ pos + Int.ofNat (avl_count r) ≥ offset then
          avl_offset_walk fuel r (.inR l sc nm h c ctx)
            (pos + Int.ofNat (avl_count (avl_left r)) + 1) offset
        else if pos > offset ∧ pos - Int.ofNat (avl_count l) ≤ offset then
          avl_offset_walk fuel l (.inL sc nm h c r ctx)
            (pos - Int.ofNat (avl_count (avl_right l)) - 1) offset
        else
          match ctx with
          | .top => none
          | .inR pl psc pnm ph pc up =>
              avl_offset_walk fuel (.node pl psc pnm ph pc (.node l sc nm h c r)) up
                (pos - Int.ofNat (avl_count l) - 1) offset
          | .inL psc pnm ph pc pr up =>
              avl_offset_walk fuel (.node (.node l sc nm h c r) psc pnm ph pc pr) up
                (pos + Int.ofNat (avl_count r) + 1) offset

/-- `znode_offset` (`src/data_structures/zset.c:187`): run the walk with
enough fuel for any reachable configuration. -/
def znode_offset : Option (Avl × Ctx) → Int → Option (Avl × Ctx)
  | none, _ => none
  | some (t, ctx), offset =>
    avl_offset_walk (ctxDepth ctx + 2 * (inorder (plug t ctx)).length + 2) t ctx 0 offset

/-- The output loop of `do_zquery` (`src/server.c:1146`): while a node
remains and `n < limit`, emit the member name and score and advance to
the in-order successor, counting `n += 2` per pair. -/
def zquery_emit (enc : Int → Bytes) : Nat → Option (Avl × Ctx) → Nat → Int → Nat × Bytes
  | 0, _, n, _ => (n, [])
  | fuel + 1, z, n, limit =>
    match z with
    | some (.node l sc nm h c r, ctx) =>
      if (n : Int) < limit then
        let rest := zquery_emit enc fuel
          (znode_offset (some (.node l sc nm h c r, ctx)) 1) (n + 2) limit
        (rest.1, (out_str nm ++ out_dbl enc sc) ++ rest.2)
      else (n, [])
    | _ => (n, [])

/-- `do_zquery` (`src/server.c:1105`). -/
def do_zquery (enc : Int → Bytes) (g : GData) (cmd : List Bytes) : GData × Bytes :=
  match str2dbl (cmd.getD 2 []) with
  | none => (g, out_err (Int.ofNat ERR_ARG) (ascii "invalid score"))
  | some score =>
    match str2int (cmd.getD 4 []), str2int (cmd.getD 5 []) with
    | none, _ => (g, out_err (Int.ofNat ERR_ARG) (ascii "invalid offset or limit"))
    | _, none => (g, out_err (Int.ofNat ERR_ARG) (ascii "invalid offset or limit"))
    | some offset, some limit =>
      let r := expect_zset g.db (cmd.getD 1 [])
      match r.2 with
      | .error e =>
        ({ g with db := r.1 },
         if e.headD 0 = SER_NIL then out_arr 0 [] else e)
      | .ok ent =>
        let g := { g with db := r.1 }
        if limit ≤ 0 then (g, out_arr 0 [])
        else
          let znode := zset_query ent.zset.tree score (cmd.getD 3 [])
          let znode := znode_offset znode offset
          let res := zquery_emit enc limit.toNat znode 0 limit
          (g, out_arr res.1 res.2)

/-- `commands_list` (`src/commands.h:7`). -/
def commands_list : Bytes := ascii ("All supported commands:\n1.  get\n2.  set\n3.  del\n4.  keys\n5.  zadd\n6.  zrem\n7.  zscore\n8.  zquery\n9.  exists\n10. expire\n11. ttl\n12. command\n13. shutdown\n")

/-- `commands_description` (`src/commands.h:22`). -/
def commands_description : Bytes := ascii ("All supported commands:\n\n1.  get: This command retrieves the value associated with\n     the provided key from the database.\n     If the key is found, it returns the associated value.\n     Otherwise, it returns nil.\n\n2.  set: This command sets the value associated with the\n     provided key in the database.\n     If the key already exists, it updates the associated value.\n     Otherwise, it creates a new key-value pair.\n\n3.  del: This command removes the key-value pair associated with\n     the provided key from the database.\n     If the key is found and successfully removed, it returns 1.\n     Otherwise, it returns 0.\n\n4.  keys: This command sends back an array of all keys in the database.\n\n5.  zadd: This command adds a member to a sorted set,\n     or updates its score if it already exists.\n     The command takes three arguments: the name of the sorted set,\n     the score of the member, and the member itself.\n\n6.  zrem: This command removes a member from a sorted set.\n     The command takes two arguments:\n     the name of the sorted set and the member to remove.\n\n7.  zscore: This command retrieves the score of a member in a sorted set.\n     The command takes two arguments:\n     the name of the sorted set and the member to retrieve the score for.\n\n8.  zquery: This command retrieves members of a sorted set by score.\n     The command takes five arguments:\n     the name of the sorted set, the score to query,\n     the member to start from, the offset, and the limit.\n\n9.  exists: This command checks if a key exists in the database.\n     If the key exists, it returns 1. Otherwise, it returns 0.\n\n10. expire: This command sets a key\x27s time to live in milliseconds.\n     The command takes two arguments:\n     the key and the time to live in milliseconds.\n\n11. ttl: This command gets the time to live for a key.\n     The command takes one argument: the key.\n\n12. command: This command retrieves the description of all commands.\n     If the argument is \x27list\x27, all supported commands are listed instead.\n\n13. shutdown: This command shuts down the server.\n\nAll commands are processed case-insensitively.\n")

/-- `do_command` (`src/server.c:1218`). -/
def do_command (cmd : List Bytes) : Bytes :=
  if cmd.length ≥ 2 then
    out_str (if cmd_is (cmd.getD 1 []) (ascii "list") then commands_list else [])
  else out_str commands_description

/-- `do_request` (`src/server.c:1249`): the dispatcher, with the exact
branch order and per-command argument-count tests of the C.  The third
component is `g_running` after the request (`false` only for SHUTDOWN);
the `Except` propagates `hm_pop`'s undefined behaviour from DEL/ZREM. -/
def do_request (enc : Int → Bytes) (g : GData) (now : Nat) (cmd : List Bytes) :
    Except Unit (GData × Bytes × Bool) :=
  if cmd.length = 1 ∧ cmd_is (cmd.getD 0 []) (ascii "keys") then
    let r := do_keys g
    .ok (r.1, r.2, true)
  else if cmd.length = 2 ∧ cmd_is (cmd.getD 0 []) (ascii "get") then
    let r := do_get g cmd
    .ok (r.1, r.2, true)
  else if cmd.length = 3 ∧ cmd_is (cmd.getD 0 []) (ascii "set") then
    let r := do_set g cmd
    .ok (r.1, r.2, true)
  else if cmd.length = 2 ∧ cmd_is (cmd.getD 0 []) (ascii "del") then do
    let r ← do_del g now cmd
    return (r.1, r.2, true)
  else if cmd.length = 3 ∧ cmd_is (cmd.getD 0 []) (ascii "expire") then
    let r := do_expire g now cmd
    .ok (r.1, r.2, true)
  else if cmd.length = 2 ∧ cmd_is (cmd.getD 0 []) (ascii "pttl") then
    let r := do_ttl g now cmd
    .ok (r.1, r.2, true)
  else if cmd_is (cmd.getD 0 []) (ascii "exists") then
    let r := do_exists g.db cmd
    .ok ({ g with db := r.1 }, r.2, true)
  else if cmd_is (cmd.getD 0 []) (ascii "command") then
    .ok (g, do_command cmd, true)
  else if cmd.length = 4 ∧ cmd_is (cmd.getD 0 []) (ascii "zadd") then
    let r := do_zadd g cmd
    .ok (r.1, r.2, true)
  else if cmd.length = 3 ∧ cmd_is (cmd.getD 0 []) (ascii "zrem") then do
    let r ← do_zrem g cmd
    return (r.1, r.2, true)
  else if cmd.length = 3 ∧ cmd_is (cmd.getD 0 []) (ascii "zscore") then
    let r := do_zscore enc g cmd
    .ok (r.1, r.2, true)
  else if cmd.length = 6 ∧ cmd_is (cmd.getD 0 []) (ascii "zquery") then
    let r := do_zquery enc g cmd
    .ok (r.1, r.2, true)
  else if cmd.length = 1 ∧ cmd_is (cmd.getD 0 []) (ascii "shutdown") then
    .ok (g, out_str (ascii "Server is shutting down..."), false)
  else
    .ok (g, out_err (Int.ofNat ERR_UNKNOWN) (ascii "Unknown cmd"), true)

def fixed_arity_cmds : List (Bytes × Nat) :=
  [(ascii "keys", 1), (ascii "get", 2), (ascii "set", 3), (ascii "del", 2),
   (ascii "expire", 3), (ascii "pttl", 2), (ascii "zadd", 4), (ascii "zrem", 3),
   (ascii "zscore", 3), (ascii "zquery", 6), (ascii "shutdown", 1)]

theorem cmd_is_excl (x a b : Bytes) (hab : a.map lowerByte ≠ b.map lowerByte)
    (h : cmd_is x a = true) : cmd_is x b = false := by
  rw [cmd_is, string_case_compare_cstr, Bool.and_eq_true, beq_iff_eq, beq_iff_eq] at h
  cases hb : cmd_is x b with
  | false => rfl
  | true =>
      exfalso
      rw [cmd_is, string_case_compare_cstr, Bool.and_eq_true, beq_iff_eq, beq_iff_eq] at hb
      exact hab (h.2 ▸ hb.2)

/-- **C10.** A request whose first word matches one of the fixed-arity
command names case-insensitively but whose argument count differs from
that command\x27s arity takes none of the dispatch branches and lands in
the final else: the response is ERR code 1 (UNKNOWN) with message
"Unknown cmd" — never ERR code 4 (ARG) — the state is unchanged and the
server keeps running. -/
theorem claim_c10_wrong_arity_unknown (enc : Int → Bytes) (g : GData) (now : Nat)
    (cmd : List Bytes) (name : Bytes) (arity : Nat)
    (hmem : (name, arity) ∈ fixed_arity_cmds)
    (hcmd : cmd_is (cmd.getD 0 []) name = true) (hlen : cmd.length ≠ arity) :
    do_request enc g now cmd
      = .ok (g, out_err (Int.ofNat ERR_UNKNOWN) (ascii "Unknown cmd"), true) := by
  simp only [List.getD_eq_getElem?_getD] at hcmd
  fin_cases hmem
  · -- keys
      have h_get : cmd_is (cmd[0]?.getD []) (ascii "get") = false :=
        cmd_is_excl _ _ _ (by decide) hcmd
      have h_set : cmd_is (cmd[0]?.getD []) (ascii "set") = false :=
        cmd_is_excl _ _ _ (by decide) hcmd
      have h_del : cmd_is (cmd[0]?.getD []) (ascii "del") = false :=
        cmd_is_excl _ _ _ (by decide) hcmd
      have h_expire : cmd_is (cmd[0]?.getD []) (ascii "expire") = false :=
        cmd_is_excl _ _ _ (by decide) hcmd
      have h_pttl : cmd_is (cmd[0]?.getD []) (ascii "pttl") = false :=
        cmd_is_excl _ _ _ (by decide) hcmd
      have h_exists : cmd_is (cmd[0]?.getD []) (ascii "exists") = false :=
        cmd_is_excl _ _ _ (by decide) hcmd
      have h_command : cmd_is (cmd[0]?.getD []) (ascii "command") = false :=
        cmd_is_excl _ _ _ (by decide) hcmd
      have h_zadd : cmd_is (cmd[0]?.getD []) (ascii "zadd") = false :=
        cmd_is_excl _ _ _ (by decide) hcmd
      have h_zrem : cmd_is (cmd[0]?.getD []) (ascii "zrem") = false :=
        cmd_is_excl _ _ _ (by decide) hcmd
      have h_zscore : cmd_is (cmd[0]?.getD []) (ascii "zscore") = false :=
        cmd_is_excl _ _ _ (by decide) hcmd
      have h_zquery : cmd_is (cmd[0]?.getD []) (ascii "zquery") = false :=
        cmd_is_excl _ _ _ (by decide) hcmd
      have h_shutdown : cmd_is (cmd[0]?.getD []) (ascii "shutdown") = false :=
        cmd_is_excl _ _ _ (by decide) hcmd
      simp [do_request, hlen, h_get, h_set, h_del, h_expire, h_pttl, h_exists, h_command, h_zadd, h_zrem, h_zscore, h_zquery, h_shutdown]
  · -- get
      have h_keys : cmd_is (cmd[0]?.getD []) (ascii "keys") = false :=
        cmd_is_excl _ _ _ (by decide) hcmd
      have h_set : cmd_is (cmd[0]?.getD []) (ascii "set") = false :=
        cmd_is_excl _ _ _ (by decide) hcmd
      have h_del : cmd_is (cmd[0]?.getD []) (ascii "del") = false :=
        cmd_is_excl _ _ _ (by decide) hcmd
      have h_expire : cmd_is (cmd[0]?.getD []) (ascii "expire") = false :=
        cmd_is_excl _ _ _ (by decide) hcmd
      have h_pttl : cmd_is (cmd[0]?.getD []) (ascii "pttl") = false :=
        cmd_is_excl _ _ _ (by decide) hcmd
      have h_exists : cmd_is (cmd[0]?.getD []) (ascii "exists") = false :=
        cmd_is_excl _ _ _ (by decide) hcmd
      have h_command : cmd_is (cmd[0]?.getD []) (ascii "command") = false :=
        cmd_is_excl _ _ _ (by decide) hcmd
      have h_zadd : cmd_is (cmd[0]?.getD []) (ascii "zadd") = false :=
        cmd_is_excl _ _ _ (by decide) hcmd
      have h_zrem : cmd_is (cmd[0]?.getD []) (ascii "zrem") = false :=
        cmd_is_excl _ _ _ (by decide) hcmd
      have h_zscore : cmd_is (cmd[0]?.getD []) (ascii "zscore") = false :=
        cmd_is_excl _ _ _ (by decide) hcmd
      have h_zquery : cmd_is (cmd[0]?.getD []) (ascii "zquery") = false :=
        cmd_is_excl _ _ _ (by decide) hcmd
      have h_shutdown : cmd_is (cmd[0]?.getD []) (ascii "shutdown") = false :=
        cmd_is_excl _ _ _ (by decide) hcmd
      simp [do_request, hlen, h_keys, h_set, h_del, h_expire, h_pttl, h_exists, h_command, h_zadd, h_zrem, h_zscore, h_zquery, h_shutdown]
  · -- set
      have h_keys : cmd_is (cmd[0]?.getD []) (ascii "keys") = false :=
        cmd_is_excl _ _ _ (by decide) hcmd
      have h_get : cmd_is (cmd[0]?.getD []) (ascii "get") = false :=
        cmd_is_excl _ _ _ (by decide) hcmd
      have h_del : cmd_is (cmd[0]?.getD []) (ascii "del") = false :=
        cmd_is_excl _ _ _ (by decide) hcmd
      have h_expire : cmd_is (cmd[0]?.getD []) (ascii "expire") = false :=
        cmd_is_excl _ _ _ (by decide) hcmd
      have h_pttl : cmd_is (cmd[0]?.getD []) (ascii "pttl") = false :=
        cmd_is_excl _ _ _ (by decide) hcmd
      have h_exists : cmd_is (cmd[0]?.getD []) (ascii "exists") = false :=
        cmd_is_excl _ _ _ (by decide) hcmd
      have h_command : cmd_is (cmd[0]?.getD []) (ascii "command") = false :=
        cmd_is_excl _ _ _ (by decide) hcmd
      have h_zadd : cmd_is (cmd[0]?.getD []) (ascii "zadd") = false :=
        cmd_is_excl _ _ _ (by decide) hcmd
      have h_zrem : cmd_is (cmd[0]?.getD []) (ascii "zrem") = false :=
        cmd_is_excl _ _ _ (by decide) hcmd
      have h_zscore : cmd_is (cmd[0]?.getD []) (ascii "zscore") = false :=
        cmd_is_excl _ _ _ (by decide) hcmd
      have h_zquery : cmd_is (cmd[0]?.getD []) (ascii "zquery") = false :=
        cmd_is_excl _ _ _ (by decide) hcmd
      have h_shutdown : cmd_is (cmd[0]?.getD []) (ascii "shutdown") = false :=
        cmd_is_excl _ _ _ (by decide) hcmd
      simp [do_request, hlen, h_keys, h_get, h_del, h_expire, h_pttl, h_exists, h_command, h_zadd, h_zrem, h_zscore, h_zquery, h_shutdown]
  · -- del
      have h_keys : cmd_is (cmd[0]?.getD []) (ascii "keys") = false :=
        cmd_is_excl _ _ _ (by decide) hcmd
      have h_get : cmd_is (cmd[0]?.getD []) (ascii "get") = false :=
        cmd_is_excl _ _ _ (by decide) hcmd
      have h_set : cmd_is (cmd[0]?.getD []) (ascii "set") = false :=
        cmd_is_excl _ _ _ (by decide) hcmd
      have h_expire : cmd_is (cmd[0]?.getD []) (ascii "expire") = false :=
        cmd_is_excl _ _ _ (by decide) hcmd
      have h_pttl : cmd_is (cmd[0]?.getD []) (ascii "pttl") = false :=
        cmd_is_excl _ _ _ (by decide) hcmd
      have h_exists : cmd_is (cmd[0]?.getD []) (ascii "exists") = false :=
        cmd_is_excl _ _ _ (by decide) hcmd
      have h_command : cmd_is (cmd[0]?.getD []) (ascii "command") = false :=
        cmd_is_excl _ _ _ (by decide) hcmd
      have h_zadd : cmd_is (cmd[0]?.getD []) (ascii "zadd") = false :=
        cmd_is_excl _ _ _ (by decide) hcmd
      have h_zrem : cmd_is (cmd[0]?.getD []) (ascii "zrem") = false :=
        cmd_is_excl _ _ _ (by decide) hcmd
      have h_zscore : cmd_is (cmd[0]?.getD []) (ascii "zscore") = false :=
        cmd_is_excl _ _ _ (by decide) hcmd
      have h_zquery : cmd_is (cmd[0]?.getD []) (ascii "zquery") = false :=
        cmd_is_excl _ _ _ (by decide) hcmd
      have h_shutdown : cmd_is (cmd[0]?.getD []) (ascii "shutdown") = false :=
        cmd_is_excl _ _ _ (by decide) hcmd
      simp [do_request, hlen, h_keys, h_get, h_set, h_expire, h_pttl, h_exists, h_command, h_zadd, h_zrem, h_zscore, h_zquery, h_shutdown]
  · -- expire
      have h_keys : cmd_is (cmd[0]?.getD []) (ascii "keys") = false :=
        cmd_is_excl _ _ _ (by decide) hcmd
      have h_get : cmd_is (cmd[0]?.getD []) (ascii "get") = false :=
        cmd_is_excl _ _ _ (by decide) hcmd
      have h_set : cmd_is (cmd[0]?.getD []) (ascii "set") = false :=
        cmd_is_excl _ _ _ (by decide) hcmd
      have h_del : cmd_is (cmd[0]?.getD []) (ascii "del") = false :=
        cmd_is_excl _ _ _ (by decide) hcmd
      have h_pttl : cmd_is (cmd[0]?.getD []) (ascii "pttl") = false :=
        cmd_is_excl _ _ _ (by decide) hcmd
      have h_exists : cmd_is (cmd[0]?.getD []) (ascii "exists") = false :=
        cmd_is_excl _ _ _ (by decide) hcmd
      have h_command : cmd_is (cmd[0]?.getD []) (ascii "command") = false :=
        cmd_is_excl _ _ _ (by decide) hcmd
      have h_zadd : cmd_is (cmd[0]?.getD []) (ascii "zadd") = false :=
        cmd_is_excl _ _ _ (by decide) hcmd
      have h_zrem : cmd_is (cmd[0]?.getD []) (ascii "zrem") = false :=
        cmd_is_excl _ _ _ (by decide) hcmd
      have h_zscore : cmd_is (cmd[0]?.getD []) (ascii "zscore") = false :=
        cmd_is_excl _ _ _ (by decide) hcmd
      have h_zquery : cmd_is (cmd[0]?.getD []) (ascii "zquery") = false :=
        cmd_is_excl _ _ _ (by decide) hcmd
      have h_shutdown : cmd_is (cmd[0]?.getD []) (ascii "shutdown") = false :=
        cmd_is_excl _ _ _ (by decide) hcmd
      simp [do_request, hlen, h_keys, h_get, h_set, h_del, h_pttl, h_exists, h_command, h_zadd, h_zrem, h_zscore, h_zquery, h_shutdown]
  · -- pttl
      have h_keys : cmd_is (cmd[0]?.getD []) (ascii "keys") = false :=
        cmd_is_excl _ _ _ (by decide) hcmd
      have h_get : cmd_is (cmd[0]?.getD []) (ascii "get") = false :=
        cmd_is_excl _ _ _ (by decide) hcmd
      have h_set : cmd_is (cmd[0]?.getD []) (ascii "set") = false :=
        cmd_is_excl _ _ _ (by decide) hcmd
      have h_del : cmd_is (cmd[0]?.getD []) (ascii "del") = false :=
        cmd_is_excl _ _ _ (by decide) hcmd
      have h_expire : cmd_is (cmd[0]?.getD []) (ascii "expire") = false :=
        cmd_is_excl _ _ _ (by decide) hcmd
      have h_exists : cmd_is (cmd[0]?.getD []) (ascii "exists") = false :=
        cmd_is_excl _ _ _ (by decide) hcmd
      have h_command : cmd_is (cmd[0]?.getD []) (ascii "command") = false :=
        cmd_is_excl _ _ _ (by decide) hcmd
      have h_zadd : cmd_is (cmd[0]?.getD []) (ascii "zadd") = false :=
        cmd_is_excl _ _ _ (by decide) hcmd
      have h_zrem : cmd_is (cmd[0]?.getD []) (ascii "zrem") = false :=
        cmd_is_excl _ _ _ (by decide) hcmd
      have h_zscore : cmd_is (cmd[0]?.getD []) (ascii "zscore") = false :=
        cmd_is_excl _ _ _ (by decide) hcmd
      have h_zquery : cmd_is (cmd[0]?.getD []) (ascii "zquery") = false :=
        cmd_is_excl _ _ _ (by decide) hcmd
      have h_shutdown : cmd_is (cmd[0]?.getD []) (ascii "shutdown") = false :=
        cmd_is_excl _ _ _ (by decide) hcmd
      simp [do_request, hlen, h_keys, h_get, h_set, h_del, h_expire, h_exists, h_command, h_zadd, h_zrem, h_zscore, h_zquery, h_shutdown]
  · -- zadd
      have h_keys : cmd_is (cmd[0]?.getD []) (ascii "keys") = false :=
        cmd_is_excl _ _ _ (by decide) hcmd
      have h_get : cmd_is (cmd[0]?.getD []) (ascii "get") = false :=
        cmd_is_excl _ _ _ (by decide) hcmd
      have h_set : cmd_is (cmd[0]?.getD []) (ascii "set") = false :=
        cmd_is_excl _ _ _ (by decide) hcmd
      have h_del : cmd_is (cmd[0]?.getD []) (ascii "del") = false :=
        cmd_is_excl _ _ _ (by decide) hcmd
      have h_expire : cmd_is (cmd[0]?.getD []) (ascii "expire") = false :=
        cmd_is_excl _ _ _ (by decide) hcmd
      have h_pttl : cmd_is (cmd[0]?.getD []) (ascii "pttl") = false :=
        cmd_is_excl _ _ _ (by decide) hcmd
      have h_exists : cmd_is (cmd[0]?.getD []) (ascii "exists") = false :=
        cmd_is_excl _ _ _ (by decide) hcmd
      have h_command : cmd_is (cmd[0]?.getD []) (ascii "command") = false :=
        cmd_is_excl _ _ _ (by decide) hcmd
      have h_zrem : cmd_is (cmd[0]?.getD []) (ascii "zrem") = false :=
        cmd_is_excl _ _ _ (by decide) hcmd
      have h_zscore : cmd_is (cmd[0]?.getD []) (ascii "zscore") = false :=
        cmd_is_excl _ _ _ (by decide) hcmd
      have h_zquery : cmd_is (cmd[0]?.getD []) (ascii "zquery") = false :=
        cmd_is_excl _ _ _ (by decide) hcmd
      have h_shutdown : cmd_is (cmd[0]?.getD []) (ascii "shutdown") = false :=
        cmd_is_excl _ _ _ (by decide) hcmd
      simp [do_request, hlen, h_keys, h_get, h_set, h_del, h_expire, h_pttl, h_exists, h_command, h_zrem, h_zscore, h_zquery, h_shutdown]
  · -- zrem
      have h_keys : cmd_is (cmd[0]?.getD []) (ascii "keys") = false :=
        cmd_is_excl _ _ _ (by decide) hcmd
      have h_get : cmd_is (cmd[0]?.getD []) (ascii "get") = false :=
        cmd_is_excl _ _ _ (by decide) hcmd
      have h_set : cmd_is (cmd[0]?.getD []) (ascii "set") = false :=
        cmd_is_excl _ _ _ (by decide) hcmd
      have h_del : cmd_is (cmd[0]?.getD []) (ascii "del") = false :=
        cmd_is_excl _ _ _ (by decide) hcmd
      have h_expire : cmd_is (cmd[0]?.getD []) (ascii "expire") = false :=
        cmd_is_excl _ _ _ (by decide) hcmd
      have h_pttl : cmd_is (cmd[0]?.getD []) (ascii "pttl") = false :=
        cmd_is_excl _ _ _ (by decide) hcmd
      have h_exists : cmd_is (cmd[0]?.getD []) (ascii "exists") = false :=
        cmd_is_excl _ _ _ (by decide) hcmd
      have h_command : cmd_is (cmd[0]?.getD []) (ascii "command") = false :=
        cmd_is_excl _ _ _ (by decide) hcmd
      have h_zadd : cmd_is (cmd[0]?.getD []) (ascii "zadd") = false :=
        cmd_is_excl _ _ _ (by decide) hcmd
      have h_zscore : cmd_is (cmd[0]?.getD []) (ascii "zscore") = false :=
        cmd_is_excl _ _ _ (by decide) hcmd
      have h_zquery : cmd_is (cmd[0]?.getD []) (ascii "zquery") = false :=
        cmd_is_excl _ _ _ (by decide) hcmd
      have h_shutdown : cmd_is (cmd[0]?.getD []) (ascii "shutdown") = false :=
        cmd_is_excl _ _ _ (by decide) hcmd
      simp [do_request, hlen, h_keys, h_get, h_set, h_del, h_expire, h_pttl, h_exists, h_command, h_zadd, h_zscore, h_zquery, h_shutdown]
  · -- zscore
      have h_keys : cmd_is (cmd[0]?.getD []) (ascii "keys") = false :=
        cmd_is_excl _ _ _ (by decide) hcmd
      have h_get : cmd_is (cmd[0]?.getD []) (ascii "get") = false :=
        cmd_is_excl _ _ _ (by decide) hcmd
      have h_set : cmd_is (cmd[0]?.getD []) (ascii "set") = false :=
        cmd_is_excl _ _ _ (by decide) hcmd
      have h_del : cmd_is (cmd[0]?.getD []) (ascii "del") = false :=
        cmd_is_excl _ _ _ (by decide) hcmd
      have h_expire : cmd_is (cmd[0]?.getD []) (ascii "expire") = false :=
        cmd_is_excl _ _ _ (by decide) hcmd
      have h_pttl : cmd_is (cmd[0]?.getD []) (ascii "pttl") = false :=
        cmd_is_excl _ _ _ (by decide) hcmd
      have h_exists : cmd_is (cmd[0]?.getD []) (ascii "exists") = false :=
        cmd_is_excl _ _ _ (by decide) hcmd
      have h_command : cmd_is (cmd[0]?.getD []) (ascii "command") = false :=
        cmd_is_excl _ _ _ (by decide) hcmd
      have h_zadd : cmd_is (cmd[0]?.getD []) (ascii "zadd") = false :=
        cmd_is_excl _ _ _ (by decide) hcmd
      have h_zrem : cmd_is (cmd[0]?.getD []) (ascii "zrem") = false :=
        cmd_is_excl _ _ _ (by decide) hcmd
      have h_zquery : cmd_is (cmd[0]?.getD []) (ascii "zquery") = false :=
        cmd_is_excl _ _ _ (by decide) hcmd
      have h_shutdown : cmd_is (cmd[0]?.getD []) (ascii "shutdown") = false :=
        cmd_is_excl _ _ _ (by decide) hcmd
      simp [do_request, hlen, h_keys, h_get, h_set, h_del, h_expire, h_pttl, h_exists, h_command, h_zadd, h_zrem, h_zquery, h_shutdown]
  · -- zquery
      have h_keys : cmd_is (cmd[0]?.getD []) (ascii "keys") = false :=
        cmd_is_excl _ _ _ (by decide) hcmd
      have h_get : cmd_is (cmd[0]?.getD []) (ascii "get") = false :=
        cmd_is_excl _ _ _ (by decide) hcmd
      have h_set : cmd_is (cmd[0]?.getD []) (ascii "set") = false :=
        cmd_is_excl _ _ _ (by decide) hcmd
      have h_del : cmd_is (cmd[0]?.getD []) (ascii "del") = false :=
        cmd_is_excl _ _ _ (by decide) hcmd
      have h_expire : cmd_is (cmd[0]?.getD []) (ascii "expire") = false :=
        cmd_is_excl _ _ _ (by decide) hcmd
      have h_pttl : cmd_is (cmd[0]?.getD []) (ascii "pttl") = false :=
        cmd_is_excl _ _ _ (by decide) hcmd
      have h_exists : cmd_is (cmd[0]?.getD []) (ascii "exists") = false :=
        cmd_is_excl _ _ _ (by decide) hcmd
      have h_command : cmd_is (cmd[0]?.getD []) (ascii "command") = false :=
        cmd_is_excl _ _ _ (by decide) hcmd
      have h_zadd : cmd_is (cmd[0]?.getD []) (ascii "zadd") = false :=
        cmd_is_excl _ _ _ (by decide) hcmd
      have h_zrem : cmd_is (cmd[0]?.getD []) (ascii "zrem") = false :=
        cmd_is_excl _ _ _ (by decide) hcmd
      have h_zscore : cmd_is (cmd[0]?.getD []) (ascii "zscore") = false :=
        cmd_is_excl _ _ _ (by decide) hcmd
      have h_shutdown : cmd_is (cmd[0]?.getD []) (ascii "shutdown") = false :=
        cmd_is_excl _ _ _ (by decide) hcmd
      simp [do_request, hlen, h_keys, h_get, h_set, h_del, h_expire, h_pttl, h_exists, h_command, h_zadd, h_zrem, h_zscore, h_shutdown]
  · -- shutdown
      have h_keys : cmd_is (cmd[0]?.getD []) (ascii "keys") = false :=
        cmd_is_excl _ _ _ (by decide) hcmd
      have h_get : cmd_is (cmd[0]?.getD []) (ascii "get") = false :=
        cmd_is_excl _ _ _ (by decide) hcmd
      have h_set : cmd_is (cmd[0]?.getD []) (ascii "set") = false :=
        cmd_is_excl _ _ _ (by decide) hcmd
      have h_del : cmd_is (cmd[0]?.getD []) (ascii "del") = false :=
        cmd_is_excl _ _ _ (by decide) hcmd
      have h_expire : cmd_is (cmd[0]?.getD []) (ascii "expire") = false :=
        cmd_is_excl _ _ _ (by decide) hcmd
      have h_pttl : cmd_is (cmd[0]?.getD []) (ascii "pttl") = false :=
        cmd_is_excl _ _ _ (by decide) hcmd
      have h_exists : cmd_is (cmd[0]?.getD []) (ascii "exists") = false :=
        cmd_is_excl _ _ _ (by decide) hcmd
      have h_command : cmd_is (cmd[0]?.getD []) (ascii "command") = false :=
        cmd_is_excl _ _ _ (by decide) hcmd
      have h_zadd : cmd_is (cmd[0]?.getD []) (ascii "zadd") = false :=
        cmd_is_excl _ _ _ (by decide) hcmd
      have h_zrem : cmd_is (cmd[0]?.getD []) (ascii "zrem") = false :=
        cmd_is_excl _ _ _ (by decide) hcmd
      have h_zscore : cmd_is (cmd[0]?.getD []) (ascii "zscore") = false :=
        cmd_is_excl _ _ _ (by decide) hcmd
      have h_zquery : cmd_is (cmd[0]?.getD []) (ascii "zquery") = false :=
        cmd_is_excl _ _ _ (by decide) hcmd
      simp [do_request, hlen, h_keys, h_get, h_set, h_del, h_expire, h_pttl, h_exists, h_command, h_zadd, h_zrem, h_zscore, h_zquery]

theorem claim_c10_wrong_arity_unknown_witness :
    do_request (fun _ => []) ⟨HMap.init EntryData, ⟨[], fun _ => SIZE_MAX⟩⟩ 0 [ascii "GET"]
      = .ok (⟨HMap.init EntryData, ⟨[], fun _ => SIZE_MAX⟩⟩,
             out_err (Int.ofNat ERR_UNKNOWN) (ascii "Unknown cmd"), true) :=
  claim_c10_wrong_arity_unknown (fun _ => []) ⟨HMap.init EntryData, ⟨[], fun _ => SIZE_MAX⟩⟩
    0 [ascii "GET"] (ascii "get") 2 (by decide) (by decide) (by decide)

/-- C3 counterexample: a sorted set holding two tuples `(1, [1])`,
`(2, [2])`, queried with `ZQUERY z 0 "" 0 2` — the start position is the
first tuple, both tuples remain, and the original claim promises
`lim = 2` pairs (4 array elements).  The loop counts `n += 2` per pair
against `n < limit`, so it emits a single pair: the response is an array
of 2 elements, not 4. -/
theorem claim_c3_counterexample :
    (inorder (zset_add (zset_add ⟨.nil, HMap.init ZNodeData⟩ [1] 1).1 [2] 2).1.tree).length = 2
    ∧ (do_zquery i64Bytes ⟨hm_insert (HMap.init EntryData)
          ⟨fnv1a [122], ⟨[122], [], T_ZSET,
            (zset_add (zset_add ⟨.nil, HMap.init ZNodeData⟩ [1] 1).1 [2] 2).1⟩⟩,
          ⟨[], fun _ => SIZE_MAX⟩⟩
        [ascii "ZQUERY", [122], ascii "0", [], ascii "0", ascii "2"]).2
      = out_arr 2 (out_str [1] ++ out_dbl i64Bytes 1)
    ∧ out_arr 2 (out_str [1] ++ out_dbl i64Bytes 1)
      ≠ out_arr (2 * 2) (out_str [1] ++ out_dbl i64Bytes 1 ++ out_str [2] ++ out_dbl i64Bytes 2) := by
  refine ⟨by decide, by decide, by decide⟩

/-! ### Correctness of the order-statistic walk -/

/-- The cached `cnt` fields are correct (maintained by `avl_update`). -/
def CountsOk : Avl → Prop
  | .nil => True
  | .node l _ _ _ c r => CountsOk l ∧ CountsOk r ∧ c = (inorder l).length + 1 + (inorder r).length

theorem avl_count_eq (t : Avl) (h : CountsOk t) : avl_count t = (inorder t).length := by
  cases t with
  | nil => rfl
  | node l sc nm hh c r =>
      show c = _
      rw [h.2.2]
      simp [inorder]
      omega

/-- The keys preceding the focused subtree, in order. -/
def ctxBefore : Ctx → List (Int × Bytes)
  | .top => []
  | .inL _ _ _ _ _ up => ctxBefore up
  | .inR l sc nm _ _ up => ctxBefore up ++ (inorder l ++ [(sc, nm)])

/-- The keys following the focused subtree, in order. -/
def ctxAfter : Ctx → List (Int × Bytes)
  | .top => []
  | .inL sc nm _ _ r up => ((sc, nm) :: inorder r) ++ ctxAfter up
  | .inR _ _ _ _ _ up => ctxAfter up

theorem plug_inorder : ∀ (ctx : Ctx) (t : Avl),
    inorder (plug t ctx) = ctxBefore ctx ++ inorder t ++ ctxAfter ctx := by
  intro ctx
  induction ctx with
  | top => intro t; simp [plug, ctxBefore, ctxAfter]
  | inL sc nm h c r up ih =>
      intro t
      show inorder (plug (.node t sc nm h c r) up) = _
      rw [ih]
      simp [inorder, ctxBefore, ctxAfter]
  | inR l sc nm h c up ih =>
      intro t
      show inorder (plug (.node l sc nm h c t) up) = _
      rw [ih]
      simp [inorder, ctxBefore, ctxAfter]

/-- Context soundness relative to a focus holding `k` keys: every cached
count along the path is correct. -/
def CtxOk : Ctx → Nat → Prop
  | .top, _ => True
  | .inL _ _ _ c r up, k =>
      CountsOk r ∧ c = k + 1 + (inorder r).length ∧ CtxOk up (k + 1 + (inorder r).length)
  | .inR l _ _ _ c up, k =>
      CountsOk l ∧ c = (inorder l).length + 1 + k ∧ CtxOk up ((inorder l).length + 1 + k)

/-- The rank (in-order index in the whole tree) of the focused node. -/
def rankNode : Avl → Ctx → Nat
  | .nil, ctx => (ctxBefore ctx).length
  | .node l _ _ _ _ _, ctx => (ctxBefore ctx).length + (inorder l).length

theorem get_at_concat (A : List β) (x : β) (B : List β) :
    (A ++ x :: B)[A.length]? = some x := by
  rw [List.getElem?_append_right (Nat.le_refl _)]
  simp

theorem rankNode_lt (l : Avl) (sc : Int) (nm : Bytes) (h c : Nat) (r : Avl) (ctx : Ctx) :
    rankNode (.node l sc nm h c r) ctx < (inorder (plug (.node l sc nm h c r) ctx)).length := by
  rw [plug_inorder]
  simp [rankNode, inorder]

theorem focusKey_at (l : Avl) (sc : Int) (nm : Bytes) (h c : Nat) (r : Avl) (ctx : Ctx) :
    (inorder (plug (.node l sc nm h c r) ctx))[rankNode (.node l sc nm h c r) ctx]?
      = some (sc, nm) := by
  rw [plug_inorder]
  show (ctxBefore ctx ++ (inorder l ++ (sc, nm) :: inorder r) ++ ctxAfter ctx)[
      (ctxBefore ctx).length + (inorder l).length]? = some (sc, nm)
  have hre : ctxBefore ctx ++ (inorder l ++ (sc, nm) :: inorder r) ++ ctxAfter ctx
      = (ctxBefore ctx ++ inorder l) ++ (sc, nm) :: (inorder r ++ ctxAfter ctx) := by
    simp
  rw [hre]
  have hlen : (ctxBefore ctx).length + (inorder l).length
      = (ctxBefore ctx ++ inorder l).length := by simp
  rw [hlen]
  exact get_at_concat _ _ _

/-- What a finished walk step guarantees: either the target rank `tgt`
is a valid index and the result focuses the node at that rank of the
same tree, or `tgt` is out of range and the walk reports null. -/
def WalkSpec (res : Option (Avl × Ctx)) (T : Avl) (tgt : Int) : Prop :=
  (∃ j : Nat, (j : Int) = tgt ∧ j < (inorder T).length ∧
    ∃ t2 ctx2, res = some (t2, ctx2) ∧ t2 ≠ .nil ∧ CountsOk t2
      ∧ CtxOk ctx2 (inorder t2).length ∧ plug t2 ctx2 = T ∧ rankNode t2 ctx2 = j)
  ∨ ((tgt < 0 ∨ ((inorder T).length : Int) ≤ tgt) ∧ res = none)

/-- Iteration bound for the walk: twice the focus size while the target
is inside the focus, context depth plus twice the tree size otherwise. -/
def walkMeasure (t : Avl) (ctx : Ctx) (pos target : Int) : Nat :=
  if ((ctxBefore ctx).length : Int) ≤ (rankNode t ctx : Int) + (target - pos)
      ∧ (rankNode t ctx : Int) + (target - pos)
          < ((ctxBefore ctx).length : Int) + ((inorder t).length : Int)
  then 2 * (inorder t).length
  else ctxDepth ctx + 2 * (inorder (plug t ctx)).length + 1

theorem avl_offset_walk_spec : ∀ (fuel : Nat) (t : Avl) (ctx : Ctx) (pos target : Int),
    t ≠ .nil → CountsOk t → CtxOk ctx (inorder t).length →
    walkMeasure t ctx pos target < fuel →
    WalkSpec (avl_offset_walk fuel t ctx pos target) (plug t ctx)
      ((rankNode t ctx : Int) + (target - pos)) := by
  intro fuel
  induction fuel with
  | zero =>
      intro t ctx pos target _ _ _ hfuel
      exact absurd hfuel (by omega)
  | succ fuel ih =>
      intro t ctx pos target hne hcnt hctx hfuel
      cases t with
      | nil => exact absurd rfl hne
      | node l sc nm h c r =>
        obtain ⟨hcl, hcr, hc⟩ := hcnt
        have hlent : (inorder (.node l sc nm h c r)).length
            = (inorder l).length + 1 + (inorder r).length := by
          simp [inorder]
          omega
        have hL : (inorder (plug (.node l sc nm h c r) ctx)).length
            = (ctxBefore ctx).length + (inorder (.node l sc nm h c r)).length
              + (ctxAfter ctx).length := by
          rw [plug_inorder]
          simp
          omega
        by_cases hpt : pos = target
        · -- found: pos = target
          have hw : avl_offset_walk (fuel + 1) (.node l sc nm h c r) ctx pos target
              = some (.node l sc nm h c r, ctx) := by
            rw [avl_offset_walk.eq_def]
            simp only [if_pos hpt]
          left
          refine ⟨rankNode (.node l sc nm h c r) ctx, by rw [hpt]; push_cast; omega, ?_,
            .node l sc nm h c r, ctx, hw, hne, ⟨hcl, hcr, hc⟩, hctx, rfl, rfl⟩
          exact rankNode_lt l sc nm h c r ctx
        · by_cases hR : pos < target ∧ pos + Int.ofNat (avl_count r) ≥ target
          · -- descend right
            have hcntr := avl_count_eq r hcr
            have hrne : r ≠ .nil := by
              intro hr
              subst hr
              simp [avl_count] at hR
              omega
            cases r with
            | nil => exact absurd rfl hrne
            | node rl rsc rnm rh rc rr =>
              obtain ⟨hcrl, hcrr, hrc⟩ := hcr
              have hw : avl_offset_walk (fuel + 1) (.node l sc nm h c
                    (.node rl rsc rnm rh rc rr)) ctx pos target
                  = avl_offset_walk fuel (.node rl rsc rnm rh rc rr)
                      (.inR l sc nm h c ctx)
                      (pos + Int.ofNat (avl_count rl) + 1) target := by
                rw [avl_offset_walk.eq_def]
                simp only [if_neg hpt, if_pos hR, avl_left]
              have hctx2 : CtxOk (.inR l sc nm h c ctx)
                  (inorder (.node rl rsc rnm rh rc rr)).length := by
                refine ⟨hcl, hc, ?_⟩
                exact hlent ▸ hctx
              have hbefore2 : (ctxBefore (.inR l sc nm h c ctx)).length
                  = (ctxBefore ctx).length + (inorder l).length + 1 := by
                simp [ctxBefore]
                omega
              have hrank : rankNode (.node l sc nm h c (.node rl rsc rnm rh rc rr)) ctx
                  = (ctxBefore ctx).length + (inorder l).length := rfl
              have hrank2 : rankNode (.node rl rsc rnm rh rc rr) (.inR l sc nm h c ctx)
                  = (ctxBefore ctx).length + (inorder l).length + 1 + (inorder rl).length := by
                rw [rankNode, hbefore2]
              have hcrl_eq := avl_count_eq rl hcrl
              have htgt : (rankNode (.node rl rsc rnm rh rc rr) (.inR l sc nm h c ctx) : Int)
                    + (target - (pos + Int.ofNat (avl_count rl) + 1))
                  = (rankNode (.node l sc nm h c (.node rl rsc rnm rh rc rr)) ctx : Int)
                    + (target - pos) := by
                rw [hrank2, hrank, hcrl_eq]
                try simp only [Int.ofNat_eq_coe]
                push_cast
                omega
              have hplug : plug (.node rl rsc rnm rh rc rr) (.inR l sc nm h c ctx)
                  = plug (.node l sc nm h c (.node rl rsc rnm rh rc rr)) ctx := rfl
              have hmeas : walkMeasure (.node rl rsc rnm rh rc rr) (.inR l sc nm h c ctx)
                  (pos + Int.ofNat (avl_count rl) + 1) target < fuel := by
                have hlenr : (inorder (.node rl rsc rnm rh rc rr)).length
                    = (inorder rl).length + 1 + (inorder rr).length := by
                  simp [inorder]
                  omega
                have hin2 : ((ctxBefore (.inR l sc nm h c ctx)).length : Int)
                    ≤ (rankNode (.node rl rsc rnm rh rc rr) (.inR l sc nm h c ctx) : Int)
                      + (target - (pos + Int.ofNat (avl_count rl) + 1))
                    ∧ (rankNode (.node rl rsc rnm rh rc rr) (.inR l sc nm h c ctx) : Int)
                      + (target - (pos + Int.ofNat (avl_count rl) + 1))
                      < ((ctxBefore (.inR l sc nm h c ctx)).length : Int)
                        + ((inorder (.node rl rsc rnm rh rc rr)).length : Int) := by
                  rw [htgt, hrank, hbefore2, hlenr]
                  rw [hcntr] at hR
                  rw [hlenr] at hR
                  try simp only [Int.ofNat_eq_coe] at hR ⊢
                  push_cast at hR ⊢
                  omega
                have hin1 : ((ctxBefore ctx).length : Int)
                    ≤ (rankNode (.node l sc nm h c (.node rl rsc rnm rh rc rr)) ctx : Int)
                      + (target - pos)
                    ∧ (rankNode (.node l sc nm h c (.node rl rsc rnm rh rc rr)) ctx : Int)
                      + (target - pos)
                      < ((ctxBefore ctx).length : Int)
                        + ((inorder (.node l sc nm h c (.node rl rsc rnm rh rc rr))).length : Int) := by
                  rw [hrank, hlent]
                  rw [hcntr] at hR
                  try simp only [Int.ofNat_eq_coe] at hR ⊢
                  push_cast at hR ⊢
                  omega
                rw [walkMeasure, if_pos hin2]
                rw [walkMeasure, if_pos hin1] at hfuel
                have hlenr : (inorder (.node rl rsc rnm rh rc rr)).length
                    = (inorder rl).length + 1 + (inorder rr).length := by
                  simp [inorder]
                  omega
                rw [hlent] at hfuel
                omega
              have := ih (.node rl rsc rnm rh rc rr) (.inR l sc nm h c ctx)
                (pos + Int.ofNat (avl_count rl) + 1) target
                (by intro hcon; cases hcon) ⟨hcrl, hcrr, hrc⟩ hctx2 hmeas
              rw [hw]
              rw [← htgt]
              exact this
          · by_cases hLc : pos > target ∧ pos - Int.ofNat (avl_count l) ≤ target
            · -- descend left
              have hcntl := avl_count_eq l hcl
              have hlne : l ≠ .nil := by
                intro hl
                subst hl
                simp [avl_count] at hLc
                omega
              cases l with
              | nil => exact absurd rfl hlne
              | node ll lsc lnm lh lc lr =>
                obtain ⟨hcll, hclr, hlc⟩ := hcl
                have hw : avl_offset_walk (fuel + 1) (.node (.node ll lsc lnm lh lc lr)
                      sc nm h c r) ctx pos target
                    = avl_offset_walk fuel (.node ll lsc lnm lh lc lr)
                        (.inL sc nm h c r ctx)
                        (pos - Int.ofNat (avl_count lr) - 1) target := by
                  rw [avl_offset_walk.eq_def]
                  simp only [if_neg hpt, if_neg hR, if_pos hLc, avl_right]
                have hctx2 : CtxOk (.inL sc nm h c r ctx)
                    (inorder (.node ll lsc lnm lh lc lr)).length := by
                  refine ⟨hcr, hc, ?_⟩
                  exact hlent ▸ hctx
                have hbefore2 : (ctxBefore (.inL sc nm h c r ctx)).length
                    = (ctxBefore ctx).length := by
                  simp [ctxBefore]
                have hrank : rankNode (.node (.node ll lsc lnm lh lc lr) sc nm h c r) ctx
                    = (ctxBefore ctx).length + (inorder (.node ll lsc lnm lh lc lr)).length :=
                  rfl
                have hlenl : (inorder (.node ll lsc lnm lh lc lr)).length
                    = (inorder ll).length + 1 + (inorder lr).length := by
                  simp [inorder]
                  omega
                have hrank2 : rankNode (.node ll lsc lnm lh lc lr) (.inL sc nm h c r ctx)
                    = (ctxBefore ctx).length + (inorder ll).length := by
                  rw [rankNode, hbefore2]
                have hclr_eq := avl_count_eq lr hclr
                have htgt : (rankNode (.node ll lsc lnm lh lc lr) (.inL sc nm h c r ctx) : Int)
                      + (target - (pos - Int.ofNat (avl_count lr) - 1))
                    = (rankNode (.node (.node ll lsc lnm lh lc lr) sc nm h c r) ctx : Int)
                      + (target - pos) := by
                  rw [hrank2, hrank, hclr_eq, hlenl]
                  try simp only [Int.ofNat_eq_coe]
                  push_cast
                  omega
                have hmeas : walkMeasure (.node ll lsc lnm lh lc lr) (.inL sc nm h c r ctx)
                    (pos - Int.ofNat (avl_count lr) - 1) target < fuel := by
                  have hin2 : ((ctxBefore (.inL sc nm h c r ctx)).length : Int)
                      ≤ (rankNode (.node ll lsc lnm lh lc lr) (.inL sc nm h c r ctx) : Int)
                        + (target - (pos - Int.ofNat (avl_count lr) - 1))
                      ∧ (rankNode (.node ll lsc lnm lh lc lr) (.inL sc nm h c r ctx) : Int)
                        + (target - (pos - Int.ofNat (avl_count lr) - 1))
                        < ((ctxBefore (.inL sc nm h c r ctx)).length : Int)
                          + ((inorder (.node ll lsc lnm lh lc lr)).length : Int) := by
                    rw [htgt, hrank, hbefore2, hlenl]
                    rw [hcntl, hlenl] at hLc
                    try simp only [Int.ofNat_eq_coe] at hLc ⊢
                    push_cast at hLc ⊢
                    omega
                  have hin1 : ((ctxBefore ctx).length : Int)
                      ≤ (rankNode (.node (.node ll lsc lnm lh lc lr) sc nm h c r) ctx : Int)
                        + (target - pos)
                      ∧ (rankNode (.node (.node ll lsc lnm lh lc lr) sc nm h c r) ctx : Int)
                        + (target - pos)
                        < ((ctxBefore ctx).length : Int)
                          + ((inorder (.node (.node ll lsc lnm lh lc lr) sc nm h c r)).length : Int) := by
                    rw [hrank, hlent]
                    rw [hcntl, hlenl] at hLc
                    try simp only [Int.ofNat_eq_coe] at hLc ⊢
                    push_cast at hLc ⊢
                    omega
                  rw [walkMeasure, if_pos hin2]
                  rw [walkMeasure, if_pos hin1] at hfuel
                  rw [hlent, hlenl] at hfuel
                  rw [hlenl]
                  omega
                have := ih (.node ll lsc lnm lh lc lr) (.inL sc nm h c r ctx)
                  (pos - Int.ofNat (avl_count lr) - 1) target
                  (by intro hcon; cases hcon) ⟨hcll, hclr, hlc⟩ hctx2 hmeas
                rw [hw]
                rw [← htgt]
                exact this
            · -- climb to the parent (or fail at the root)
              have hcntl := avl_count_eq l hcl
              have hcntr := avl_count_eq r hcr
              have hout : (rankNode (.node l sc nm h c r) ctx : Int) + (target - pos)
                    < ((ctxBefore ctx).length : Int)
                  ∨ ((ctxBefore ctx).length : Int)
                      + ((inorder (.node l sc nm h c r)).length : Int)
                    ≤ (rankNode (.node l sc nm h c r) ctx : Int) + (target - pos) := by
                have hrank : rankNode (.node l sc nm h c r) ctx
                    = (ctxBefore ctx).length + (inorder l).length := rfl
                rw [hrank, hlent]
                rw [hcntr] at hR
                rw [hcntl] at hLc
                try simp only [Int.ofNat_eq_coe] at hR hLc ⊢
                push_cast at hR hLc ⊢
                omega
              have hmu : walkMeasure (.node l sc nm h c r) ctx pos target
                  = ctxDepth ctx + 2 * (inorder (plug (.node l sc nm h c r) ctx)).length + 1 := by
                rw [walkMeasure, if_neg]
                intro hin
                rcases hout with hout | hout
                · omega
                · omega
              cases ctx with
              | top =>
                  have hw : avl_offset_walk (fuel + 1) (.node l sc nm h c r) .top pos target
                      = none := by
                    rw [avl_offset_walk.eq_def]
                    simp only [if_neg hpt, if_neg hR, if_neg hLc]
                  right
                  refine ⟨?_, hw⟩
                  rcases hout with hout | hout
                  · left
                    simpa [ctxBefore] using hout
                  · right
                    rw [plug_inorder]
                    simp only [ctxBefore, ctxAfter] at hout ⊢
                    try simp only [Int.ofNat_eq_coe] at hout ⊢
                    push_cast at hout ⊢
                    simp at hout ⊢
                    omega
              | inR pl psc pnm ph pc up =>
                  obtain ⟨hcpl, hpc, hup⟩ := hctx
                  have hw : avl_offset_walk (fuel + 1) (.node l sc nm h c r)
                        (.inR pl psc pnm ph pc up) pos target
                      = avl_offset_walk fuel
                          (.node pl psc pnm ph pc (.node l sc nm h c r)) up
                          (pos - Int.ofNat (avl_count l) - 1) target := by
                    rw [avl_offset_walk.eq_def]
                    simp only [if_neg hpt, if_neg hR, if_neg hLc]
                  have hcnt2 : CountsOk (.node pl psc pnm ph pc (.node l sc nm h c r)) :=
                    ⟨hcpl, ⟨hcl, hcr, hc⟩, by rw [hpc, hlent]⟩
                  have hctx2 : CtxOk up
                      (inorder (.node pl psc pnm ph pc (.node l sc nm h c r))).length := by
                    have : (inorder (.node pl psc pnm ph pc (.node l sc nm h c r))).length
                        = (inorder pl).length + 1 + (inorder (.node l sc nm h c r)).length := by
                      simp [inorder]
                      omega
                    rw [this]
                    exact hup
                  have hbefore : (ctxBefore (.inR pl psc pnm ph pc up)).length
                      = (ctxBefore up).length + (inorder pl).length + 1 := by
                    simp [ctxBefore]
                    omega
                  have htgt : (rankNode (.node pl psc pnm ph pc (.node l sc nm h c r)) up : Int)
                        + (target - (pos - Int.ofNat (avl_count l) - 1))
                      = (rankNode (.node l sc nm h c r) (.inR pl psc pnm ph pc up) : Int)
                        + (target - pos) := by
                    show ((ctxBefore up).length + (inorder pl).length : Int)
                        + (target - (pos - Int.ofNat (avl_count l) - 1)) = _
                    rw [hcntl]
                    show _ = ((ctxBefore (.inR pl psc pnm ph pc up)).length
                        + (inorder l).length : Int) + (target - pos)
                    rw [hbefore]
                    try simp only [Int.ofNat_eq_coe]
                    push_cast
                    omega
                  have hplug : plug (.node pl psc pnm ph pc (.node l sc nm h c r)) up
                      = plug (.node l sc nm h c r) (.inR pl psc pnm ph pc up) := rfl
                  have hmeas : walkMeasure (.node pl psc pnm ph pc (.node l sc nm h c r)) up
                      (pos - Int.ofNat (avl_count l) - 1) target < fuel := by
                    rw [hmu] at hfuel
                    have hsub : (inorder (.node pl psc pnm ph pc (.node l sc nm h c r))).length
                        ≤ (inorder (plug (.node pl psc pnm ph pc (.node l sc nm h c r)) up)).length := by
                      rw [plug_inorder]
                      simp
                      omega
                    rw [walkMeasure]
                    split
                    · simp only [ctxDepth] at hfuel
                      rw [hplug] at hsub
                      omega
                    · simp only [ctxDepth] at hfuel
                      rw [hplug]
                      omega
                  have := ih (.node pl psc pnm ph pc (.node l sc nm h c r)) up
                    (pos - Int.ofNat (avl_count l) - 1) target
                    (by intro hcon; cases hcon) hcnt2 hctx2 hmeas
                  rw [hw, ← htgt, ← hplug]
                  exact this
              | inL psc pnm ph pc pr up =>
                  obtain ⟨hcpr, hpc, hup⟩ := hctx
                  have hw : avl_offset_walk (fuel + 1) (.node l sc nm h c r)
                        (.inL psc pnm ph pc pr up) pos target
                      = avl_offset_walk fuel
                          (.node (.node l sc nm h c r) psc pnm ph pc pr) up
                          (pos + Int.ofNat (avl_count r) + 1) target := by
                    rw [avl_offset_walk.eq_def]
                    simp only [if_neg hpt, if_neg hR, if_neg hLc]
                  have hcnt2 : CountsOk (.node (.node l sc nm h c r) psc pnm ph pc pr) :=
                    ⟨⟨hcl, hcr, hc⟩, hcpr, by rw [hpc, hlent]⟩
                  have hctx2 : CtxOk up
                      (inorder (.node (.node l sc nm h c r) psc pnm ph pc pr)).length := by
                    have : (inorder (.node (.node l sc nm h c r) psc pnm ph pc pr)).length
                        = (inorder (.node l sc nm h c r)).length + 1 + (inorder pr).length := by
                      simp [inorder]
                      omega
                    rw [this]
                    exact hup
                  have hbefore : (ctxBefore (.inL psc pnm ph pc pr up)).length
                      = (ctxBefore up).length := by
                    simp [ctxBefore]
                  have htgt : (rankNode (.node (.node l sc nm h c r) psc pnm ph pc pr) up : Int)
                        + (target - (pos + Int.ofNat (avl_count r) + 1))
                      = (rankNode (.node l sc nm h c r) (.inL psc pnm ph pc pr up) : Int)
                        + (target - pos) := by
                    show ((ctxBefore up).length + (inorder (.node l sc nm h c r)).length : Int)
                        + (target - (pos + Int.ofNat (avl_count r) + 1)) = _
                    rw [hcntr, hlent]
                    show _ = ((ctxBefore (.inL psc pnm ph pc pr up)).length
                        + (inorder l).length : Int) + (target - pos)
                    rw [hbefore]
                    try simp only [Int.ofNat_eq_coe]
                    push_cast
                    omega
                  have hplug : plug (.node (.node l sc nm h c r) psc pnm ph pc pr) up
                      = plug (.node l sc nm h c r) (.inL psc pnm ph pc pr up) := rfl
                  have hmeas : walkMeasure (.node (.node l sc nm h c r) psc pnm ph pc pr) up
                      (pos + Int.ofNat (avl_count r) + 1) target < fuel := by
                    rw [hmu] at hfuel
                    have hsub : (inorder (.node (.node l sc nm h c r) psc pnm ph pc pr)).length
                        ≤ (inorder (plug (.node (.node l sc nm h c r) psc pnm ph pc pr) up)).length := by
                      rw [plug_inorder]
                      simp
                      omega
                    rw [walkMeasure]
                    split
                    · simp only [ctxDepth] at hfuel
                      rw [hplug] at hsub
                      omega
                    · simp only [ctxDepth] at hfuel
                      rw [hplug]
                      omega
                  have := ih (.node (.node l sc nm h c r) psc pnm ph pc pr) up
                    (pos + Int.ofNat (avl_count r) + 1) target
                    (by intro hcon; cases hcon) hcnt2 hctx2 hmeas
                  rw [hw, ← htgt, ← hplug]
                  exact this

theorem znode_offset_spec (t : Avl) (ctx : Ctx) (off : Int)
    (hne : t ≠ .nil) (hcnt : CountsOk t) (hctx : CtxOk ctx (inorder t).length) :
    WalkSpec (znode_offset (some (t, ctx)) off) (plug t ctx)
      ((rankNode t ctx : Int) + off) := by
  have hsub : (inorder t).length ≤ (inorder (plug t ctx)).length := by
    rw [plug_inorder]
    simp
    omega
  have hmeas : walkMeasure t ctx 0 off
      < ctxDepth ctx + 2 * (inorder (plug t ctx)).length + 2 := by
    rw [walkMeasure]
    split
    · omega
    · omega
  have := avl_offset_walk_spec (ctxDepth ctx + 2 * (inorder (plug t ctx)).length + 2)
    t ctx 0 off hne hcnt hctx hmeas
  rw [znode_offset]
  have heq : (rankNode t ctx : Int) + (off - 0) = (rankNode t ctx : Int) + off := by ring
  rw [heq] at this
  exact this

theorem countP_lower_bound (L : List (Int × Bytes)) (s : Int) (m : Bytes) (j : Nat)
    (hsorted : L.Pairwise keyLt)
    (hlt : ∀ x ∈ L.take j, zless x.1 x.2 s m = true)
    (hj : j < L.length)
    (hge : zless (L.get ⟨j, hj⟩).1 (L.get ⟨j, hj⟩).2 s m = false) :
    L.countP (fun p => zless p.1 p.2 s m) = j := by
  have hsplit : L = L.take j ++ L.drop j := (List.take_append_drop j L).symm
  rw [hsplit, List.countP_append]
  have h1 : (L.take j).countP (fun p => zless p.1 p.2 s m) = j := by
    have hall : ∀ x ∈ L.take j, (fun p : Int × Bytes => zless p.1 p.2 s m) x = true := hlt
    rw [List.countP_eq_length.mpr hall, List.length_take]
    omega
  have h2 : (L.drop j).countP (fun p => zless p.1 p.2 s m) = 0 := by
    rw [List.countP_eq_zero]
    intro x hx
    simp only [Bool.not_eq_true]
    obtain ⟨i, hi, hgx⟩ := List.mem_iff_getElem.mp hx
    rw [List.getElem_drop] at hgx
    have hlen : j + i < L.length := by
      rw [List.length_drop] at hi
      omega
    have hx2 : L.get ⟨j + i, hlen⟩ = x := by
      rw [← hgx]
      rfl
    cases hzx : zless x.1 x.2 s m with
    | false => rfl
    | true =>
        exfalso
        by_cases hi0 : i = 0
        · subst hi0
          have hxx : zless x.1 x.2 s m = false := by
            rw [← hx2]
            exact hge
          rw [hzx] at hxx
          cases hxx
        · have hrel : keyLt (L.get ⟨j, hj⟩) (L.get ⟨j + i, hlen⟩) := by
            rw [List.pairwise_iff_getElem] at hsorted
            exact hsorted j (j + i) hj hlen (by omega)
          rw [hx2] at hrel
          have hk : keyLt x (s, m) := hzx
          have hk2 : keyLt (L.get ⟨j, hj⟩) (s, m) := keyLt_trans _ _ _ hrel hk
          have hc : zless (L.get ⟨j, hj⟩).1 (L.get ⟨j, hj⟩).2 s m = true := hk2
          rw [hc] at hge
          cases hge
  rw [h1, h2]
  omega

/-- Invariant of the `zset_query` candidate: it focuses the node
immediately after the current subtree (rank `rk`), holds a key not less
than the search key, and reassembles to the whole tree. -/
def FoundOk : Option (Avl × Ctx) → Nat → Avl → Int → Bytes → Prop
  | none, rk, T, _, _ => rk = (inorder T).length
  | some (tf, ctxf), rk, T, s, m =>
      tf ≠ .nil ∧ CountsOk tf ∧ CtxOk ctxf (inorder tf).length ∧ plug tf ctxf = T
        ∧ rankNode tf ctxf = rk
        ∧ ∃ fl fsc fnm fh fc fr, tf = .node fl fsc fnm fh fc fr ∧ zless fsc fnm s m = false

/-- What `zset_query` returns: the node at the lower-bound rank (the
number of tuples strictly below the search key), or null when no tuple
is ≥ the key. -/
def QueryOut (res : Option (Avl × Ctx)) (T : Avl) (s : Int) (m : Bytes) : Prop :=
  match res with
  | none => (inorder T).countP (fun p => zless p.1 p.2 s m) = (inorder T).length
  | some (tf, ctxf) =>
      tf ≠ .nil ∧ CountsOk tf ∧ CtxOk ctxf (inorder tf).length ∧ plug tf ctxf = T
        ∧ rankNode tf ctxf = (inorder T).countP (fun p => zless p.1 p.2 s m)
        ∧ ∃ fl fsc fnm fh fc fr, tf = .node fl fsc fnm fh fc fr ∧ zless fsc fnm s m = false

theorem zset_query_desc_spec : ∀ (t : Avl) (ctx : Ctx) (s : Int) (m : Bytes)
    (found : Option (Avl × Ctx)),
    CountsOk t → CtxOk ctx (inorder t).length →
    (inorder (plug t ctx)).Pairwise keyLt →
    (∀ x ∈ ctxBefore ctx, zless x.1 x.2 s m = true) →
    FoundOk found ((ctxBefore ctx).length + (inorder t).length) (plug t ctx) s m →
    QueryOut (zset_query_desc t ctx s m found) (plug t ctx) s m := by
  intro t
  induction t with
  | nil =>
      intro ctx s m found _ _ hsorted hbefore hfound
      have hplg : inorder (plug .nil ctx) = ctxBefore ctx ++ ctxAfter ctx := by
        rw [plug_inorder]
        simp [inorder]
      show QueryOut found _ _ _
      cases found with
      | none =>
          show (inorder (plug .nil ctx)).countP _ = (inorder (plug .nil ctx)).length
          have hrk : (ctxBefore ctx).length + (inorder (Avl.nil)).length
              = (inorder (plug .nil ctx)).length := hfound
          simp [inorder] at hrk
          rw [List.countP_eq_length]
          intro x hx
          rw [hplg] at hx
          have hafter : (ctxAfter ctx).length = 0 := by
            have := congrArg List.length hplg
            simp at this
            omega
          rw [List.length_eq_zero] at hafter
          rw [hafter, List.append_nil] at hx
          exact hbefore x hx
      | some tc =>
          obtain ⟨tf, ctxf⟩ := tc
          obtain ⟨hfne, hfcnt, hfctx, hfplug, hfrank, fl, fsc, fnm, fh, fc, fr, hft, hfz⟩ :=
            hfound
          refine ⟨hfne, hfcnt, hfctx, hfplug, ?_, fl, fsc, fnm, fh, fc, fr, hft, hfz⟩
          have hj : rankNode tf ctxf < (inorder (plug .nil ctx)).length := by
            rw [← hfplug, hft]
            exact hft ▸ rankNode_lt fl fsc fnm fh fc fr ctxf
          have hat : (inorder (plug .nil ctx))[rankNode tf ctxf]? = some (fsc, fnm) := by
            rw [← hfplug, hft]
            exact hft ▸ focusKey_at fl fsc fnm fh fc fr ctxf
          have hget : (inorder (plug .nil ctx)).get ⟨rankNode tf ctxf, hj⟩ = (fsc, fnm) := by
            have := List.getElem?_eq_getElem hj
            rw [this] at hat
            rw [Option.some_inj] at hat
            exact hat
          rw [countP_lower_bound (inorder (plug .nil ctx)) s m (rankNode tf ctxf)
            hsorted ?_ hj ?_]
          · intro x hx
            have hrk2 : rankNode tf ctxf = (ctxBefore ctx).length := by
              rw [hfrank]
              simp [inorder]
            rw [hrk2, hplg, List.take_left] at hx
            exact hbefore x hx
          · rw [hget]
            exact hfz
  | node l sc nm h c r ihl ihr =>
      intro ctx s m found hcnt hctx hsorted hbefore hfound
      obtain ⟨hcl, hcr, hc⟩ := hcnt
      have hlent : (inorder (.node l sc nm h c r)).length
          = (inorder l).length + 1 + (inorder r).length := by
        simp [inorder]
        omega
      have hsub : (inorder (.node l sc nm h c r)).Pairwise keyLt := by
        have hsl : List.Sublist (inorder (.node l sc nm h c r))
            (inorder (plug (.node l sc nm h c r) ctx)) := by
          rw [plug_inorder]
          exact (List.sublist_append_right (ctxBefore ctx) _).trans
            (List.sublist_append_left _ _) |>.trans (List.Sublist.refl _)
        exact hsorted.sublist hsl
      have hl_lt : ∀ x ∈ inorder l, keyLt x (sc, nm) := by
        have := (List.pairwise_append.mp (by simpa [inorder] using hsub)).2.2
        intro x hx
        exact this x hx (sc, nm) (List.mem_cons_self _ _)
      by_cases hz : zless sc nm s m
      · -- go right
        have hstep : zset_query_desc (.node l sc nm h c r) ctx s m found
            = zset_query_desc r (.inR l sc nm h c ctx) s m found := by
          rw [zset_query_desc, if_pos hz]
        have hctx2 : CtxOk (.inR l sc nm h c ctx) (inorder r).length :=
          ⟨hcl, hc, hlent ▸ hctx⟩
        have hbefore2 : ∀ x ∈ ctxBefore (.inR l sc nm h c ctx),
            zless x.1 x.2 s m = true := by
          intro x hx
          simp only [ctxBefore, List.mem_append] at hx
          rcases hx with hx | hx | hx
          · exact hbefore x hx
          · have h1 : keyLt x (sc, nm) := hl_lt x hx
            have h2 : keyLt (sc, nm) (s, m) := hz
            exact keyLt_trans _ _ _ h1 h2
          · rw [List.mem_singleton] at hx
            rw [hx]
            exact hz
        have hkr : (ctxBefore (.inR l sc nm h c ctx)).length + (inorder r).length
            = (ctxBefore ctx).length + (inorder (.node l sc nm h c r)).length := by
          simp [ctxBefore, inorder]
          omega
        have hfound2 : FoundOk found
            ((ctxBefore (.inR l sc nm h c ctx)).length + (inorder r).length)
            (plug r (.inR l sc nm h c ctx)) s m := by
          rw [hkr]
          exact hfound
        rw [hstep]
        exact ihr (.inR l sc nm h c ctx) s m found hcr hctx2 hsorted hbefore2 hfound2
      · -- keep this node as candidate, go left
        have hstep : zset_query_desc (.node l sc nm h c r) ctx s m found
            = zset_query_desc l (.inL sc nm h c r ctx) s m
                (some (.node l sc nm h c r, ctx)) := by
          rw [zset_query_desc, if_neg hz]
        have hctx2 : CtxOk (.inL sc nm h c r ctx) (inorder l).length :=
          ⟨hcr, hc, hlent ▸ hctx⟩
        have hbefore2 : ∀ x ∈ ctxBefore (.inL sc nm h c r ctx),
            zless x.1 x.2 s m = true := by
          intro x hx
          exact hbefore x hx
        have hfound2 : FoundOk (some (.node l sc nm h c r, ctx))
            ((ctxBefore (.inL sc nm h c r ctx)).length + (inorder l).length)
            (plug l (.inL sc nm h c r ctx)) s m := by
          refine ⟨?_, ⟨hcl, hcr, hc⟩, hctx, rfl, ?_, l, sc, nm, h, c, r, rfl, ?_⟩
          · intro hcon
            cases hcon
          · show rankNode (.node l sc nm h c r) ctx = _
            rw [rankNode]
            simp [ctxBefore]
          · simpa using hz
        rw [hstep]
        exact ihl (.inL sc nm h c r ctx) s m (some (.node l sc nm h c r, ctx))
          hcl hctx2 hsorted hbefore2 hfound2

theorem zset_query_spec (t : Avl) (s : Int) (m : Bytes)
    (hcnt : CountsOk t) (hsorted : (inorder t).Pairwise keyLt) :
    QueryOut (zset_query t s m) t s m := by
  have := zset_query_desc_spec t .top s m none hcnt trivial
    (by show (inorder (plug t .top)).Pairwise keyLt; exact hsorted)
    (by intro x hx; simp [ctxBefore] at hx)
    (by show (ctxBefore Ctx.top).length + (inorder t).length = (inorder (plug t .top)).length
        simp [ctxBefore, plug])
  exact this

theorem zquery_emit_none (enc : Int → Bytes) (fuel n : Nat) (limit : Int) :
    zquery_emit enc fuel none n limit = (n, []) := by
  cases fuel <;> rfl

theorem zquery_emit_spec : ∀ (fuel : Nat) (t : Avl) (ctx : Ctx) (n : Nat) (limit : Int)
    (enc : Int → Bytes),
    t ≠ .nil → CountsOk t → CtxOk ctx (inorder t).length →
    (limit.toNat - n + 1) / 2 ≤ fuel →
    zquery_emit enc fuel (some (t, ctx)) n limit
      = (n + 2 * min ((limit.toNat - n + 1) / 2)
            ((inorder (plug t ctx)).length - rankNode t ctx),
         ((((inorder (plug t ctx)).drop (rankNode t ctx)).take
             (min ((limit.toNat - n + 1) / 2)
               ((inorder (plug t ctx)).length - rankNode t ctx))).map
            (fun p => out_str p.2 ++ out_dbl enc p.1)).flatten) := by
  intro fuel
  induction fuel with
  | zero =>
      intro t ctx n limit enc hne hcnt hctx hfuel
      have hk : (limit.toNat - n + 1) / 2 = 0 := by omega
      rw [hk]
      simp [zquery_emit]
  | succ fuel ih =>
      intro t ctx n limit enc hne hcnt hctx hfuel
      cases t with
      | nil => exact absurd rfl hne
      | node l sc nm h c r =>
        have hrlt := rankNode_lt l sc nm h c r ctx
        by_cases hlt : (n : Int) < limit
        · have hx1 : 1 ≤ limit.toNat - n := by omega
          have hstep : zquery_emit enc (fuel + 1) (some (.node l sc nm h c r, ctx)) n limit
              = (let rest := zquery_emit enc fuel
                    (znode_offset (some (.node l sc nm h c r, ctx)) 1) (n + 2) limit
                 (rest.1, (out_str nm ++ out_dbl enc sc) ++ rest.2)) := by
            rw [zquery_emit.eq_def]
            simp only [if_pos hlt]
          have hkey := focusKey_at l sc nm h c r ctx
          have hget : (inorder (plug (.node l sc nm h c r) ctx))[
              rankNode (.node l sc nm h c r) ctx] = (sc, nm) := by
            have h2 := List.getElem?_eq_getElem hrlt
            rw [h2] at hkey
            rw [Option.some_inj] at hkey
            exact hkey
          have hwalk := znode_offset_spec (.node l sc nm h c r) ctx 1 hne hcnt hctx
          rcases hwalk with ⟨j, hjeq, hjlt, t2, ctx2, hw, h2ne, h2cnt, h2ctx, h2plug, h2rank⟩
            | ⟨hout, hwnone⟩
          · -- successor exists: rank + 1
            have hjval : j = rankNode (.node l sc nm h c r) ctx + 1 := by omega
            have hfuel2 : (limit.toNat - (n + 2) + 1) / 2 ≤ fuel := by omega
            have := ih t2 ctx2 (n + 2) limit enc h2ne h2cnt h2ctx hfuel2
            rw [h2plug, h2rank, hjval] at this
            rw [hstep]
            show ((zquery_emit enc fuel
                (znode_offset (some (.node l sc nm h c r, ctx)) 1) (n + 2) limit).1,
              (out_str nm ++ out_dbl enc sc)
                ++ (zquery_emit enc fuel
                    (znode_offset (some (.node l sc nm h c r, ctx)) 1) (n + 2) limit).2) = _
            rw [hw, this]
            have hdrop : (inorder (plug (.node l sc nm h c r) ctx)).drop
                (rankNode (.node l sc nm h c r) ctx)
                = (sc, nm) :: (inorder (plug (.node l sc nm h c r) ctx)).drop
                    (rankNode (.node l sc nm h c r) ctx + 1) := by
              rw [List.drop_eq_getElem_cons hrlt, hget]
            have hKsucc : min ((limit.toNat - n + 1) / 2)
                  ((inorder (plug (.node l sc nm h c r) ctx)).length
                    - rankNode (.node l sc nm h c r) ctx)
                = min ((limit.toNat - (n + 2) + 1) / 2)
                    ((inorder (plug (.node l sc nm h c r) ctx)).length
                      - (rankNode (.node l sc nm h c r) ctx + 1)) + 1 := by
              omega
            rw [hKsucc, hdrop]
            rw [List.take_succ_cons, List.map_cons, List.flatten_cons]
            rw [Prod.mk.injEq]
            refine ⟨?_, rfl⟩
            show n + 2 + 2 * _ = n + 2 * (_ + 1)
            omega
          · -- no successor: this is the last element
            have hlast : (inorder (plug (.node l sc nm h c r) ctx)).length
                = rankNode (.node l sc nm h c r) ctx + 1 := by omega
            have hK1 : min ((limit.toNat - n + 1) / 2)
                  ((inorder (plug (.node l sc nm h c r) ctx)).length
                    - rankNode (.node l sc nm h c r) ctx) = 1 := by
              omega
            rw [hstep]
            show ((zquery_emit enc fuel
                (znode_offset (some (.node l sc nm h c r, ctx)) 1) (n + 2) limit).1,
              (out_str nm ++ out_dbl enc sc)
                ++ (zquery_emit enc fuel
                    (znode_offset (some (.node l sc nm h c r, ctx)) 1) (n + 2) limit).2) = _
            rw [hwnone, zquery_emit_none]
            have hdrop : (inorder (plug (.node l sc nm h c r) ctx)).drop
                (rankNode (.node l sc nm h c r) ctx)
                = (sc, nm) :: (inorder (plug (.node l sc nm h c r) ctx)).drop
                    (rankNode (.node l sc nm h c r) ctx + 1) := by
              have hkey := focusKey_at l sc nm h c r ctx
              have h2 := List.getElem?_eq_getElem hrlt
              rw [h2] at hkey
              rw [Option.some_inj] at hkey
              rw [List.drop_eq_getElem_cons hrlt, hkey]
            rw [hK1, hdrop]
            have hdrop2 : (inorder (plug (.node l sc nm h c r) ctx)).drop
                (rankNode (.node l sc nm h c r) ctx + 1) = [] := by
              rw [List.drop_eq_nil_iff_le]
              omega
            rw [List.take_succ_cons, List.take_zero, List.map_cons, List.map_nil,
              List.flatten_cons, List.flatten_nil]
        · have hk : (limit.toNat - n + 1) / 2 = 0 := by omega
          have hstep : zquery_emit enc (fuel + 1) (some (.node l sc nm h c r, ctx)) n limit
              = (n, []) := by
            rw [zquery_emit.eq_def]
            simp only [if_neg hlt]
          rw [hstep, hk]
          simp

/-- C3 (amended): `ZQUERY z s m off lim` with `off ≥ 0`, `lim > 0` against
an existing sorted set answers the array of the tuples from the first
tuple ≥ `(s, m)`, after skipping `off` positions, truncated to
`⌈lim/2⌉ = (lim+1)/2` *pairs* (the loop counts two array elements per
tuple against `lim`), each pair emitted as member then score; the array
length field counts elements (twice the pairs). -/
theorem claim_c3_amended (enc : Int → Bytes) (g : GData)
    (kz sArg m offArg limArg : Bytes) (zs : ZSet) (s off lim : Int)
    (hdb : DbOk g.db) (hzok : ZSetOk zs) (hcnt : CountsOk zs.tree)
    (hmem : ∃ n ∈ hmapList g.db, n.data.key = kz
      ∧ n.data.type = T_ZSET ∧ n.data.zset = zs)
    (hs : str2dbl sArg = some s) (hoff : str2int offArg = some off)
    (hlim : str2int limArg = some lim) (hoff0 : 0 ≤ off) (hlim0 : 0 < lim) :
    (do_zquery enc g [ascii "ZQUERY", kz, sArg, m, offArg, limArg]).2
      = out_arr
          (2 * min ((lim.toNat + 1) / 2)
            ((inorder zs.tree).length
              - ((inorder zs.tree).countP (fun p => zless p.1 p.2 s m) + off.toNat)))
          (((((inorder zs.tree).drop
                ((inorder zs.tree).countP (fun p => zless p.1 p.2 s m) + off.toNat)).take
              (min ((lim.toNat + 1) / 2)
                ((inorder zs.tree).length
                  - ((inorder zs.tree).countP (fun p => zless p.1 p.2 s m) + off.toNat)))).map
            (fun p => out_str p.2 ++ out_dbl enc p.1)).flatten) := by
  have hs2 : str2dbl ([ascii "ZQUERY", kz, sArg, m, offArg, limArg].getD 2 []) = some s := hs
  have hoff2 : str2int ([ascii "ZQUERY", kz, sArg, m, offArg, limArg].getD 4 []) = some off :=
    hoff
  have hlim2 : str2int ([ascii "ZQUERY", kz, sArg, m, offArg, limArg].getD 5 []) = some lim :=
    hlim
  -- the lookup finds the (unique) entry for kz
  obtain ⟨n0, hn0, hkey0, htype0, hzs0⟩ := hmem
  have hhit : ∃ node, (hm_lookup g.db (entryKeyNode kz) entry_eq).2 = some node := by
    cases hr : (hm_lookup g.db (entryKeyNode kz) entry_eq).2 with
    | some node => exact ⟨node, rfl⟩
    | none =>
        exfalso
        refine hm_lookup_missing g.db (entryKeyNode kz) entry_eq hdb.mapok hr n0 hn0 ⟨?_, ?_⟩
        · rw [hdb.hcodes n0 hn0, hkey0]
          rfl
        · rw [entry_eq, string_compare]
          show (n0.data.key == kz) = true
          rw [beq_iff_eq]
          exact hkey0
  obtain ⟨node, hr⟩ := hhit
  have hfound := hm_lookup_found g.db (entryKeyNode kz) entry_eq node hdb.mapok hr
  have hkeyn : node.data.key = kz := by
    have heq := hfound.2.2
    rw [entry_eq, string_compare] at heq
    exact beq_iff_eq.mp heq
  have hnode_eq : node = n0 := by
    refine List.inj_on_of_nodup_map hdb.nodup hfound.1 hn0 ?_
    show node.data.key = n0.data.key
    rw [hkeyn, hkey0]
  have htype : node.data.type = T_ZSET := by rw [hnode_eq]; exact htype0
  have hzs : node.data.zset = zs := by rw [hnode_eq]; exact hzs0
  have hexp : expect_zset g.db ([ascii "ZQUERY", kz, sArg, m, offArg, limArg].getD 1 [])
      = ((hm_lookup g.db (entryKeyNode kz) entry_eq).1, .ok node.data) := by
    show expect_zset g.db kz = _
    simp only [expect_zset, hr]
    rw [if_neg (show ¬ (node.data.type ≠ T_ZSET) from fun hcon => hcon htype)]
  have hlimneg : ¬ lim ≤ 0 := by omega
  have hval : (do_zquery enc g [ascii "ZQUERY", kz, sArg, m, offArg, limArg]).2
      = out_arr (zquery_emit enc lim.toNat
            (znode_offset (zset_query zs.tree s m) off) 0 lim).1
          (zquery_emit enc lim.toNat
            (znode_offset (zset_query zs.tree s m) off) 0 lim).2 := by
    simp only [do_zquery, hs2, hoff2, hlim2, hexp, if_neg hlimneg, hzs]
    rfl
  rw [hval]
  have hsorted : (inorder zs.tree).Pairwise keyLt := (isBST_iff_pairwise zs.tree).mp hzok.bst
  have hquery := zset_query_spec zs.tree s m hcnt hsorted
  have hfuel0 : (lim.toNat - 0 + 1) / 2 ≤ lim.toNat := by omega
  cases hq : zset_query zs.tree s m with
  | none =>
      rw [hq] at hquery
      have hi0 : (inorder zs.tree).countP (fun p => zless p.1 p.2 s m)
          = (inorder zs.tree).length := hquery
      have hK0 : min ((lim.toNat + 1) / 2)
          ((inorder zs.tree).length
            - ((inorder zs.tree).countP (fun p => zless p.1 p.2 s m) + off.toNat)) = 0 := by
        omega
      have hnone : znode_offset (none : Option (Avl × Ctx)) off = none := rfl
      rw [hnone, zquery_emit_none, hK0]
      simp
  | some tc =>
      obtain ⟨tf, ctxf⟩ := tc
      rw [hq] at hquery
      obtain ⟨hfne, hfcnt, hfctx, hfplug, hfrank, _, _, _, _, _, _, _, _⟩ := hquery
      have hwalk := znode_offset_spec tf ctxf off hfne hfcnt hfctx
      rcases hwalk with ⟨j, hjeq, hjlt, t2, ctx2, hw, h2ne, h2cnt, h2ctx, h2plug, h2rank⟩
        | ⟨hout, hwnone⟩
      · -- start position exists
        have hjval : j = (inorder zs.tree).countP (fun p => zless p.1 p.2 s m) + off.toNat := by
          rw [hfrank] at hjeq
          omega
        have hemit := zquery_emit_spec lim.toNat t2 ctx2 0 lim enc h2ne h2cnt h2ctx hfuel0
        rw [h2plug, hfplug] at hemit
        rw [h2rank, hjval] at hemit
        rw [hw, hemit]
        have harith : (lim.toNat - 0 + 1) / 2 = (lim.toNat + 1) / 2 := by omega
        rw [harith]
        simp
      · -- offset runs past the end: empty array
        rw [hfplug] at hout
        have hK0 : min ((lim.toNat + 1) / 2)
            ((inorder zs.tree).length
              - ((inorder zs.tree).countP (fun p => zless p.1 p.2 s m) + off.toNat)) = 0 := by
          rw [hfrank] at hout
          omega
        rw [hwnone, zquery_emit_none, hK0]
        simp

theorem claim_c3_amended_witness :
    (do_zquery i64Bytes ⟨hm_insert (HMap.init EntryData)
          ⟨fnv1a [122], ⟨[122], [], T_ZSET,
            ⟨.node .nil 1 [1] 2 2 (.node .nil 2 [2] 1 1 .nil),
             hm_insert (hm_insert (HMap.init ZNodeData) (znode_new [1] 1))
               (znode_new [2] 2)⟩⟩⟩,
        ⟨[], fun _ => SIZE_MAX⟩⟩
      [ascii "ZQUERY", [122], ascii "0", [], ascii "0", ascii "2"]).2
    = out_arr 2 (out_str [1] ++ out_dbl i64Bytes 1) := by
  have h := claim_c3_amended i64Bytes
    ⟨hm_insert (HMap.init EntryData)
        ⟨fnv1a [122], ⟨[122], [], T_ZSET,
          ⟨.node .nil 1 [1] 2 2 (.node .nil 2 [2] 1 1 .nil),
           hm_insert (hm_insert (HMap.init ZNodeData) (znode_new [1] 1))
             (znode_new [2] 2)⟩⟩⟩,
      ⟨[], fun _ => SIZE_MAX⟩⟩
    [122] (ascii "0") [] (ascii "0") (ascii "2")
    ⟨.node .nil 1 [1] 2 2 (.node .nil 2 [2] 1 1 .nil),
     hm_insert (hm_insert (HMap.init ZNodeData) (znode_new [1] 1)) (znode_new [2] 2)⟩
    0 0 2
    ⟨(hm_insert_ok (HMap.init EntryData)
        ⟨fnv1a [122], ⟨[122], [], T_ZSET,
          ⟨.node .nil 1 [1] 2 2 (.node .nil 2 [2] 1 1 .nil),
           hm_insert (hm_insert (HMap.init ZNodeData) (znode_new [1] 1))
             (znode_new [2] 2)⟩⟩⟩ mapOk_init).1, by decide, by decide⟩
    ⟨⟨trivial, ⟨trivial, trivial,
        fun k hk => absurd hk (List.not_mem_nil k),
        fun k hk => absurd hk (List.not_mem_nil k)⟩,
      fun k hk => absurd hk (List.not_mem_nil k),
      fun k hk => by
        simp [inorder] at hk
        subst hk
        decide⟩,
     (hm_insert_ok (hm_insert (HMap.init ZNodeData) (znode_new [1] 1)) (znode_new [2] 2)
       (hm_insert_ok (HMap.init ZNodeData) (znode_new [1] 1) mapOk_init).1).1,
     by decide, by decide, by decide⟩
    ⟨trivial, ⟨trivial, trivial, by decide⟩, by decide⟩
    (by decide)
    (by decide) (by decide) (by decide) (by decide) (by decide)
  rw [h]
  decide
